import Mathlib

/-!
# Obelisk storage engine: B-tree index, buffer pool, transaction manager

A shallow embedding of `src/btree/btree.c`, `src/buffer/buffer_pool.c` and
`src/transaction/transaction.c`, followed by the properties proved about them.

Conventions of the embedding

* A C array is a `List Nat` of the declared length; `rd a i` reads slot `i` and
  `wr a i v` writes it.
* A pointer to a heap node is a `Nat`; `0` is `NULL` and `p > 0` designates slot
  `p - 1` of the heap list.
* `malloc`/`realloc` are taken to succeed; the bytes `malloc` leaves
  indeterminate are modelled as `0`.
* Functions are modelled on non-`NULL` handles (`tree`, `pool`, `txn`): the
  leading `if (!x) return ...` guard of each C function is the only branch left
  out.
* A C function that returns a status and mutates its argument becomes a function
  returning the status together with the new state.
-/

namespace Obelisk

/-! ## Array cells -/

/-- Read slot `i` of a C array. -/
def rd (a : List Nat) (i : Nat) : Nat := a.getD i 0

/-- Write `v` to slot `i` of a C array. -/
def wr (a : List Nat) (i : Nat) (v : Nat) : List Nat := a.set i v

/-- Value of a `uint32_t` converted to `int` (two's complement). -/
def toInt32 (x : Nat) : Int :=
  if x % 4294967296 < 2147483648 then ((x % 4294967296 : Nat) : Int)
  else ((x % 4294967296 : Nat) : Int) - 4294967296

/-! ## B-tree (`btree.h`, `btree.c`) -/

/-- The enum `ObeliskNodeType`. -/
inductive ObeliskNodeType where
  | OBELISK_NODE_LEAF
  | OBELISK_NODE_INTERNAL
deriving DecidableEq

/-- The macro `OBELISK_BTREE_ORDER`. -/
def OBELISK_BTREE_ORDER : Nat := 128

/-- The struct `ObeliskNode`: `keys` has `OBELISK_BTREE_ORDER - 1` slots and
`children` has `OBELISK_BTREE_ORDER`; a leaf keeps values in `children`, an
internal node keeps node pointers there. -/
structure ObeliskNode where
  type : ObeliskNodeType
  num_keys : Nat
  keys : List Nat
  children : List Nat
  parent : Nat
  is_dirty : Bool
  page_id : Nat
deriving DecidableEq

/-- The struct `ObeliskBTree` together with the heap its node pointers refer to. -/
structure ObeliskBTree where
  root : Nat
  num_nodes : Nat
  height : Nat
  heap : List ObeliskNode
deriving DecidableEq

/-- Dereference a node pointer; `none` for `NULL` or an address never allocated. -/
def deref (heap : List ObeliskNode) (p : Nat) : Option ObeliskNode :=
  if p = 0 then none else heap[p - 1]?

/-- The function `btree_create`: an empty tree. -/
def btree_create : ObeliskBTree :=
  { root := 0, num_nodes := 0, height := 0, heap := [] }

/-- The function `create_node`. -/
def create_node (type : ObeliskNodeType) : ObeliskNode :=
  { type := type
    num_keys := 0
    keys := List.replicate (OBELISK_BTREE_ORDER - 1) 0
    children := List.replicate OBELISK_BTREE_ORDER 0
    parent := 0
    is_dirty := true
    page_id := 0 }

/-- The `for` loop of `btree_find_leaf`: from index `i`, the first index below
`num_keys` whose key exceeds `key`, or `num_keys`. -/
def find_leaf_scan (node : ObeliskNode) (key : Nat) : Nat → Nat → Nat
  | 0, i => i
  | fuel + 1, i =>
    if i < node.num_keys then
      if key < rd node.keys i then i
      else find_leaf_scan node key fuel (i + 1)
    else i

/-- The `while` loop of `btree_find_leaf`: walk down from `p` while the node is
internal. `none` when the walk reaches `NULL` or unallocated memory, or does not
end within `fuel` nodes. -/
def find_leaf_descend (heap : List ObeliskNode) (key : Nat) : Nat → Nat → Option Nat
  | 0, _ => none
  | fuel + 1, p =>
    match deref heap p with
    | none => none
    | some node =>
      if node.type = ObeliskNodeType.OBELISK_NODE_INTERNAL then
        find_leaf_descend heap key fuel
          (rd node.children (find_leaf_scan node key node.num_keys 0))
      else some p

/-- The function `btree_find_leaf`: pointer to the leaf for `key`, `none` for `NULL`. -/
def btree_find_leaf (tree : ObeliskBTree) (key : Nat) : Option Nat :=
  if tree.root = 0 then none
  else find_leaf_descend tree.heap key (tree.heap.length + 1) tree.root

/-- The binary-search loop of `btree_search` over `int left, right`;
`some v` stands for `*value = v; return true`, `none` for `return false`. -/
def search_loop (node : ObeliskNode) (key : Nat) : Nat → Int → Int → Option Nat
  | 0, _, _ => none
  | fuel + 1, left, right =>
    if left ≤ right then
      let mid := Int.tdiv (left + right) 2
      if rd node.keys mid.toNat = key then some (rd node.children mid.toNat)
      else if rd node.keys mid.toNat < key then search_loop node key fuel (mid + 1) right
      else search_loop node key fuel left (mid - 1)
    else none

/-- The function `btree_search`; `some v` stands for `true` with `*value = v`.
`right` starts at `num_keys - 1` computed in `uint32_t` and converted to `int`. -/
def btree_search (tree : ObeliskBTree) (key : Nat) : Option Nat :=
  if tree.root = 0 then none
  else
    match btree_find_leaf tree key with
    | none => none
    | some p =>
      match deref tree.heap p with
      | none => none
      | some node =>
        search_loop node key (node.num_keys + 1) 0
          (toInt32 (node.num_keys + 4294967296 - 1))

/-- The update loop of `btree_insert`: from index `i`, the first index below
`num_keys` holding `key`. -/
def insert_find (leaf : ObeliskNode) (key : Nat) : Nat → Nat → Option Nat
  | 0, _ => none
  | fuel + 1, i =>
    if i < leaf.num_keys then
      if rd leaf.keys i = key then some i
      else insert_find leaf key fuel (i + 1)
    else none

/-- The shifting `while` loop of `btree_insert`: moves entries one slot up while
the entry below `i` is greater than `key`; returns the final `i` and both arrays. -/
def insert_shift (key : Nat) : Nat → Nat → List Nat → List Nat → Nat × List Nat × List Nat
  | 0, i, keys, children => (i, keys, children)
  | fuel + 1, i, keys, children =>
    if 0 < i ∧ key < rd keys (i - 1) then
      insert_shift key fuel (i - 1) (wr keys i (rd keys (i - 1)))
        (wr children i (rd children (i - 1)))
    else (i, keys, children)

/-- The function `btree_insert`: status (`0` or `-1`) and the tree afterwards. -/
def btree_insert (tree : ObeliskBTree) (key value : Nat) : Int × ObeliskBTree :=
  if tree.root = 0 then
    let node := create_node ObeliskNodeType.OBELISK_NODE_LEAF
    let node := { node with keys := wr node.keys 0 key
                            children := wr node.children 0 value
                            num_keys := 1 }
    (0, { tree with heap := tree.heap ++ [node]
                    root := tree.heap.length + 1
                    height := 1
                    num_nodes := 1 })
  else
    match btree_find_leaf tree key with
    | none => (-1, tree)
    | some p =>
      match deref tree.heap p with
      | none => (-1, tree)
      | some leaf =>
        match insert_find leaf key leaf.num_keys 0 with
        | some i =>
          let leaf' := { leaf with children := wr leaf.children i value, is_dirty := true }
          (0, { tree with heap := tree.heap.set (p - 1) leaf' })
        | none =>
          if leaf.num_keys < OBELISK_BTREE_ORDER - 1 then
            let r := insert_shift key leaf.num_keys leaf.num_keys leaf.keys leaf.children
            let leaf' := { leaf with keys := wr r.2.1 r.1 key
                                     children := wr r.2.2 r.1 value
                                     num_keys := leaf.num_keys + 1
                                     is_dirty := true }
            (0, { tree with heap := tree.heap.set (p - 1) leaf' })
          else (-1, tree)

/-- The function `btree_delete`: a stub that returns `-1` and leaves the tree alone. -/
def btree_delete (tree : ObeliskBTree) (_key : Nat) : Int × ObeliskBTree :=
  (-1, tree)

/-- The struct `ObeliskBTreeIterator`; its `tree` field is the tree handed to
`btree_iterator_next`. -/
structure ObeliskBTreeIterator where
  current_node : Nat
  current_pos : Nat
deriving DecidableEq

/-- The `while` loop of `btree_iterator_create`: follow `children[0]` while the
node is internal; `0` when the walk leaves allocated memory or runs out of fuel. -/
def leftmost_leaf (heap : List ObeliskNode) : Nat → Nat → Nat
  | 0, _ => 0
  | fuel + 1, p =>
    match deref heap p with
    | none => 0
    | some node =>
      if node.type = ObeliskNodeType.OBELISK_NODE_INTERNAL then
        leftmost_leaf heap fuel (rd node.children 0)
      else p

/-- The function `btree_iterator_create`. -/
def btree_iterator_create (tree : ObeliskBTree) : ObeliskBTreeIterator :=
  { current_node :=
      if tree.root ≠ 0 then leftmost_leaf tree.heap (tree.heap.length + 1) tree.root else 0
    current_pos := 0 }

/-- The function `btree_iterator_next`: `some (key, value)` stands for `true`
with both outputs written, `none` for `false`. -/
def btree_iterator_next (tree : ObeliskBTree) (iter : ObeliskBTreeIterator) :
    Option (Nat × Nat) × ObeliskBTreeIterator :=
  match deref tree.heap iter.current_node with
  | none => (none, iter)
  | some node =>
    if iter.current_pos ≥ node.num_keys then (none, iter)
    else
      (some (rd node.keys iter.current_pos, rd node.children iter.current_pos),
       { iter with current_pos := iter.current_pos + 1 })

/-- Draining an iterator: call `btree_iterator_next` until it returns `false`
(at most `fuel` successful calls), collecting the pairs it yields. -/
def btree_iterator_drain (tree : ObeliskBTree) : Nat → ObeliskBTreeIterator → List (Nat × Nat)
  | 0, _ => []
  | fuel + 1, iter =>
    match btree_iterator_next tree iter with
    | (none, _) => []
    | (some kv, iter') => kv :: btree_iterator_drain tree fuel iter'

/-- The pairs produced by creating an iterator on `tree` and draining it. -/
def btree_scan (tree : ObeliskBTree) : List (Nat × Nat) :=
  btree_iterator_drain tree OBELISK_BTREE_ORDER (btree_iterator_create tree)

/-- One call on a tree: `btree_insert` or `btree_delete`. -/
inductive BTreeOp where
  | insert (key value : Nat)
  | delete (key : Nat)
deriving DecidableEq

/-- Apply one call, returning its status and the tree afterwards. -/
def btree_apply (tree : ObeliskBTree) : BTreeOp → Int × ObeliskBTree
  | BTreeOp.insert k v => btree_insert tree k v
  | BTreeOp.delete k => btree_delete tree k

/-- The tree after a sequence of calls (statuses ignored), starting from `tree`. -/
def btree_run (tree : ObeliskBTree) : List BTreeOp → ObeliskBTree
  | [] => tree
  | op :: ops => btree_run (btree_apply tree op).2 ops

/-- Trees reachable from the empty tree by `btree_insert` calls. -/
inductive Reachable : ObeliskBTree → Prop where
  | create : Reachable btree_create
  | insert (t : ObeliskBTree) (k v : Nat) : Reachable t → Reachable (btree_insert t k v).2

/-! ## Buffer pool (`buffer_pool.h`, `buffer_pool.c`)

The `pages` array has exactly `pool_size` entries, so `pool_size` is the length
of the list. A frame pointer `&pool->pages[i]` is the index `i`. The function-local
`static size_t clock_hand` of `find_victim_page` is process-wide state: it is
passed to and returned from every function that reaches it. -/

/-- The enum `ObeliskPageState`. -/
inductive ObeliskPageState where
  | OBELISK_PAGE_CLEAN
  | OBELISK_PAGE_DIRTY
deriving DecidableEq

/-- The struct `ObeliskPage` (the `data` buffer is never read or written). -/
structure ObeliskPage where
  page_id : Nat
  state : ObeliskPageState
  pin_count : Nat
  last_accessed : Nat
deriving DecidableEq

/-- The enum `ObeliskReplacementPolicy`. -/
inductive ObeliskReplacementPolicy where
  | OBELISK_POLICY_LRU
  | OBELISK_POLICY_CLOCK
  | OBELISK_POLICY_LFU
deriving DecidableEq

/-- The struct `ObeliskBufferPoolConfig` (without the file name). -/
structure ObeliskBufferPoolConfig where
  pool_size : Nat
  page_size : Nat
  use_direct_io : Bool
  prefetch_size : Nat
deriving DecidableEq

/-- The struct `ObeliskBufferPool`. -/
structure ObeliskBufferPool where
  pages : List ObeliskPage
  page_size : Nat
  use_direct_io : Bool
  prefetch_size : Nat
  policy : ObeliskReplacementPolicy
  hits : Nat
  misses : Nat
  evictions : Nat
  flushes : Nat
deriving DecidableEq

/-- The field `pool_size`: the number of frames of the pool. -/
def pool_size (pool : ObeliskBufferPool) : Nat := pool.pages.length

/-- Increment of a `uint64_t`. -/
def incr64 (x : Nat) : Nat := (x + 1) % 18446744073709551616

/-- Increment of a `uint32_t`. -/
def incr32 (x : Nat) : Nat := (x + 1) % 4294967296

/-- The function `buffer_pool_create`. -/
def buffer_pool_create (config : ObeliskBufferPoolConfig) : ObeliskBufferPool :=
  { pages := List.replicate config.pool_size
      { page_id := 0, state := ObeliskPageState.OBELISK_PAGE_CLEAN, pin_count := 0,
        last_accessed := 0 }
    page_size := config.page_size
    use_direct_io := config.use_direct_io
    prefetch_size := config.prefetch_size
    policy := ObeliskReplacementPolicy.OBELISK_POLICY_LRU
    hits := 0
    misses := 0
    evictions := 0
    flushes := 0 }

/-- The loop of `find_page`: from index `i`, the first frame holding `page_id`. -/
def find_page_loop (pool : ObeliskBufferPool) (page_id : Nat) : Nat → Nat → Option Nat
  | 0, _ => none
  | fuel + 1, i =>
    match pool.pages[i]? with
    | none => none
    | some page =>
      if page.page_id = page_id then some i
      else find_page_loop pool page_id fuel (i + 1)

/-- The function `find_page`: index of the first frame holding `page_id`, `none` for `NULL`. -/
def find_page (pool : ObeliskBufferPool) (page_id : Nat) : Option Nat :=
  find_page_loop pool page_id (pool_size pool) 0

/-- Outcome of `find_victim_page`. -/
inductive VictimResult where
  | frame (i : Nat)
  | null
  | out_of_bounds
deriving DecidableEq

/-- The `do ... while` loop of `find_victim_page`, with the clock hand at `ch`:
the outcome and the clock hand left behind. Reading `pool->pages[ch]` with `ch`
past the array is undefined behaviour, reported as `out_of_bounds`. -/
def find_victim_loop (pool : ObeliskBufferPool) (start : Nat) :
    Nat → Nat → VictimResult × Nat
  | 0, ch => (VictimResult.null, ch)
  | fuel + 1, ch =>
    match pool.pages[ch]? with
    | none => (VictimResult.out_of_bounds, ch)
    | some page =>
      if page.pin_count = 0 ∧ page.state = ObeliskPageState.OBELISK_PAGE_CLEAN then
        (VictimResult.frame ch, ch)
      else if (ch + 1) % pool_size pool ≠ start then
        find_victim_loop pool start fuel ((ch + 1) % pool_size pool)
      else (VictimResult.null, (ch + 1) % pool_size pool)

/-- The function `find_victim_page`, from clock hand `clock_hand`. The body of
the `do ... while` loop runs once at least and, from a clock hand inside the
pool, `pool_size` times at most. -/
def find_victim_page (pool : ObeliskBufferPool) (clock_hand : Nat) : VictimResult × Nat :=
  find_victim_loop pool clock_hand (max (pool_size pool) 1) clock_hand

/-- What `buffer_pool_get_page` leaves behind: the frame returned (`none` for
`NULL`), the pool and the clock hand. -/
structure GetPage where
  frame : Option Nat
  pool : ObeliskBufferPool
  clock_hand : Nat
deriving DecidableEq

/-- Replace frame `i` of the pool. -/
def set_page (pool : ObeliskBufferPool) (i : Nat) (page : ObeliskPage) : ObeliskBufferPool :=
  { pool with pages := pool.pages.set i page }

/-- The function `buffer_pool_get_page`; `none` when the victim scan reads past
the `pages` array (undefined behaviour). -/
def buffer_pool_get_page (pool : ObeliskBufferPool) (clock_hand : Nat) (page_id : Nat) :
    Option GetPage :=
  match find_page pool page_id with
  | some i =>
    match pool.pages[i]? with
    | none => none
    | some page =>
      let pool1 := { pool with hits := incr64 pool.hits }
      some { frame := some i
             pool := set_page pool1 i
               { page with last_accessed := (pool1.hits + pool1.misses) % 18446744073709551616 }
             clock_hand := clock_hand }
  | none =>
    let pool1 := { pool with misses := incr64 pool.misses }
    match find_victim_page pool1 clock_hand with
    | (VictimResult.out_of_bounds, _) => none
    | (VictimResult.null, ch) => some { frame := none, pool := pool1, clock_hand := ch }
    | (VictimResult.frame i, ch) =>
      match pool1.pages[i]? with
      | none => none
      | some page =>
        let pool2 :=
          if page.state = ObeliskPageState.OBELISK_PAGE_DIRTY then
            { pool1 with flushes := incr64 pool1.flushes }
          else pool1
        some { frame := some i
               pool := set_page pool2 i
                 { page with page_id := page_id, state := ObeliskPageState.OBELISK_PAGE_CLEAN }
               clock_hand := ch }

/-- The function `buffer_pool_pin_page`. -/
def buffer_pool_pin_page (pool : ObeliskBufferPool) (page_id : Nat) : Int × ObeliskBufferPool :=
  match find_page pool page_id with
  | none => (-1, pool)
  | some i =>
    match pool.pages[i]? with
    | none => (-1, pool)
    | some page => (0, set_page pool i { page with pin_count := incr32 page.pin_count })

/-- The function `buffer_pool_unpin_page`. -/
def buffer_pool_unpin_page (pool : ObeliskBufferPool) (page_id : Nat) (is_dirty : Bool) :
    Int × ObeliskBufferPool :=
  match find_page pool page_id with
  | none => (-1, pool)
  | some i =>
    match pool.pages[i]? with
    | none => (-1, pool)
    | some page =>
      if page.pin_count = 0 then (-1, pool)
      else
        let page1 := { page with pin_count := page.pin_count - 1 }
        let page2 :=
          if is_dirty then { page1 with state := ObeliskPageState.OBELISK_PAGE_DIRTY } else page1
        (0, set_page pool i page2)

/-- The function `buffer_pool_flush_page`. -/
def buffer_pool_flush_page (pool : ObeliskBufferPool) (page_id : Nat) :
    Int × ObeliskBufferPool :=
  match find_page pool page_id with
  | none => (-1, pool)
  | some i =>
    match pool.pages[i]? with
    | none => (-1, pool)
    | some page =>
      if page.state = ObeliskPageState.OBELISK_PAGE_DIRTY then
        (0, { set_page pool i { page with state := ObeliskPageState.OBELISK_PAGE_CLEAN } with
                flushes := incr64 pool.flushes })
      else (0, pool)

/-- The loop of `buffer_pool_flush_all`, from frame `i`. -/
def flush_all_loop : Nat → Nat → ObeliskBufferPool → ObeliskBufferPool
  | 0, _, pool => pool
  | fuel + 1, i, pool =>
    match pool.pages[i]? with
    | none => pool
    | some page =>
      if page.state = ObeliskPageState.OBELISK_PAGE_DIRTY then
        flush_all_loop fuel (i + 1)
          { set_page pool i { page with state := ObeliskPageState.OBELISK_PAGE_CLEAN } with
              flushes := incr64 pool.flushes }
      else flush_all_loop fuel (i + 1) pool

/-- The function `buffer_pool_flush_all`. -/
def buffer_pool_flush_all (pool : ObeliskBufferPool) : Int × ObeliskBufferPool :=
  (0, flush_all_loop (pool_size pool) 0 pool)

/-- The function `buffer_pool_reset_stats`. -/
def buffer_pool_reset_stats (pool : ObeliskBufferPool) : ObeliskBufferPool :=
  { pool with hits := 0, misses := 0, evictions := 0, flushes := 0 }

/-- The function `buffer_pool_set_policy`. -/
def buffer_pool_set_policy (pool : ObeliskBufferPool) (policy : ObeliskReplacementPolicy) :
    Int × ObeliskBufferPool :=
  (0, { pool with policy := policy })

/-! ## Transaction manager (`transaction.h`, `transaction.c`)

A transaction and its manager are separate records; a function that follows
`txn->manager` takes the manager as a second argument and returns it. The array
`locked_resources` is the list of its first `num_locked_resources` entries, and
likewise `log_records`. The log file behind `log_fd` is the list of records
written to it; a `write` that fails or is short is modelled as leaving the file
as it was, and whether a `write` succeeds is an input (`write_ok`). Values of
`time(NULL)` are inputs as well. -/

/-- The enum `ObeliskTransactionState`. -/
inductive ObeliskTransactionState where
  | OBELISK_TXN_ACTIVE
  | OBELISK_TXN_COMMITTED
  | OBELISK_TXN_ABORTED
  | OBELISK_TXN_PREPARED
deriving DecidableEq

/-- The enum `ObeliskLockMode`. -/
inductive ObeliskLockMode where
  | OBELISK_LOCK_SHARED
  | OBELISK_LOCK_EXCLUSIVE
deriving DecidableEq

/-- The enum `ObeliskIsolationLevel`. -/
inductive ObeliskIsolationLevel where
  | OBELISK_ISOLATION_READ_UNCOMMITTED
  | OBELISK_ISOLATION_READ_COMMITTED
  | OBELISK_ISOLATION_REPEATABLE_READ
  | OBELISK_ISOLATION_SERIALIZABLE
deriving DecidableEq

/-- The enum `ObeliskLogRecordType`. -/
inductive ObeliskLogRecordType where
  | OBELISK_LOG_BEGIN
  | OBELISK_LOG_COMMIT
  | OBELISK_LOG_ABORT
  | OBELISK_LOG_UPDATE
  | OBELISK_LOG_INSERT
  | OBELISK_LOG_DELETE
  | OBELISK_LOG_CHECKPOINT
deriving DecidableEq

/-- The struct `ObeliskLogRecord`; the two images are pointers. -/
structure ObeliskLogRecord where
  type : ObeliskLogRecordType
  txn_id : Nat
  page_id : Nat
  offset : Nat
  length : Nat
  before_image : Nat
  after_image : Nat
  timestamp : Nat
  checksum : Nat
deriving DecidableEq

/-- The struct `ObeliskTransactionConfig` (without the directory name). -/
structure ObeliskTransactionConfig where
  log_buffer_size : Nat
  sync_commit : Bool
  checkpoint_interval : Nat
deriving DecidableEq

/-- The struct `ObeliskTransaction`. -/
structure ObeliskTransaction where
  txn_id : Nat
  state : ObeliskTransactionState
  isolation_level : ObeliskIsolationLevel
  locked_resources : List Nat
  log_records : List ObeliskLogRecord
  start_time : Nat
deriving DecidableEq

/-- The struct `ObeliskTransactionManager`; `log_file` is the content of the
file behind `log_fd`, `active_txns` the array of transaction pointers. -/
structure ObeliskTransactionManager where
  log_buffer_size : Nat
  sync_commit : Bool
  checkpoint_interval : Nat
  log_file : List ObeliskLogRecord
  next_txn_id : Nat
  active_txns : List Nat
deriving DecidableEq

/-- The function `txn_manager_create`, the log file opening successfully on
the content `log_file` it already has. -/
def txn_manager_create (config : ObeliskTransactionConfig) (log_file : List ObeliskLogRecord) :
    ObeliskTransactionManager :=
  { log_buffer_size := config.log_buffer_size
    sync_commit := config.sync_commit
    checkpoint_interval := config.checkpoint_interval
    log_file := log_file
    next_txn_id := 1
    active_txns := [] }

/-- The function `create_transaction`; `now` is the value of `time(NULL)`. -/
def create_transaction (manager : ObeliskTransactionManager) (now : Nat) :
    ObeliskTransaction × ObeliskTransactionManager :=
  ({ txn_id := manager.next_txn_id
     state := ObeliskTransactionState.OBELISK_TXN_ACTIVE
     isolation_level := ObeliskIsolationLevel.OBELISK_ISOLATION_READ_COMMITTED
     locked_resources := []
     log_records := []
     start_time := now },
   { manager with next_txn_id := incr64 manager.next_txn_id })

/-- The function `txn_write_log_record`. -/
def txn_write_log_record (txn : ObeliskTransaction) (manager : ObeliskTransactionManager)
    (record : ObeliskLogRecord) (write_ok : Bool) :
    Int × ObeliskTransaction × ObeliskTransactionManager :=
  if write_ok then
    (0, { txn with log_records := txn.log_records ++ [record] },
        { manager with log_file := manager.log_file ++ [record] })
  else (-1, txn, manager)

/-- A record as the designated initialisers of `txn_begin`, `txn_commit` and
`txn_abort` build it: the fields not named are zero. -/
def log_record (type : ObeliskLogRecordType) (txn_id timestamp : Nat) : ObeliskLogRecord :=
  { type := type, txn_id := txn_id, page_id := 0, offset := 0, length := 0,
    before_image := 0, after_image := 0, timestamp := timestamp, checksum := 0 }

/-- The function `txn_begin`; `addr` is the address of the new transaction
object, `now` and `now_log` are the two values of `time(NULL)`. -/
def txn_begin (manager : ObeliskTransactionManager) (addr now now_log : Nat) (write_ok : Bool) :
    ObeliskTransaction × ObeliskTransactionManager :=
  let c := create_transaction manager now
  let manager1 := { c.2 with active_txns := c.2.active_txns ++ [addr] }
  let w := txn_write_log_record c.1 manager1
    (log_record ObeliskLogRecordType.OBELISK_LOG_BEGIN c.1.txn_id now_log) write_ok
  (w.2.1, w.2.2)

/-- The search loop shared by `txn_acquire_lock`, `txn_release_lock` and
`txn_has_lock`: from index `i`, the first index holding `resource_id`. -/
def lock_index (locked : List Nat) (resource_id : Nat) : Nat → Nat → Option Nat
  | 0, _ => none
  | fuel + 1, i =>
    if i < locked.length then
      if rd locked i = resource_id then some i
      else lock_index locked resource_id fuel (i + 1)
    else none

/-- The function `txn_acquire_lock`. -/
def txn_acquire_lock (txn : ObeliskTransaction) (resource_id : Nat) (_mode : ObeliskLockMode) :
    Int × ObeliskTransaction :=
  if txn.state ≠ ObeliskTransactionState.OBELISK_TXN_ACTIVE then (-1, txn)
  else
    match lock_index txn.locked_resources resource_id txn.locked_resources.length 0 with
    | some _ => (0, txn)
    | none => (0, { txn with locked_resources := txn.locked_resources ++ [resource_id] })

/-- The function `txn_release_lock`: the `memmove` closes the gap at index `i`. -/
def txn_release_lock (txn : ObeliskTransaction) (resource_id : Nat) :
    Int × ObeliskTransaction :=
  match lock_index txn.locked_resources resource_id txn.locked_resources.length 0 with
  | some i => (0, { txn with locked_resources := txn.locked_resources.eraseIdx i })
  | none => (-1, txn)

/-- The function `txn_has_lock`. -/
def txn_has_lock (txn : ObeliskTransaction) (resource_id : Nat) (_mode : ObeliskLockMode) : Bool :=
  match lock_index txn.locked_resources resource_id txn.locked_resources.length 0 with
  | some _ => true
  | none => false

/-- The lock-release loop of `txn_commit` and `txn_abort`:
`for (i = 0; i < txn->num_locked_resources; i++) txn_release_lock(txn, txn->locked_resources[i])`,
from index `i`. -/
def release_locks_loop : Nat → Nat → ObeliskTransaction → ObeliskTransaction
  | 0, _, txn => txn
  | fuel + 1, i, txn =>
    if i < txn.locked_resources.length then
      release_locks_loop fuel (i + 1) (txn_release_lock txn (rd txn.locked_resources i)).2
    else txn

/-- The function `txn_commit`; the `fsync` under `sync_commit` changes nothing
in the model. -/
def txn_commit (txn : ObeliskTransaction) (manager : ObeliskTransactionManager)
    (now : Nat) (write_ok : Bool) : Int × ObeliskTransaction × ObeliskTransactionManager :=
  if txn.state ≠ ObeliskTransactionState.OBELISK_TXN_ACTIVE then (-1, txn, manager)
  else
    let w := txn_write_log_record txn manager
      (log_record ObeliskLogRecordType.OBELISK_LOG_COMMIT txn.txn_id now) write_ok
    if w.1 ≠ 0 then (w.1, w.2.1, w.2.2)
    else
      let txn1 := release_locks_loop w.2.1.locked_resources.length 0 w.2.1
      (0, { txn1 with state := ObeliskTransactionState.OBELISK_TXN_COMMITTED }, w.2.2)

/-- The function `txn_abort`; the undo loop over the log records has an empty body. -/
def txn_abort (txn : ObeliskTransaction) (manager : ObeliskTransactionManager)
    (now : Nat) (write_ok : Bool) : Int × ObeliskTransaction × ObeliskTransactionManager :=
  if txn.state ≠ ObeliskTransactionState.OBELISK_TXN_ACTIVE then (-1, txn, manager)
  else
    let w := txn_write_log_record txn manager
      (log_record ObeliskLogRecordType.OBELISK_LOG_ABORT txn.txn_id now) write_ok
    let txn1 := release_locks_loop w.2.1.locked_resources.length 0 w.2.1
    (0, { txn1 with state := ObeliskTransactionState.OBELISK_TXN_ABORTED }, w.2.2)

/-- The function `txn_recover`: a stub that returns `-1` and touches nothing. -/
def txn_recover (manager : ObeliskTransactionManager) : Int × ObeliskTransactionManager :=
  (-1, manager)

/-! ## Invariants and specification-side vocabulary -/

/-- The node invariant of a leaf: declared array lengths, between 1 and
`OBELISK_BTREE_ORDER - 1` keys, and the keys in use strictly increasing. -/
structure LeafOK (L : ObeliskNode) : Prop where
  type_leaf : L.type = ObeliskNodeType.OBELISK_NODE_LEAF
  keys_len : L.keys.length = OBELISK_BTREE_ORDER - 1
  children_len : L.children.length = OBELISK_BTREE_ORDER
  count_pos : 1 ≤ L.num_keys
  count_le : L.num_keys ≤ OBELISK_BTREE_ORDER - 1
  sorted : ∀ i j, i < j → j < L.num_keys → rd L.keys i < rd L.keys j

/-- The shape of every tree the code builds: empty, or a single leaf at address 1. -/
def TreeOK (t : ObeliskBTree) : Prop :=
  (t.root = 0 ∧ t.heap = []) ∨ (t.root = 1 ∧ ∃ L, t.heap = [L] ∧ LeafOK L)

/-- The leaf `btree_find_leaf` reaches for `key`, if any. -/
def leaf_of (t : ObeliskBTree) (key : Nat) : Option ObeliskNode :=
  (btree_find_leaf t key).bind (deref t.heap)

/-- The keys in use in a node: the first `num_keys` slots of `keys`. -/
def node_keys (L : ObeliskNode) : List Nat := L.keys.take L.num_keys

/-- Key `k` is present in the tree: it is among the keys in use of its leaf. -/
def key_present (t : ObeliskBTree) (k : Nat) : Prop :=
  ∃ L, leaf_of t k = some L ∧ k ∈ node_keys L

/-- Number of keys in the leaf for `key`; `0` for the empty tree. -/
def leaf_count (t : ObeliskBTree) (key : Nat) : Nat :=
  match leaf_of t key with
  | some L => L.num_keys
  | none => 0

/-- The keys a drained iterator yields, in order. -/
def scan_keys (t : ObeliskBTree) : List Nat := (btree_scan t).map Prod.fst

/-- Keys of the `btree_insert` calls of a sequence. -/
def ops_inserted : List BTreeOp → List Nat
  | [] => []
  | BTreeOp.insert k _ :: ops => k :: ops_inserted ops
  | BTreeOp.delete _ :: ops => ops_inserted ops

/-- Keys of the `btree_delete` calls of a sequence. -/
def ops_deleted : List BTreeOp → List Nat
  | [] => []
  | BTreeOp.insert _ _ :: ops => ops_deleted ops
  | BTreeOp.delete k :: ops => k :: ops_deleted ops

/-- Keys of the `btree_insert` calls of a sequence that returned `0`, the
sequence being run from `tree`. -/
def ops_accepted (tree : ObeliskBTree) : List BTreeOp → List Nat
  | [] => []
  | BTreeOp.insert k v :: ops =>
    if (btree_insert tree k v).1 = 0 then k :: ops_accepted (btree_insert tree k v).2 ops
    else ops_accepted (btree_insert tree k v).2 ops
  | BTreeOp.delete k :: ops => ops_accepted (btree_delete tree k).2 ops

/-- The leaf `btree_insert` leaves behind when it overwrites the value in slot `i`. -/
def leaf_update (leaf : ObeliskNode) (i value : Nat) : ObeliskNode :=
  { leaf with children := wr leaf.children i value, is_dirty := true }

/-- The leaf `btree_insert` leaves behind when it adds `key` to a leaf with room. -/
def leaf_add (leaf : ObeliskNode) (key value : Nat) : ObeliskNode :=
  { leaf with
      keys := wr (insert_shift key leaf.num_keys leaf.num_keys leaf.keys leaf.children).2.1
        (insert_shift key leaf.num_keys leaf.num_keys leaf.keys leaf.children).1 key
      children := wr (insert_shift key leaf.num_keys leaf.num_keys leaf.keys leaf.children).2.2
        (insert_shift key leaf.num_keys leaf.num_keys leaf.keys leaf.children).1 value
      num_keys := leaf.num_keys + 1
      is_dirty := true }

/-- Key `x` sits in one of the slots in use of node `L`. -/
def has_key (L : ObeliskNode) (x : Nat) : Prop :=
  ∃ j, j < L.num_keys ∧ rd L.keys j = x

/-- Key `x` sits in a slot in use of node `L` whose value slot holds `v`. -/
def has_entry (L : ObeliskNode) (x v : Nat) : Prop :=
  ∃ j, j < L.num_keys ∧ rd L.keys j = x ∧ rd L.children j = v

/-- Key `x` is stored in the (single-leaf) tree `t`. -/
def stored (t : ObeliskBTree) (x : Nat) : Prop :=
  ∃ L, t.heap = [L] ∧ has_key L x

/-- The tree after `btree_insert` of the keys `0, 1, ..., n - 1` (each with
value `0`) into the empty tree. -/
def btree_fill : Nat → ObeliskBTree
  | 0 => btree_create
  | n + 1 => (btree_insert (btree_fill n) n 0).2

/-- A pool of two frames in which frame 0, holding page 0, is pinned once. -/
def pool_two_pinned : ObeliskBufferPool :=
  (buffer_pool_pin_page (buffer_pool_create ⟨2, 4096, false, 0⟩) 0).2

/-- A pool of one frame after `get_page(1)`, `pin_page(1)` and
`unpin_page(1, true)`: its only frame holds page 1, unpinned and dirty. -/
def pool_one_dirty : ObeliskBufferPool :=
  match buffer_pool_get_page (buffer_pool_create ⟨1, 4096, false, 0⟩) 0 1 with
  | some r => (buffer_pool_unpin_page (buffer_pool_pin_page r.pool 1).2 1 true).2
  | none => buffer_pool_create ⟨1, 4096, false, 0⟩

/-- What `buffer_pool_get_page(pool_two_pinned, 7)` leaves behind from clock
hand 0: frame 1 is the victim and now holds page 7. -/
def pool_two_pinned_got : GetPage :=
  { frame := some 1
    pool := { pool_two_pinned with
      pages := [⟨0, ObeliskPageState.OBELISK_PAGE_CLEAN, 1, 0⟩,
                ⟨7, ObeliskPageState.OBELISK_PAGE_CLEAN, 0, 0⟩]
      misses := 1 }
    clock_hand := 1 }

/-- The first transaction begun on a fresh manager. -/
def txn_first : ObeliskTransaction × ObeliskTransactionManager :=
  txn_begin (txn_manager_create ⟨0, true, 0⟩ []) 1 0 0 true

/-- The second transaction begun on the same manager. -/
def txn_second : ObeliskTransaction × ObeliskTransactionManager :=
  txn_begin txn_first.2 2 0 0 true

/-- The first transaction after acquiring resources 1 and 2. -/
def txn_two_locks : ObeliskTransaction :=
  (txn_acquire_lock
    (txn_acquire_lock txn_first.1 1 ObeliskLockMode.OBELISK_LOCK_SHARED).2 2
    ObeliskLockMode.OBELISK_LOCK_EXCLUSIVE).2

/-- The function `btree_split_child`: a stub that returns `-1`. -/
def btree_split_child (_parent : ObeliskNode) (_index : Int) (_child : ObeliskNode) : Int :=
  -1

/-- The statuses of `btree_insert` called for each pair of a list in turn, and
the tree after the last call. -/
def btree_insert_all (t : ObeliskBTree) : List (Nat × Nat) → List Int × ObeliskBTree
  | [] => ([], t)
  | kv :: kvs =>
    ((btree_insert t kv.1 kv.2).1 :: (btree_insert_all (btree_insert t kv.1 kv.2).2 kvs).1,
      (btree_insert_all (btree_insert t kv.1 kv.2).2 kvs).2)

/-- The pairs `(0, 0), (1, 0), ..., (n - 1, 0)`. -/
def pairs_upto (n : Nat) : List (Nat × Nat) := (List.range n).map (fun i => (i, 0))

/-- One call of `txn_commit`, `txn_abort` or `txn_acquire_lock` on a transaction,
with the inputs of the call. -/
inductive TxnOp where
  | commit (now : Nat) (write_ok : Bool)
  | abort (now : Nat) (write_ok : Bool)
  | acquire (resource_id : Nat) (mode : ObeliskLockMode)
deriving DecidableEq

/-- Apply one call to a transaction and its manager: the status and both
records afterwards. -/
def txn_apply (txn : ObeliskTransaction) (manager : ObeliskTransactionManager) :
    TxnOp → Int × ObeliskTransaction × ObeliskTransactionManager
  | TxnOp.commit now write_ok => txn_commit txn manager now write_ok
  | TxnOp.abort now write_ok => txn_abort txn manager now write_ok
  | TxnOp.acquire resource_id mode =>
    ((txn_acquire_lock txn resource_id mode).1, (txn_acquire_lock txn resource_id mode).2,
      manager)

/-- The transaction and its manager after a sequence of calls. -/
def txn_run (txn : ObeliskTransaction) (manager : ObeliskTransactionManager) :
    List TxnOp → ObeliskTransaction × ObeliskTransactionManager
  | [] => (txn, manager)
  | op :: ops => txn_run (txn_apply txn manager op).2.1 (txn_apply txn manager op).2.2 ops

/-- The first transaction of a fresh manager after a successful `txn_commit`. -/
def txn_first_committed : ObeliskTransaction × ObeliskTransactionManager :=
  (txn_commit txn_first.1 txn_first.2 5 true).2

/-- The pool after `n` successive calls `buffer_pool_pin_page(pool, page_id)`. -/
def pin_times : Nat → ObeliskBufferPool → Nat → ObeliskBufferPool
  | 0, pool, _ => pool
  | n + 1, pool, page_id => (buffer_pool_pin_page (pin_times n pool page_id) page_id).2

/-- A fresh pool of one frame. -/
def pool_one : ObeliskBufferPool := buffer_pool_create ⟨1, 4096, false, 0⟩

/-- A page with its state set to Clean and nothing else changed. -/
def clean_page (pg : ObeliskPage) : ObeliskPage :=
  { pg with state := ObeliskPageState.OBELISK_PAGE_CLEAN }

/-- Number of frames in state Dirty. -/
def dirty_count (pages : List ObeliskPage) : Nat :=
  (pages.filter (fun pg => decide (pg.state = ObeliskPageState.OBELISK_PAGE_DIRTY))).length

/-- Successive `txn_write_log_record` calls for the records of a list, every
write succeeding. -/
def txn_write_all (txn : ObeliskTransaction) (manager : ObeliskTransactionManager) :
    List ObeliskLogRecord → ObeliskTransaction × ObeliskTransactionManager
  | [] => (txn, manager)
  | r :: rs =>
    txn_write_all (txn_write_log_record txn manager r true).2.1
      (txn_write_log_record txn manager r true).2.2 rs

/-- The life of a transaction that commits: `txn_begin`, one
`txn_write_log_record` per record of `rs`, then `txn_commit`, every log write
succeeding. -/
def txn_life_commit (manager : ObeliskTransactionManager) (addr now now_log : Nat)
    (rs : List ObeliskLogRecord) (now_end : Nat) :
    Int × ObeliskTransaction × ObeliskTransactionManager :=
  txn_commit (txn_write_all (txn_begin manager addr now now_log true).1
      (txn_begin manager addr now now_log true).2 rs).1
    (txn_write_all (txn_begin manager addr now now_log true).1
      (txn_begin manager addr now now_log true).2 rs).2 now_end true

/-- The life of a transaction that aborts: as `txn_life_commit`, ending in
`txn_abort`. -/
def txn_life_abort (manager : ObeliskTransactionManager) (addr now now_log : Nat)
    (rs : List ObeliskLogRecord) (now_end : Nat) :
    Int × ObeliskTransaction × ObeliskTransactionManager :=
  txn_abort (txn_write_all (txn_begin manager addr now now_log true).1
      (txn_begin manager addr now now_log true).2 rs).1
    (txn_write_all (txn_begin manager addr now now_log true).1
      (txn_begin manager addr now now_log true).2 rs).2 now_end true

/-- An Update record naming transaction 99. -/
def record_of_other_txn : ObeliskLogRecord :=
  { log_record ObeliskLogRecordType.OBELISK_LOG_UPDATE 99 3 with page_id := 4 }

/-- One call that reaches a transaction manager: `txn_begin`, or `txn_commit`,
`txn_abort` or `txn_write_log_record` on some transaction of the manager, with
the inputs of the call. -/
inductive MgrOp where
  | begin (addr now now_log : Nat) (write_ok : Bool)
  | commit (txn : ObeliskTransaction) (now : Nat) (write_ok : Bool)
  | abort (txn : ObeliskTransaction) (now : Nat) (write_ok : Bool)
  | write (txn : ObeliskTransaction) (record : ObeliskLogRecord) (write_ok : Bool)
deriving DecidableEq

/-- Run a sequence of calls on a manager: the transactions the `txn_begin`
calls returned, in call order, and the manager afterwards. -/
def mgr_run (manager : ObeliskTransactionManager) :
    List MgrOp → List ObeliskTransaction × ObeliskTransactionManager
  | [] => ([], manager)
  | MgrOp.begin addr now now_log write_ok :: ops =>
    ((txn_begin manager addr now now_log write_ok).1 ::
        (mgr_run (txn_begin manager addr now now_log write_ok).2 ops).1,
      (mgr_run (txn_begin manager addr now now_log write_ok).2 ops).2)
  | MgrOp.commit txn now write_ok :: ops =>
    mgr_run (txn_commit txn manager now write_ok).2.2 ops
  | MgrOp.abort txn now write_ok :: ops =>
    mgr_run (txn_abort txn manager now write_ok).2.2 ops
  | MgrOp.write txn record write_ok :: ops =>
    mgr_run (txn_write_log_record txn manager record write_ok).2.2 ops

/-- One call on a buffer pool, with its inputs. -/
inductive PoolOp where
  | get (page_id : Nat)
  | pin (page_id : Nat)
  | unpin (page_id : Nat) (is_dirty : Bool)
  | flush (page_id : Nat)
  | flush_all
  | reset_stats
deriving DecidableEq

/-- What a call on a buffer pool returns: the frame of `buffer_pool_get_page`
(`none` for `NULL`), the status of the `int` functions, or nothing. -/
inductive PoolResult where
  | frame (i : Option Nat)
  | status (s : Int)
  | unit
deriving DecidableEq

/-- Apply one call to a pool with the clock hand at `clock_hand`: the result,
the pool and the clock hand afterwards; `none` when the call is undefined. -/
def pool_apply (pool : ObeliskBufferPool) (clock_hand : Nat) :
    PoolOp → Option (PoolResult × ObeliskBufferPool × Nat)
  | PoolOp.get page_id =>
    (buffer_pool_get_page pool clock_hand page_id).map
      (fun r => (PoolResult.frame r.frame, r.pool, r.clock_hand))
  | PoolOp.pin page_id =>
    some (PoolResult.status (buffer_pool_pin_page pool page_id).1,
      (buffer_pool_pin_page pool page_id).2, clock_hand)
  | PoolOp.unpin page_id is_dirty =>
    some (PoolResult.status (buffer_pool_unpin_page pool page_id is_dirty).1,
      (buffer_pool_unpin_page pool page_id is_dirty).2, clock_hand)
  | PoolOp.flush page_id =>
    some (PoolResult.status (buffer_pool_flush_page pool page_id).1,
      (buffer_pool_flush_page pool page_id).2, clock_hand)
  | PoolOp.flush_all =>
    some (PoolResult.status (buffer_pool_flush_all pool).1,
      (buffer_pool_flush_all pool).2, clock_hand)
  | PoolOp.reset_stats => some (PoolResult.unit, buffer_pool_reset_stats pool, clock_hand)

/-- Run a sequence of calls: the results in call order, the pool and the clock
hand afterwards; `none` when one of the calls is undefined. -/
def pool_run (pool : ObeliskBufferPool) (clock_hand : Nat) :
    List PoolOp → Option (List PoolResult × ObeliskBufferPool × Nat)
  | [] => some ([], pool, clock_hand)
  | op :: ops =>
    match pool_apply pool clock_hand op with
    | none => none
    | some (res, pool1, ch1) =>
      match pool_run pool1 ch1 ops with
      | none => none
      | some (results, pool2, ch2) => some (res :: results, pool2, ch2)

/-- The part of a frame that the claims on frames speak of: `page_id`, `state`
and `pin_count`. -/
def frame_key (pg : ObeliskPage) : Nat × ObeliskPageState × Nat :=
  (pg.page_id, pg.state, pg.pin_count)

/-- The frames of a pool without their `last_accessed` stamps. -/
def frames (pool : ObeliskBufferPool) : List (Nat × ObeliskPageState × Nat) :=
  pool.pages.map frame_key

/-- What is observed of a run: the results of the calls, the frames and the
clock hand. -/
def observe (r : List PoolResult × ObeliskBufferPool × Nat) :
    List PoolResult × List (Nat × ObeliskPageState × Nat) × Nat :=
  (r.1, frames r.2.1, r.2.2)

/-- The pool `pool_two_pinned` with other values in its four counters. -/
def pool_two_pinned_counted : ObeliskBufferPool :=
  { pool_two_pinned with hits := 10, misses := 3, evictions := 2, flushes := 7 }

/-- Key `k` is stored in the (single-leaf) tree `t` with value `v`. -/
def stored_value (t : ObeliskBTree) (k v : Nat) : Prop :=
  ∃ L, t.heap = [L] ∧ has_entry L k v

/-- The value of the last pair with key `k` in a sequence of `btree_insert`
arguments, if any. -/
def last_inserted : List (Nat × Nat) → Nat → Option Nat
  | [], _ => none
  | kv :: kvs, k =>
    match last_inserted kvs k with
    | some v => some v
    | none => if kv.1 = k then some kv.2 else none

/-- The function `btree_validate`: a stub that returns `true`. -/
def btree_validate (_tree : ObeliskBTree) : Bool := true

/-- A tree whose root leaf holds the two keys 2, 1 in this order. -/
def tree_unsorted : ObeliskBTree :=
  { root := 1, num_nodes := 1, height := 1
    heap := [{ create_node ObeliskNodeType.OBELISK_NODE_LEAF with
      keys := wr (wr (create_node ObeliskNodeType.OBELISK_NODE_LEAF).keys 0 2) 1 1
      num_keys := 2 }] }

/-- A tree whose root leaf holds the key 1 twice. -/
def tree_duplicate : ObeliskBTree :=
  { root := 1, num_nodes := 1, height := 1
    heap := [{ create_node ObeliskNodeType.OBELISK_NODE_LEAF with
      keys := wr (wr (create_node ObeliskNodeType.OBELISK_NODE_LEAF).keys 0 1) 1 1
      num_keys := 2 }] }

/-- A fresh pool of three frames. -/
def pool_three : ObeliskBufferPool := buffer_pool_create ⟨3, 4096, false, 0⟩

/-- A fresh pool of two frames. -/
def pool_two : ObeliskBufferPool := buffer_pool_create ⟨2, 4096, false, 0⟩

/-- The `do ... while` loop of `find_victim_page` once more, returning besides
the outcome and the clock hand the indices `ch` of the reads `pool->pages[ch]`
it makes, in order. -/
def find_victim_scan (pool : ObeliskBufferPool) (start : Nat) :
    Nat → Nat → VictimResult × Nat × List Nat
  | 0, ch => (VictimResult.null, ch, [])
  | fuel + 1, ch =>
    match pool.pages[ch]? with
    | none => (VictimResult.out_of_bounds, ch, [ch])
    | some page =>
      if page.pin_count = 0 ∧ page.state = ObeliskPageState.OBELISK_PAGE_CLEAN then
        (VictimResult.frame ch, ch, [ch])
      else if (ch + 1) % pool_size pool ≠ start then
        ((find_victim_scan pool start fuel ((ch + 1) % pool_size pool)).1,
          (find_victim_scan pool start fuel ((ch + 1) % pool_size pool)).2.1,
          ch :: (find_victim_scan pool start fuel ((ch + 1) % pool_size pool)).2.2)
      else (VictimResult.null, (ch + 1) % pool_size pool, [ch])

/-- A pool of two frames under the LRU policy after `get_page(5)` (miss),
`get_page(0)` (hit) and `get_page(5)` (hit), with the clock hand it leaves. -/
def pool_lru_used : Option (List PoolResult × ObeliskBufferPool × Nat) :=
  pool_run (buffer_pool_set_policy pool_two ObeliskReplacementPolicy.OBELISK_POLICY_LRU).2 0
    [PoolOp.get 5, PoolOp.get 0, PoolOp.get 5]

/-- The struct `ObeliskDeadlockInfo`. -/
structure ObeliskDeadlockInfo where
  txn_id : Nat
  waiting_for_txn_id : Nat
  resource_id : Nat
  wait_start_time : Nat
deriving DecidableEq

/-- The function `txn_detect_deadlocks`: the returned array (`none` is `NULL`)
and the cell behind `num_deadlocks` (`none` when that pointer is `NULL`), which
is set to 0. -/
def txn_detect_deadlocks (_manager : ObeliskTransactionManager) (num_deadlocks : Option Nat) :
    Option (List ObeliskDeadlockInfo) × Option Nat :=
  (none, num_deadlocks.map (fun _ => 0))

/-- The function `txn_resolve_deadlock`: a stub that returns `-1`. -/
def txn_resolve_deadlock (_manager : ObeliskTransactionManager)
    (_deadlock : Option ObeliskDeadlockInfo) : Int :=
  -1

/-- Two transactions locking crosswise: `t1` acquires `a`, `t2` acquires `b`,
then `t1` acquires `b` and `t2` acquires `a`. The four statuses in call order
and the two transactions afterwards. -/
def txn_cross_acquire (t1 t2 : ObeliskTransaction) (a b : Nat) (mode : ObeliskLockMode) :
    List Int × ObeliskTransaction × ObeliskTransaction :=
  let r1 := txn_acquire_lock t1 a mode
  let r2 := txn_acquire_lock t2 b mode
  let r3 := txn_acquire_lock r1.2 b mode
  let r4 := txn_acquire_lock r2.2 a mode
  ([r1.1, r2.1, r3.1, r4.1], r3.2, r4.2)

/-- The two transactions of `txn_first` and `txn_second` after locking
resources 1 and 2 crosswise in exclusive mode. -/
def txn_crossed : List Int × ObeliskTransaction × ObeliskTransaction :=
  txn_cross_acquire txn_first.1 txn_second.1 1 2 ObeliskLockMode.OBELISK_LOCK_EXCLUSIVE

/-- The addresses passed to the `txn_begin` calls of a sequence, in call order. -/
def ops_begun : List MgrOp → List Nat
  | [] => []
  | MgrOp.begin addr _ _ _ :: ops => addr :: ops_begun ops
  | _ :: ops => ops_begun ops

/-- One call on a transaction that can touch its lock list or its state, with
the inputs of the call. -/
inductive LockOp where
  | acquire (resource_id : Nat) (mode : ObeliskLockMode)
  | release (resource_id : Nat)
  | write (record : ObeliskLogRecord) (write_ok : Bool)
  | commit (now : Nat) (write_ok : Bool)
  | abort (now : Nat) (write_ok : Bool)
deriving DecidableEq

/-- Apply one call to a transaction and its manager: the status and both
records afterwards. -/
def lock_apply (txn : ObeliskTransaction) (manager : ObeliskTransactionManager) :
    LockOp → Int × ObeliskTransaction × ObeliskTransactionManager
  | LockOp.acquire resource_id mode =>
    ((txn_acquire_lock txn resource_id mode).1, (txn_acquire_lock txn resource_id mode).2,
      manager)
  | LockOp.release resource_id =>
    ((txn_release_lock txn resource_id).1, (txn_release_lock txn resource_id).2, manager)
  | LockOp.write record write_ok => txn_write_log_record txn manager record write_ok
  | LockOp.commit now write_ok => txn_commit txn manager now write_ok
  | LockOp.abort now write_ok => txn_abort txn manager now write_ok

/-- The transaction and its manager after a sequence of calls. -/
def lock_run (txn : ObeliskTransaction) (manager : ObeliskTransactionManager) :
    List LockOp → ObeliskTransaction × ObeliskTransactionManager
  | [] => (txn, manager)
  | op :: ops => lock_run (lock_apply txn manager op).2.1 (lock_apply txn manager op).2.2 ops

/-- The transaction `txn_begin` returns on `manager`, after a sequence of calls
on it. -/
def txn_reached (manager : ObeliskTransactionManager) (addr now now_log : Nat)
    (write_ok : Bool) (ops : List LockOp) : ObeliskTransaction :=
  (lock_run (txn_begin manager addr now now_log write_ok).1
    (txn_begin manager addr now now_log write_ok).2 ops).1

/-- The `page_id` fields of the frames of a pool, in frame order. -/
def page_ids (pool : ObeliskBufferPool) : List Nat :=
  pool.pages.map (fun pg => pg.page_id)

/-- No two distinct frames hold the same non-zero `page_id`. -/
def resident_once (pool : ObeliskBufferPool) : Prop :=
  ∀ (i j x : Nat), (page_ids pool)[i]? = some x → (page_ids pool)[j]? = some x → x ≠ 0 → i = j

/-! ## Array cells: basic facts -/

theorem rd_wr (a : List Nat) (i j v : Nat) :
    rd (wr a i v) j = if i = j ∧ i < a.length then v else rd a j := by
  unfold rd wr
  rw [List.getD_eq_getElem?_getD, List.getD_eq_getElem?_getD, List.getElem?_set]
  by_cases h : i = j
  · subst h
    by_cases h2 : i < a.length
    · simp [h2]
    · simp [h2]
      rw [List.getElem?_eq_none (by omega)]
      rfl
  · simp [h]

theorem length_wr (a : List Nat) (i v : Nat) : (wr a i v).length = a.length := by
  unfold wr
  exact List.length_set a i v

theorem toInt32_pred (n : Nat) (h : n ≤ 2147483648) :
    toInt32 (n + 4294967296 - 1) = (n : Int) - 1 := by
  unfold toInt32
  split <;> omega

/-! ## B-tree: the loops -/

theorem search_loop_found (L : ObeliskNode) (key : Nat)
    (hs : ∀ i j, i < j → j < L.num_keys → rd L.keys i < rd L.keys j) :
    ∀ (fuel : Nat) (left right : Int) (i : Nat), 0 ≤ left → right < (L.num_keys : Int) →
      left ≤ (i : Int) → (i : Int) ≤ right → right - left < (fuel : Int) →
      rd L.keys i = key → search_loop L key fuel left right = some (rd L.children i) := by
  intro fuel
  induction fuel with
  | zero => intro left right i _ _ h1 h2 h3 _; omega
  | succ fuel ih =>
    intro left right i h0 hn h1 h2 h3 hk
    have hlr : left ≤ right := by omega
    have hmid : Int.tdiv (left + right) 2 = (left + right) / 2 :=
      Int.tdiv_eq_ediv (by omega) (by omega)
    obtain ⟨m, hm⟩ : ∃ m : Nat, ((left + right) / 2 : Int) = (m : Int) :=
      ⟨((left + right) / 2).toNat, (Int.toNat_of_nonneg (by omega)).symm⟩
    have hmn : m < L.num_keys := by omega
    have hin : i < L.num_keys := by omega
    rw [search_loop]
    simp only [hlr, if_true, hmid, hm, Int.toNat_ofNat]
    by_cases e1 : rd L.keys m = key
    · have : m = i := by
        rcases Nat.lt_trichotomy m i with h | h | h
        · have := hs m i h hin; omega
        · exact h
        · have := hs i m h hmn; omega
      subst this
      simp [hk]
    · by_cases e2 : rd L.keys m < key
      · have hmi : m < i := by
          rcases Nat.lt_trichotomy m i with h | h | h
          · exact h
          · subst h; exact absurd hk e1
          · have := hs i m h hmn; omega
        simp only [e1, e2, if_true, if_false]
        exact ih _ _ i (by omega) hn (by omega) h2 (by omega) hk
      · have hmi : i < m := by
          rcases Nat.lt_trichotomy m i with h | h | h
          · have := hs m i h hin; omega
          · subst h; exact absurd hk e1
          · exact h
        simp only [e1, e2, if_false]
        exact ih _ _ i h0 (by omega) h1 (by omega) (by omega) hk

theorem search_loop_absent (L : ObeliskNode) (key : Nat)
    (h : ∀ i, i < L.num_keys → rd L.keys i ≠ key) :
    ∀ (fuel : Nat) (left right : Int), 0 ≤ left → right < (L.num_keys : Int) →
      search_loop L key fuel left right = none := by
  intro fuel
  induction fuel with
  | zero => intro left right _ _; rfl
  | succ fuel ih =>
    intro left right h0 hn
    rw [search_loop]
    by_cases hlr : left ≤ right
    · have hmid : Int.tdiv (left + right) 2 = (left + right) / 2 :=
        Int.tdiv_eq_ediv (by omega) (by omega)
      obtain ⟨m, hm⟩ : ∃ m : Nat, ((left + right) / 2 : Int) = (m : Int) :=
        ⟨((left + right) / 2).toNat, (Int.toNat_of_nonneg (by omega)).symm⟩
      have hmn : m < L.num_keys := by omega
      simp only [hlr, if_true, hmid, hm, Int.toNat_ofNat, h m hmn, if_false]
      split
      · exact ih _ _ (by omega) hn
      · exact ih _ _ h0 (by omega)
    · simp [hlr]

theorem insert_find_some (L : ObeliskNode) (key : Nat) :
    ∀ (fuel i j : Nat), insert_find L key fuel i = some j →
      i ≤ j ∧ j < L.num_keys ∧ rd L.keys j = key := by
  intro fuel
  induction fuel with
  | zero => intro i j h; simp [insert_find] at h
  | succ fuel ih =>
    intro i j h
    rw [insert_find] at h
    by_cases h1 : i < L.num_keys
    · by_cases h2 : rd L.keys i = key
      · simp only [h1, h2, if_true, Option.some.injEq] at h
        subst h
        exact ⟨le_refl _, h1, h2⟩
      · simp only [h1, h2, if_true, if_false] at h
        obtain ⟨a, b, c⟩ := ih (i + 1) j h
        exact ⟨by omega, b, c⟩
    · simp [h1] at h

theorem insert_find_none (L : ObeliskNode) (key : Nat) :
    ∀ (fuel i : Nat), L.num_keys ≤ i + fuel → insert_find L key fuel i = none →
      ∀ j, i ≤ j → j < L.num_keys → rd L.keys j ≠ key := by
  intro fuel
  induction fuel with
  | zero => intro i hf _ j h1 h2; omega
  | succ fuel ih =>
    intro i hf h j h1 h2
    rw [insert_find] at h
    have hi : i < L.num_keys := by omega
    by_cases h3 : rd L.keys i = key
    · simp [hi, h3] at h
    · simp only [hi, h3, if_true, if_false] at h
      rcases Nat.eq_or_lt_of_le h1 with e | e
      · subst e; exact h3
      · exact ih (i + 1) (by omega) h j (by omega) h2

theorem insert_shift_spec (key : Nat) :
    ∀ (fuel i : Nat) (ks cs : List Nat), i ≤ fuel → i < ks.length → i < cs.length →
      (insert_shift key fuel i ks cs).1 ≤ i ∧
      (insert_shift key fuel i ks cs).2.1.length = ks.length ∧
      (insert_shift key fuel i ks cs).2.2.length = cs.length ∧
      ((insert_shift key fuel i ks cs).1 = 0 ∨
        rd ks ((insert_shift key fuel i ks cs).1 - 1) ≤ key) ∧
      (∀ j, (insert_shift key fuel i ks cs).1 ≤ j → j < i → key < rd ks j) ∧
      (∀ j, rd (insert_shift key fuel i ks cs).2.1 j =
        if (insert_shift key fuel i ks cs).1 < j ∧ j ≤ i then rd ks (j - 1) else rd ks j) ∧
      (∀ j, rd (insert_shift key fuel i ks cs).2.2 j =
        if (insert_shift key fuel i ks cs).1 < j ∧ j ≤ i then rd cs (j - 1) else rd cs j) := by
  intro fuel
  induction fuel with
  | zero =>
    intro i ks cs hf _ _
    have : i = 0 := by omega
    subst this
    rw [show insert_shift key 0 0 ks cs = (0, ks, cs) from rfl]
    refine ⟨le_refl _, rfl, rfl, Or.inl rfl, ?_, ?_, ?_⟩
    · intro j h1 h2; omega
    · intro j; rw [if_neg (by omega)]
    · intro j; rw [if_neg (by omega)]
  | succ fuel ih =>
    intro i ks cs hf hk hc
    by_cases h : 0 < i ∧ key < rd ks (i - 1)
    · have e : insert_shift key (fuel + 1) i ks cs =
          insert_shift key fuel (i - 1) (wr ks i (rd ks (i - 1)))
            (wr cs i (rd cs (i - 1))) := by
        rw [insert_shift, if_pos h]
      rw [e]
      obtain ⟨a1, a2, a3, a4, a5, a6, a7⟩ :=
        ih (i - 1) (wr ks i (rd ks (i - 1))) (wr cs i (rd cs (i - 1))) (by omega)
          (by rw [length_wr]; omega) (by rw [length_wr]; omega)
      generalize insert_shift key fuel (i - 1) (wr ks i (rd ks (i - 1)))
        (wr cs i (rd cs (i - 1))) = r at a1 a2 a3 a4 a5 a6 a7
      refine ⟨by omega, by rw [a2, length_wr], by rw [a3, length_wr], ?_, ?_, ?_, ?_⟩
      · rcases a4 with a4 | a4
        · exact Or.inl a4
        · right
          rw [rd_wr] at a4
          rw [if_neg (by omega)] at a4
          exact a4
      · intro j hj1 hj2
        by_cases hj : j < i - 1
        · have := a5 j hj1 hj
          rw [rd_wr, if_neg (by omega)] at this
          exact this
        · have : j = i - 1 := by omega
          subst this
          exact h.2
      · intro j
        rw [a6 j]
        by_cases c1 : r.1 < j ∧ j ≤ i - 1
        · rw [if_pos c1, if_pos (by omega), rd_wr, if_neg (by omega)]
        · rw [if_neg c1, rd_wr]
          by_cases c2 : i = j
          · subst c2
            rw [if_pos ⟨rfl, hk⟩, if_pos (by omega)]
          · rw [if_neg (by omega), if_neg (by omega)]
      · intro j
        rw [a7 j]
        by_cases c1 : r.1 < j ∧ j ≤ i - 1
        · rw [if_pos c1, if_pos (by omega), rd_wr, if_neg (by omega)]
        · rw [if_neg c1, rd_wr]
          by_cases c2 : i = j
          · subst c2
            rw [if_pos ⟨rfl, hc⟩, if_pos (by omega)]
          · rw [if_neg (by omega), if_neg (by omega)]
    · have e : insert_shift key (fuel + 1) i ks cs = (i, ks, cs) := by
        rw [insert_shift, if_neg h]
      rw [e]
      refine ⟨le_refl _, rfl, rfl, ?_, ?_, ?_, ?_⟩
      · by_cases hi : i = 0
        · exact Or.inl hi
        · right
          have : ¬ key < rd ks (i - 1) := fun hlt => h ⟨by omega, hlt⟩
          simpa using this
      · intro j h1 h2
        simp only at h1
        omega
      · intro j
        rw [if_neg]
        simp only
        omega
      · intro j
        rw [if_neg]
        simp only
        omega

/-! ## B-tree: one leaf -/

theorem deref_single (L : ObeliskNode) : deref [L] 1 = some L := by
  simp [deref]

theorem btree_find_leaf_single (t : ObeliskBTree) (L : ObeliskNode) (k : Nat)
    (hr : t.root = 1) (hh : t.heap = [L])
    (hL : L.type = ObeliskNodeType.OBELISK_NODE_LEAF) :
    btree_find_leaf t k = some 1 := by
  have hne : ¬ L.type = ObeliskNodeType.OBELISK_NODE_INTERNAL := by rw [hL]; decide
  unfold btree_find_leaf
  rw [if_neg (by omega), hr, hh]
  simp only [find_leaf_descend, deref_single, List.length_singleton, if_neg hne]

theorem btree_insert_leaf (t : ObeliskBTree) (L : ObeliskNode) (k v : Nat)
    (hr : t.root = 1) (hh : t.heap = [L])
    (hL : L.type = ObeliskNodeType.OBELISK_NODE_LEAF) :
    btree_insert t k v =
      match insert_find L k L.num_keys 0 with
      | some i => (0, { t with heap := [leaf_update L i v] })
      | none =>
        if L.num_keys < OBELISK_BTREE_ORDER - 1 then (0, { t with heap := [leaf_add L k v] })
        else (-1, t) := by
  unfold btree_insert
  rw [if_neg (by omega), btree_find_leaf_single t L k hr hh hL]
  simp only [hh, deref_single, leaf_update, leaf_add]
  cases insert_find L k L.num_keys 0 <;> simp

theorem btree_search_leaf (t : ObeliskBTree) (L : ObeliskNode) (k : Nat)
    (hr : t.root = 1) (hh : t.heap = [L]) (hL : LeafOK L) :
    btree_search t k = search_loop L k (L.num_keys + 1) 0 ((L.num_keys : Int) - 1) := by
  unfold btree_search
  rw [if_neg (by omega), btree_find_leaf_single t L k hr hh hL.type_leaf]
  simp only [hh, deref_single]
  have hc := hL.count_le
  simp only [OBELISK_BTREE_ORDER] at hc
  rw [toInt32_pred L.num_keys (by omega)]

theorem btree_search_entry (t : ObeliskBTree) (L : ObeliskNode) (k v : Nat)
    (hr : t.root = 1) (hh : t.heap = [L]) (hL : LeafOK L) (he : has_entry L k v) :
    btree_search t k = some v := by
  obtain ⟨j, hj, hk, hv⟩ := he
  rw [btree_search_leaf t L k hr hh hL,
    search_loop_found L k hL.sorted (L.num_keys + 1) 0 _ j (le_refl _) (by omega) (by omega)
      (by omega) (by push_cast; omega) hk, hv]

theorem btree_search_no_key (t : ObeliskBTree) (L : ObeliskNode) (k : Nat)
    (hr : t.root = 1) (hh : t.heap = [L]) (hL : LeafOK L) (hn : ¬ has_key L k) :
    btree_search t k = none := by
  rw [btree_search_leaf t L k hr hh hL]
  exact search_loop_absent L k (fun i hi e => hn ⟨i, hi, e⟩) _ _ _ (le_refl _) (by omega)

theorem leaf_update_ok (L : ObeliskNode) (i v : Nat) (hL : LeafOK L) :
    LeafOK (leaf_update L i v) :=
  { type_leaf := hL.type_leaf
    keys_len := hL.keys_len
    children_len := by
      show (wr L.children i v).length = _
      rw [length_wr]; exact hL.children_len
    count_pos := hL.count_pos
    count_le := hL.count_le
    sorted := hL.sorted }

theorem leaf_update_entry (L : ObeliskNode) (i v : Nat) (hL : LeafOK L) (hi : i < L.num_keys) :
    has_entry (leaf_update L i v) (rd L.keys i) v := by
  refine ⟨i, hi, rfl, ?_⟩
  show rd (wr L.children i v) i = v
  have h1 := hL.count_le
  have h2 := hL.children_len
  simp only [OBELISK_BTREE_ORDER] at h1 h2
  rw [rd_wr, if_pos ⟨rfl, by omega⟩]

theorem leaf_add_spec (L : ObeliskNode) (key value : Nat) (hL : LeafOK L)
    (habs : ¬ has_key L key) (hroom : L.num_keys < OBELISK_BTREE_ORDER - 1) :
    ∃ p, p ≤ L.num_keys ∧
      (∀ j, j < p → rd L.keys j < key) ∧
      (∀ j, p ≤ j → j < L.num_keys → key < rd L.keys j) ∧
      (∀ j, rd (leaf_add L key value).keys j =
        if j < p then rd L.keys j else if j = p then key
        else if j ≤ L.num_keys then rd L.keys (j - 1) else rd L.keys j) ∧
      (∀ j, rd (leaf_add L key value).children j =
        if j < p then rd L.children j else if j = p then value
        else if j ≤ L.num_keys then rd L.children (j - 1) else rd L.children j) := by
  have h1 := hL.keys_len
  have h2 := hL.children_len
  simp only [OBELISK_BTREE_ORDER] at h1 h2 hroom
  obtain ⟨a1, a2, a3, a4, a5, a6, a7⟩ :=
    insert_shift_spec key L.num_keys L.num_keys L.keys L.children (le_refl _)
      (by omega) (by omega)
  unfold leaf_add
  generalize insert_shift key L.num_keys L.num_keys L.keys L.children = r
    at a1 a2 a3 a4 a5 a6 a7
  refine ⟨r.1, a1, ?_, a5, ?_, ?_⟩
  · intro j hj
    rcases a4 with a4 | a4
    · omega
    · have hlt : rd L.keys (r.1 - 1) < key := by
        rcases Nat.eq_or_lt_of_le a4 with e | e
        · exact absurd ⟨r.1 - 1, by omega, e⟩ habs
        · exact e
      rcases Nat.eq_or_lt_of_le (show j ≤ r.1 - 1 by omega) with e | e
      · rw [e]; exact hlt
      · exact lt_trans (hL.sorted j (r.1 - 1) e (by omega)) hlt
  · intro j
    show rd (wr r.2.1 r.1 key) j = _
    rw [rd_wr, a6 j]
    by_cases c1 : j < r.1
    · rw [if_neg (by omega), if_neg (by omega), if_pos c1]
    · by_cases c2 : j = r.1
      · rw [if_pos ⟨c2.symm, by omega⟩, if_neg c1, if_pos c2]
      · rw [if_neg (by omega), if_neg c1, if_neg c2]
        by_cases c3 : j ≤ L.num_keys
        · rw [if_pos ⟨by omega, c3⟩, if_pos c3]
        · rw [if_neg (by omega), if_neg c3]
  · intro j
    show rd (wr r.2.2 r.1 value) j = _
    rw [rd_wr, a7 j]
    by_cases c1 : j < r.1
    · rw [if_neg (by omega), if_neg (by omega), if_pos c1]
    · by_cases c2 : j = r.1
      · rw [if_pos ⟨c2.symm, by omega⟩, if_neg c1, if_pos c2]
      · rw [if_neg (by omega), if_neg c1, if_neg c2]
        by_cases c3 : j ≤ L.num_keys
        · rw [if_pos ⟨by omega, c3⟩, if_pos c3]
        · rw [if_neg (by omega), if_neg c3]

theorem leaf_add_ok (L : ObeliskNode) (key value : Nat) (hL : LeafOK L)
    (habs : ¬ has_key L key) (hroom : L.num_keys < OBELISK_BTREE_ORDER - 1) :
    LeafOK (leaf_add L key value) := by
  obtain ⟨p, hp, hlt, hgt, hk, _⟩ := leaf_add_spec L key value hL habs hroom
  have h1 := hL.keys_len
  have h2 := hL.children_len
  have hr := hroom
  simp only [OBELISK_BTREE_ORDER] at h1 h2 hr
  obtain ⟨_, a2, a3, _⟩ :=
    insert_shift_spec key L.num_keys L.num_keys L.keys L.children (le_refl _)
      (by omega) (by omega)
  refine
    { type_leaf := hL.type_leaf
      keys_len := ?_
      children_len := ?_
      count_pos := ?_
      count_le := ?_
      sorted := ?_ }
  · show (wr _ _ key).length = _
    rw [length_wr, a2]; exact hL.keys_len
  · show (wr _ _ value).length = _
    rw [length_wr, a3]; exact hL.children_len
  · show 1 ≤ L.num_keys + 1
    omega
  · show L.num_keys + 1 ≤ OBELISK_BTREE_ORDER - 1
    omega
  · intro i j hij hj
    have hj' : j < L.num_keys + 1 := hj
    rw [hk i, hk j]
    split_ifs <;>
      first
      | omega
      | exact hL.sorted _ _ (by omega) (by omega)
      | exact hlt _ (by omega)
      | exact hgt _ (by omega) (by omega)

theorem leaf_add_has_key (L : ObeliskNode) (key value x : Nat) (hL : LeafOK L)
    (habs : ¬ has_key L key) (hroom : L.num_keys < OBELISK_BTREE_ORDER - 1) :
    has_key (leaf_add L key value) x ↔ x = key ∨ has_key L x := by
  obtain ⟨p, hp, _, _, hk, _⟩ := leaf_add_spec L key value hL habs hroom
  constructor
  · rintro ⟨j, hj, e⟩
    have hj' : j < L.num_keys + 1 := hj
    rw [hk j] at e
    by_cases c1 : j < p
    · rw [if_pos c1] at e
      exact Or.inr ⟨j, by omega, e⟩
    · by_cases c2 : j = p
      · rw [if_neg c1, if_pos c2] at e
        exact Or.inl e.symm
      · rw [if_neg c1, if_neg c2, if_pos (by omega)] at e
        exact Or.inr ⟨j - 1, by omega, e⟩
  · rintro (e | ⟨j, hj, e⟩)
    · refine ⟨p, show p < L.num_keys + 1 by omega, ?_⟩
      rw [hk p, if_neg (by omega), if_pos rfl, e]
    · by_cases c1 : j < p
      · refine ⟨j, show j < L.num_keys + 1 by omega, ?_⟩
        rw [hk j, if_pos c1, e]
      · refine ⟨j + 1, show j + 1 < L.num_keys + 1 by omega, ?_⟩
        rw [hk (j + 1), if_neg (by omega), if_neg (by omega), if_pos (by omega)]
        exact e

theorem leaf_add_entry (L : ObeliskNode) (key value : Nat) (hL : LeafOK L)
    (habs : ¬ has_key L key) (hroom : L.num_keys < OBELISK_BTREE_ORDER - 1) :
    has_entry (leaf_add L key value) key value := by
  obtain ⟨p, hp, _, _, hk, hc⟩ := leaf_add_spec L key value hL habs hroom
  refine ⟨p, show p < L.num_keys + 1 by omega, ?_, ?_⟩
  · rw [hk p, if_neg (by omega), if_pos rfl]
  · rw [hc p, if_neg (by omega), if_pos rfl]

theorem first_leaf_ok (key value : Nat) :
    LeafOK { create_node ObeliskNodeType.OBELISK_NODE_LEAF with
      keys := wr (create_node ObeliskNodeType.OBELISK_NODE_LEAF).keys 0 key
      children := wr (create_node ObeliskNodeType.OBELISK_NODE_LEAF).children 0 value
      num_keys := 1 } :=
  { type_leaf := rfl
    keys_len := by simp [length_wr, create_node]
    children_len := by simp [length_wr, create_node]
    count_pos := le_refl _
    count_le := by simp [OBELISK_BTREE_ORDER]
    sorted := by intro i j h1 h2; simp only at h2; omega }

theorem btree_insert_empty (t : ObeliskBTree) (k v : Nat) (hr : t.root = 0) (hh : t.heap = []) :
    btree_insert t k v =
      (0, { t with
              heap := [{ create_node ObeliskNodeType.OBELISK_NODE_LEAF with
                keys := wr (create_node ObeliskNodeType.OBELISK_NODE_LEAF).keys 0 k
                children := wr (create_node ObeliskNodeType.OBELISK_NODE_LEAF).children 0 v
                num_keys := 1 }]
              root := 1
              height := 1
              num_nodes := 1 }) := by
  unfold btree_insert
  rw [if_pos hr]
  simp [hh]

theorem btree_insert_ok (t : ObeliskBTree) (k v : Nat) (h : TreeOK t) :
    TreeOK (btree_insert t k v).2 := by
  rcases h with ⟨hr, hh⟩ | ⟨hr, L, hh, hL⟩
  · rw [btree_insert_empty t k v hr hh]
    exact Or.inr ⟨rfl, _, rfl, first_leaf_ok k v⟩
  · rw [btree_insert_leaf t L k v hr hh hL.type_leaf]
    cases hf : insert_find L k L.num_keys 0 with
    | some i => exact Or.inr ⟨hr, _, rfl, leaf_update_ok L i v hL⟩
    | none =>
      have habs : ¬ has_key L k := fun ⟨j, hj, e⟩ =>
        insert_find_none L k L.num_keys 0 (by omega) hf j (Nat.zero_le _) hj e
      by_cases hroom : L.num_keys < OBELISK_BTREE_ORDER - 1
      · simp only [hroom, if_true]
        exact Or.inr ⟨hr, _, rfl, leaf_add_ok L k v hL habs hroom⟩
      · simp only [hroom, if_false]
        exact Or.inr ⟨hr, L, hh, hL⟩

theorem reachable_ok (t : ObeliskBTree) (h : Reachable t) : TreeOK t := by
  induction h with
  | create => exact Or.inl ⟨rfl, rfl⟩
  | insert t k v _ ih => exact btree_insert_ok t k v ih

theorem mem_node_keys (L : ObeliskNode) (x : Nat) (h : L.num_keys ≤ L.keys.length) :
    x ∈ node_keys L ↔ has_key L x := by
  unfold node_keys has_key rd
  rw [List.mem_iff_getElem?]
  constructor
  · rintro ⟨i, hi⟩
    rw [List.getElem?_take] at hi
    by_cases c : i < L.num_keys
    · rw [if_pos c] at hi
      refine ⟨i, c, ?_⟩
      rw [List.getD_eq_getElem?_getD, hi]; rfl
    · rw [if_neg c] at hi; cases hi
  · rintro ⟨j, hj, e⟩
    refine ⟨j, ?_⟩
    rw [List.getElem?_take, if_pos hj]
    rw [List.getD_eq_getElem?_getD, List.getElem?_eq_getElem (by omega)] at e
    rw [List.getElem?_eq_getElem (by omega)]
    simpa using e

theorem leaf_of_single (t : ObeliskBTree) (L : ObeliskNode) (k : Nat)
    (hr : t.root = 1) (hh : t.heap = [L])
    (hL : L.type = ObeliskNodeType.OBELISK_NODE_LEAF) :
    leaf_of t k = some L := by
  unfold leaf_of
  rw [btree_find_leaf_single t L k hr hh hL, hh]
  exact deref_single L

theorem leaf_of_empty (t : ObeliskBTree) (k : Nat) (hr : t.root = 0) : leaf_of t k = none := by
  unfold leaf_of btree_find_leaf
  rw [if_pos hr]
  rfl

theorem first_leaf_has_key (key value x : Nat) :
    has_key { create_node ObeliskNodeType.OBELISK_NODE_LEAF with
      keys := wr (create_node ObeliskNodeType.OBELISK_NODE_LEAF).keys 0 key
      children := wr (create_node ObeliskNodeType.OBELISK_NODE_LEAF).children 0 value
      num_keys := 1 } x ↔ x = key := by
  constructor
  · rintro ⟨j, hj, e⟩
    have hj' : j < 1 := hj
    have : j = 0 := by omega
    subst this
    have e' : rd (wr (create_node ObeliskNodeType.OBELISK_NODE_LEAF).keys 0 key) 0 = x := e
    rw [rd_wr, if_pos ⟨rfl, by simp [create_node, OBELISK_BTREE_ORDER]⟩] at e'
    exact e'.symm
  · intro e
    refine ⟨0, show 0 < 1 by omega, ?_⟩
    show rd (wr (create_node ObeliskNodeType.OBELISK_NODE_LEAF).keys 0 key) 0 = x
    rw [rd_wr, if_pos ⟨rfl, by simp [create_node, OBELISK_BTREE_ORDER]⟩, e]

theorem first_leaf_entry (key value : Nat) :
    has_entry { create_node ObeliskNodeType.OBELISK_NODE_LEAF with
      keys := wr (create_node ObeliskNodeType.OBELISK_NODE_LEAF).keys 0 key
      children := wr (create_node ObeliskNodeType.OBELISK_NODE_LEAF).children 0 value
      num_keys := 1 } key value := by
  refine ⟨0, show 0 < 1 by omega, ?_, ?_⟩
  · show rd (wr (create_node ObeliskNodeType.OBELISK_NODE_LEAF).keys 0 key) 0 = key
    rw [rd_wr, if_pos ⟨rfl, by simp [create_node, OBELISK_BTREE_ORDER]⟩]
  · show rd (wr (create_node ObeliskNodeType.OBELISK_NODE_LEAF).children 0 value) 0 = value
    rw [rd_wr, if_pos ⟨rfl, by simp [create_node, OBELISK_BTREE_ORDER]⟩]

theorem insert_find_absent (L : ObeliskNode) (k : Nat)
    (hf : insert_find L k L.num_keys 0 = none) : ¬ has_key L k :=
  fun ⟨j, hj, e⟩ => insert_find_none L k L.num_keys 0 (by omega) hf j (Nat.zero_le _) hj e

/-- What `btree_insert` does to a tree of the shape `TreeOK`: the status is `0`
unless the key is new and the leaf is full, and a status of `0` leaves the key
stored with the value given. -/
theorem btree_insert_cases (t : ObeliskBTree) (k v : Nat) (h : TreeOK t) :
    ((btree_insert t k v).1 = 0 ∧ (btree_insert t k v).2.root = 1 ∧
      ∃ L, (btree_insert t k v).2.heap = [L] ∧ LeafOK L ∧ has_entry L k v) ∨
    (btree_insert t k v = (-1, t) ∧ t.root = 1 ∧
      ∃ L, t.heap = [L] ∧ LeafOK L ∧ ¬ has_key L k ∧ L.num_keys = OBELISK_BTREE_ORDER - 1) := by
  rcases h with ⟨hr, hh⟩ | ⟨hr, L, hh, hL⟩
  · rw [btree_insert_empty t k v hr hh]
    exact Or.inl ⟨rfl, rfl, _, rfl, first_leaf_ok k v, first_leaf_entry k v⟩
  · rw [btree_insert_leaf t L k v hr hh hL.type_leaf]
    cases hf : insert_find L k L.num_keys 0 with
    | some i =>
      obtain ⟨_, hi, e⟩ := insert_find_some L k L.num_keys 0 i hf
      left
      refine ⟨rfl, hr, _, rfl, leaf_update_ok L i v hL, ?_⟩
      have := leaf_update_entry L i v hL hi
      rwa [e] at this
    | none =>
      have habs := insert_find_absent L k hf
      by_cases hroom : L.num_keys < OBELISK_BTREE_ORDER - 1
      · dsimp only
        rw [if_pos hroom]
        exact Or.inl ⟨rfl, hr, _, rfl, leaf_add_ok L k v hL habs hroom,
          leaf_add_entry L k v hL habs hroom⟩
      · dsimp only
        rw [if_neg hroom]
        have := hL.count_le
        exact Or.inr ⟨rfl, hr, L, hh, hL, habs, by omega⟩

theorem btree_fill_reachable (n : Nat) : Reachable (btree_fill n) := by
  induction n with
  | zero => exact Reachable.create
  | succ n ih => exact Reachable.insert _ n 0 ih

theorem btree_fill_spec (n : Nat) (hn : n < OBELISK_BTREE_ORDER - 1) :
    (btree_fill (n + 1)).root = 1 ∧
    ∃ L, (btree_fill (n + 1)).heap = [L] ∧ LeafOK L ∧ L.num_keys = n + 1 ∧
      ∀ x, has_key L x ↔ x < n + 1 := by
  induction n with
  | zero =>
    show (btree_insert btree_create 0 0).2.root = 1 ∧
      ∃ L, (btree_insert btree_create 0 0).2.heap = [L] ∧ _
    rw [btree_insert_empty btree_create 0 0 rfl rfl]
    refine ⟨rfl, _, rfl, first_leaf_ok 0 0, rfl, ?_⟩
    intro x
    rw [first_leaf_has_key]
    omega
  | succ n ih =>
    obtain ⟨hr, L, hh, hL, hc, hk⟩ := ih (by omega)
    have habs : ¬ has_key L (n + 1) := by rw [hk]; omega
    have hf : insert_find L (n + 1) L.num_keys 0 = none := by
      cases hf : insert_find L (n + 1) L.num_keys 0 with
      | none => rfl
      | some i =>
        obtain ⟨_, hi, e⟩ := insert_find_some L (n + 1) L.num_keys 0 i hf
        exact absurd ⟨i, hi, e⟩ habs
    have hroom : L.num_keys < OBELISK_BTREE_ORDER - 1 := by omega
    show (btree_insert (btree_fill (n + 1)) (n + 1) 0).2.root = 1 ∧
      ∃ L, (btree_insert (btree_fill (n + 1)) (n + 1) 0).2.heap = [L] ∧ _
    rw [btree_insert_leaf _ L (n + 1) 0 hr hh hL.type_leaf, hf]
    dsimp only
    rw [if_pos hroom]
    refine ⟨hr, _, rfl, leaf_add_ok L _ 0 hL habs hroom, ?_, ?_⟩
    · show L.num_keys + 1 = n + 1 + 1
      omega
    · intro x
      rw [leaf_add_has_key L _ 0 x hL habs hroom, hk]
      omega

/-! ## B-tree: the claims -/

/-- C1 (as stated, refuted): the tree reached by inserting the 127 keys
`0, ..., 126` has a full leaf; `btree_insert` of the new key `127` with value
`0` returns `-1`, and `btree_search` for `127` afterwards returns false. -/
theorem btree_insert_full_leaf_not_found :
    Reachable (btree_fill 127) ∧
    (btree_insert (btree_fill 127) 127 0).1 = -1 ∧
    btree_search (btree_insert (btree_fill 127) 127 0).2 127 = none := by
  obtain ⟨hr, L, hh, hL, hc, hk⟩ := btree_fill_spec 126 (by decide)
  have hok : TreeOK (btree_fill 127) := Or.inr ⟨hr, L, hh, hL⟩
  have habs : ¬ has_key L 127 := by rw [hk]; omega
  rcases btree_insert_cases (btree_fill 127) 127 0 hok with
    ⟨_, _, L1, _, _, _⟩ | ⟨e, _, _⟩
  · exfalso
    have e := btree_insert_leaf (btree_fill 127) L 127 0 hr hh hL.type_leaf
    have hf : insert_find L 127 L.num_keys 0 = none := by
      cases hf : insert_find L 127 L.num_keys 0 with
      | none => rfl
      | some i =>
        obtain ⟨_, hi, e⟩ := insert_find_some L 127 L.num_keys 0 i hf
        exact absurd ⟨i, hi, e⟩ habs
    rw [hf] at e
    dsimp only at e
    rw [if_neg (by rw [hc]; decide)] at e
    have : (btree_insert (btree_fill 127) 127 0).1 = -1 := by rw [e]
    omega
  · refine ⟨btree_fill_reachable 127, by rw [e], ?_⟩
    rw [e]
    exact btree_search_no_key _ L 127 hr hh hL habs

/-- C1 (amended): for every tree reachable from the empty tree by
`btree_insert` calls and all `k`, `v`: `btree_insert(tree, k, v)` returns `0`
whenever the leaf for `k` holds fewer than `OBELISK_BTREE_ORDER - 1 = 127` keys,
and whenever it returns `0` the following `btree_search(tree, k)` returns true
and yields `v`. -/
theorem btree_insert_then_search (t : ObeliskBTree) (k v : Nat) (h : Reachable t) :
    (leaf_count t k < OBELISK_BTREE_ORDER - 1 → (btree_insert t k v).1 = 0) ∧
    ((btree_insert t k v).1 = 0 → btree_search (btree_insert t k v).2 k = some v) := by
  have hok := reachable_ok t h
  rcases btree_insert_cases t k v hok with ⟨h0, hr, L, hh, hL, he⟩ | ⟨e, hr, L, hh, hL, _, hc⟩
  · exact ⟨fun _ => h0, fun _ => btree_search_entry _ L k v hr hh hL he⟩
  · constructor
    · intro hlt
      unfold leaf_count at hlt
      rw [leaf_of_single t L k hr hh hL.type_leaf] at hlt
      simp only at hlt
      omega
    · intro h0
      rw [e] at h0
      simp at h0

/-- Witness for C1: after `btree_insert(5, 50)` the leaf holds one key, so
`btree_insert(3, 30)` returns `0` and `btree_search(3)` yields `30`. -/
theorem btree_insert_then_search_witness :
    Reachable (btree_insert btree_create 5 50).2 ∧
    leaf_count (btree_insert btree_create 5 50).2 3 < OBELISK_BTREE_ORDER - 1 ∧
    (btree_insert (btree_insert btree_create 5 50).2 3 30).1 = 0 ∧
    btree_search (btree_insert (btree_insert btree_create 5 50).2 3 30).2 3 = some 30 :=
  ⟨Reachable.insert _ 5 50 Reachable.create, by decide,
    (btree_insert_then_search (btree_insert btree_create 5 50).2 3 30
      (Reachable.insert _ 5 50 Reachable.create)).1 (by decide),
    (btree_insert_then_search (btree_insert btree_create 5 50).2 3 30
      (Reachable.insert _ 5 50 Reachable.create)).2 (by decide)⟩

/-- C2: on a reachable tree in which key `k` is present, `btree_insert(k, v2)`
returns `0` whatever the number of keys in the leaf, `btree_search(k)`
afterwards yields `v2`, and the leaf has the same `keys` array and the same
`num_keys` as before. -/
theorem btree_upsert (t : ObeliskBTree) (k v2 : Nat) (h : Reachable t)
    (hp : key_present t k) :
    (btree_insert t k v2).1 = 0 ∧
    btree_search (btree_insert t k v2).2 k = some v2 ∧
    ∃ L L', leaf_of t k = some L ∧ leaf_of (btree_insert t k v2).2 k = some L' ∧
      L'.keys = L.keys ∧ L'.num_keys = L.num_keys := by
  obtain ⟨L0, hl0, hm⟩ := hp
  rcases reachable_ok t h with ⟨hr, _⟩ | ⟨hr, L, hh, hL⟩
  · rw [leaf_of_empty t k hr] at hl0
    cases hl0
  · have hlf := leaf_of_single t L k hr hh hL.type_leaf
    rw [hlf] at hl0
    have hL0 : L = L0 := Option.some.inj hl0
    subst hL0
    have hlen : L.num_keys ≤ L.keys.length := by
      rw [hL.keys_len]; exact hL.count_le
    have hk : has_key L k := (mem_node_keys L k hlen).mp hm
    have e := btree_insert_leaf t L k v2 hr hh hL.type_leaf
    cases hf : insert_find L k L.num_keys 0 with
    | none => exact absurd hk (insert_find_absent L k hf)
    | some i =>
      rw [hf] at e
      dsimp only at e
      obtain ⟨_, hi, ek⟩ := insert_find_some L k L.num_keys 0 i hf
      have hent : has_entry (leaf_update L i v2) k v2 := by
        have := leaf_update_entry L i v2 hL hi
        rwa [ek] at this
      rw [e]
      refine ⟨rfl, btree_search_entry _ (leaf_update L i v2) k v2 hr rfl
        (leaf_update_ok L i v2 hL) hent, L, leaf_update L i v2, hlf, ?_, rfl, rfl⟩
      exact leaf_of_single _ (leaf_update L i v2) k hr rfl hL.type_leaf

/-- Witness for C2: `btree_insert(5, 1)` then `btree_insert(5, 2)`. -/
theorem btree_upsert_witness :
    Reachable (btree_insert btree_create 5 1).2 ∧
    key_present (btree_insert btree_create 5 1).2 5 ∧
    (btree_insert (btree_insert btree_create 5 1).2 5 2).1 = 0 ∧
    btree_search (btree_insert (btree_insert btree_create 5 1).2 5 2).2 5 = some 2 :=
  ⟨Reachable.insert _ 5 1 Reachable.create,
    ⟨_, leaf_of_single _ _ 5 rfl rfl rfl, by decide⟩,
    (btree_upsert (btree_insert btree_create 5 1).2 5 2
      (Reachable.insert _ 5 1 Reachable.create)
      ⟨_, leaf_of_single _ _ 5 rfl rfl rfl, by decide⟩).1,
    (btree_upsert (btree_insert btree_create 5 1).2 5 2
      (Reachable.insert _ 5 1 Reachable.create)
      ⟨_, leaf_of_single _ _ 5 rfl rfl rfl, by decide⟩).2.1⟩

/-! ### Iteration -/

theorem drain_single (t : ObeliskBTree) (L : ObeliskNode) (hh : t.heap = [L]) :
    ∀ (fuel pos : Nat), L.num_keys - pos ≤ fuel →
      btree_iterator_drain t fuel { current_node := 1, current_pos := pos } =
        (List.range' pos (L.num_keys - pos)).map (fun j => (rd L.keys j, rd L.children j)) := by
  intro fuel
  induction fuel with
  | zero =>
    intro pos h
    have : L.num_keys - pos = 0 := by omega
    rw [this]
    rfl
  | succ fuel ih =>
    intro pos h
    rw [btree_iterator_drain]
    unfold btree_iterator_next
    simp only [hh, deref_single]
    by_cases c : pos ≥ L.num_keys
    · rw [if_pos c]
      have : L.num_keys - pos = 0 := by omega
      rw [this]
      rfl
    · rw [if_neg c]
      dsimp only
      rw [ih (pos + 1) (by omega)]
      have : L.num_keys - pos = (L.num_keys - (pos + 1)) + 1 := by omega
      rw [this, List.range'_succ]
      rfl

theorem btree_iterator_create_single (t : ObeliskBTree) (L : ObeliskNode)
    (hr : t.root = 1) (hh : t.heap = [L])
    (hL : L.type = ObeliskNodeType.OBELISK_NODE_LEAF) :
    btree_iterator_create t = { current_node := 1, current_pos := 0 } := by
  have hne : ¬ L.type = ObeliskNodeType.OBELISK_NODE_INTERNAL := by rw [hL]; decide
  unfold btree_iterator_create
  rw [if_pos (by omega), hr, hh]
  simp only [leftmost_leaf, deref_single, List.length_singleton, if_neg hne]

theorem drain_empty (t : ObeliskBTree) (hr : t.root = 0) (fuel : Nat) :
    btree_iterator_drain t fuel (btree_iterator_create t) = [] := by
  cases fuel with
  | zero => rfl
  | succ fuel =>
    rw [btree_iterator_drain]
    unfold btree_iterator_next btree_iterator_create
    simp [hr, deref]

theorem scan_single (t : ObeliskBTree) (L : ObeliskNode) (hr : t.root = 1) (hh : t.heap = [L])
    (hL : LeafOK L) (fuel : Nat) (hf : OBELISK_BTREE_ORDER ≤ fuel) :
    (btree_iterator_drain t fuel (btree_iterator_create t)).map Prod.fst =
      (List.range' 0 L.num_keys).map (rd L.keys) := by
  have hc := hL.count_le
  simp only [OBELISK_BTREE_ORDER] at hc hf
  rw [btree_iterator_create_single t L hr hh hL.type_leaf,
    drain_single t L hh fuel 0 (by omega), List.map_map]
  rfl

theorem scan_keys_mem (t : ObeliskBTree) (h : TreeOK t) (x : Nat) :
    x ∈ scan_keys t ↔ stored t x := by
  unfold scan_keys btree_scan stored
  rcases h with ⟨hr, hh⟩ | ⟨hr, L, hh, hL⟩
  · rw [drain_empty t hr, hh]
    simp
  · rw [scan_single t L hr hh hL _ (le_refl _), hh]
    simp only [List.mem_map, List.mem_range'_1, List.cons.injEq, and_true, exists_eq_left']
    constructor
    · rintro ⟨j, ⟨_, hj⟩, e⟩
      exact ⟨j, by omega, e⟩
    · rintro ⟨j, hj, e⟩
      exact ⟨j, ⟨by omega, by omega⟩, e⟩

theorem scan_keys_sorted (t : ObeliskBTree) (h : TreeOK t) :
    (scan_keys t).Pairwise (fun a b => a < b) := by
  unfold scan_keys btree_scan
  rcases h with ⟨hr, hh⟩ | ⟨hr, L, hh, hL⟩
  · rw [drain_empty t hr]
    exact List.Pairwise.nil
  · rw [scan_single t L hr hh hL _ (le_refl _), List.pairwise_map]
    refine List.Pairwise.imp_of_mem ?_ (List.pairwise_lt_range' 0 L.num_keys)
    intro a b _ hb hab
    rw [List.mem_range'_1] at hb
    exact hL.sorted a b hab (by omega)

theorem scan_fuel (t : ObeliskBTree) (h : TreeOK t) (fuel : Nat)
    (hf : OBELISK_BTREE_ORDER ≤ fuel) :
    btree_iterator_drain t fuel (btree_iterator_create t) = btree_scan t := by
  unfold btree_scan
  rcases h with ⟨hr, hh⟩ | ⟨hr, L, hh, hL⟩
  · rw [drain_empty t hr, drain_empty t hr]
  · have hc := hL.count_le
    simp only [OBELISK_BTREE_ORDER] at hc hf
    rw [btree_iterator_create_single t L hr hh hL.type_leaf,
      drain_single t L hh fuel 0 (by omega),
      drain_single t L hh OBELISK_BTREE_ORDER 0 (by simp only [OBELISK_BTREE_ORDER]; omega)]

theorem stored_insert (t : ObeliskBTree) (k v x : Nat) (h : TreeOK t) :
    stored (btree_insert t k v).2 x ↔ ((btree_insert t k v).1 = 0 ∧ x = k) ∨ stored t x := by
  unfold stored
  rcases h with ⟨hr, hh⟩ | ⟨hr, L, hh, hL⟩
  · rw [btree_insert_empty t k v hr hh, hh]
    simp only [List.cons.injEq, and_true, exists_eq_left', true_and]
    rw [first_leaf_has_key]
    simp
  · rw [btree_insert_leaf t L k v hr hh hL.type_leaf, hh]
    cases hf : insert_find L k L.num_keys 0 with
    | some i =>
      obtain ⟨_, hi, e⟩ := insert_find_some L k L.num_keys 0 i hf
      simp only [List.cons.injEq, and_true, exists_eq_left', true_and]
      constructor
      · intro hx; exact Or.inr hx
      · rintro (hx | hx)
        · rw [hx]; exact ⟨i, hi, e⟩
        · exact hx
    | none =>
      have habs := insert_find_absent L k hf
      by_cases hroom : L.num_keys < OBELISK_BTREE_ORDER - 1
      · dsimp only
        rw [if_pos hroom]
        simp only [List.cons.injEq, and_true, exists_eq_left', true_and]
        exact leaf_add_has_key L k v x hL habs hroom
      · dsimp only
        rw [if_neg hroom, hh]
        simp

theorem run_ok (ops : List BTreeOp) :
    ∀ t, TreeOK t → TreeOK (btree_run t ops) ∧
      ∀ x, stored (btree_run t ops) x ↔ stored t x ∨ x ∈ ops_accepted t ops := by
  induction ops with
  | nil =>
    intro t h
    exact ⟨h, fun x => by simp [btree_run, ops_accepted]⟩
  | cons op ops ih =>
    intro t h
    cases op with
    | insert k v =>
      obtain ⟨a, b⟩ := ih (btree_insert t k v).2 (btree_insert_ok t k v h)
      refine ⟨a, fun x => ?_⟩
      show stored (btree_run (btree_insert t k v).2 ops) x ↔ _
      rw [b x, stored_insert t k v x h]
      simp only [ops_accepted]
      by_cases c : (btree_insert t k v).1 = 0
      · rw [if_pos c]
        simp only [c, true_and, List.mem_cons]
        tauto
      · rw [if_neg c]
        simp only [c, false_and, false_or]
    | delete k =>
      obtain ⟨a, b⟩ := ih t h
      exact ⟨a, fun x => b x⟩

/-- C3 (as stated, refuted): after `btree_insert(1, 10)` and `btree_delete(1)`
on the empty tree the drained iterator still yields key `1`, so the keys
yielded are not the keys inserted minus the keys deleted. -/
theorem btree_scan_after_delete :
    ¬ (∀ k, k ∈ scan_keys (btree_run btree_create [BTreeOp.insert 1 10, BTreeOp.delete 1]) ↔
        (k ∈ ops_inserted [BTreeOp.insert 1 10, BTreeOp.delete 1] ∧
          k ∉ ops_deleted [BTreeOp.insert 1 10, BTreeOp.delete 1])) := by
  intro h
  have h1 := (h 1).mp (by decide)
  exact h1.2 (by decide)

/-- C3 (amended): for every sequence of `btree_insert` and `btree_delete` calls
starting from the empty tree, draining an iterator from `btree_iterator_create`
with `btree_iterator_next` ends (more fuel yields nothing more), yields keys in
strictly increasing order, and the set of keys yielded equals the set of keys
whose `btree_insert` returned `0`; `btree_delete` returns `-1` and removes
nothing. -/
theorem btree_scan_sorted_accepted (ops : List BTreeOp) :
    (scan_keys (btree_run btree_create ops)).Pairwise (fun a b => a < b) ∧
    (∀ k, k ∈ scan_keys (btree_run btree_create ops) ↔ k ∈ ops_accepted btree_create ops) ∧
    (∀ fuel, OBELISK_BTREE_ORDER ≤ fuel →
      btree_iterator_drain (btree_run btree_create ops) fuel
        (btree_iterator_create (btree_run btree_create ops)) =
        btree_scan (btree_run btree_create ops)) ∧
    (∀ t k, btree_delete t k = (-1, t)) := by
  obtain ⟨a, b⟩ := run_ok ops btree_create (Or.inl ⟨rfl, rfl⟩)
  refine ⟨scan_keys_sorted _ a, fun k => ?_, fun fuel hf => scan_fuel _ a fuel hf,
    fun _ _ => rfl⟩
  rw [scan_keys_mem _ a, b k]
  constructor
  · rintro (⟨L, hL, _⟩ | h)
    · cases hL
    · exact h
  · exact fun h => Or.inr h

/-- Witness for C3: the calls `insert(2, 20)`, `insert(1, 10)`, `delete(2)`;
the drained keys are increasing and draining with fuel 200 yields the same
pairs as `btree_scan`. -/
theorem btree_scan_sorted_accepted_witness :
    (scan_keys (btree_run btree_create
      [BTreeOp.insert 2 20, BTreeOp.insert 1 10, BTreeOp.delete 2])).Pairwise
        (fun a b => a < b) ∧
    btree_iterator_drain
      (btree_run btree_create [BTreeOp.insert 2 20, BTreeOp.insert 1 10, BTreeOp.delete 2]) 200
      (btree_iterator_create
        (btree_run btree_create [BTreeOp.insert 2 20, BTreeOp.insert 1 10, BTreeOp.delete 2])) =
      btree_scan
        (btree_run btree_create [BTreeOp.insert 2 20, BTreeOp.insert 1 10, BTreeOp.delete 2]) :=
  ⟨(btree_scan_sorted_accepted
      [BTreeOp.insert 2 20, BTreeOp.insert 1 10, BTreeOp.delete 2]).1,
    (btree_scan_sorted_accepted
      [BTreeOp.insert 2 20, BTreeOp.insert 1 10, BTreeOp.delete 2]).2.2.1 200 (by decide)⟩

/-! ## Buffer pool: the loops -/

theorem find_page_loop_some (pool : ObeliskBufferPool) (page_id : Nat) :
    ∀ (fuel i j : Nat), find_page_loop pool page_id fuel i = some j →
      ∃ pg, pool.pages[j]? = some pg ∧ pg.page_id = page_id := by
  intro fuel
  induction fuel with
  | zero => intro i j h; simp [find_page_loop] at h
  | succ fuel ih =>
    intro i j h
    rw [find_page_loop] at h
    cases hp : pool.pages[i]? with
    | none => rw [hp] at h; simp at h
    | some pg =>
      rw [hp] at h
      dsimp only at h
      by_cases c : pg.page_id = page_id
      · rw [if_pos c] at h
        cases h
        exact ⟨pg, hp, c⟩
      · rw [if_neg c] at h
        exact ih (i + 1) j h

theorem find_victim_loop_frame (pool : ObeliskBufferPool) (start : Nat) :
    ∀ (fuel ch i ch' : Nat),
      find_victim_loop pool start fuel ch = (VictimResult.frame i, ch') →
      ∃ pg, pool.pages[i]? = some pg ∧ pg.pin_count = 0 ∧
        pg.state = ObeliskPageState.OBELISK_PAGE_CLEAN := by
  intro fuel
  induction fuel with
  | zero => intro ch i ch' h; simp [find_victim_loop] at h
  | succ fuel ih =>
    intro ch i ch' h
    rw [find_victim_loop] at h
    cases hp : pool.pages[ch]? with
    | none => rw [hp] at h; simp at h
    | some pg =>
      rw [hp] at h
      dsimp only at h
      by_cases c : pg.pin_count = 0 ∧ pg.state = ObeliskPageState.OBELISK_PAGE_CLEAN
      · rw [if_pos c] at h
        have hi : ch = i := by
          have := congrArg Prod.fst h
          simpa using this
        subst hi
        exact ⟨pg, hp, c.1, c.2⟩
      · rw [if_neg c] at h
        by_cases c2 : (ch + 1) % pool_size pool ≠ start
        · rw [if_pos c2] at h
          exact ih _ i ch' h
        · rw [if_neg c2] at h
          simp at h

theorem find_victim_loop_in_bounds (pool : ObeliskBufferPool) (start : Nat) :
    ∀ (fuel ch : Nat), ch < pool_size pool →
      (find_victim_loop pool start fuel ch).1 ≠ VictimResult.out_of_bounds := by
  intro fuel
  induction fuel with
  | zero => intro ch _; simp [find_victim_loop]
  | succ fuel ih =>
    intro ch hch
    rw [find_victim_loop]
    have hlt : ch < pool.pages.length := hch
    rw [List.getElem?_eq_getElem hlt]
    dsimp only
    split
    · simp
    · split
      · exact ih _ (Nat.mod_lt _ (by omega))
      · simp

/-- Fuel of `find_victim_loop`: from a clock hand inside the array the scan is
back at its starting point after `pool_size` steps, so more fuel than
`pool_size` changes nothing. -/
theorem find_victim_loop_fuel (pool : ObeliskBufferPool) (start : Nat)
    (hs : start < pool_size pool) :
    ∀ (fuel k : Nat), k < pool_size pool → pool_size pool - k ≤ fuel →
      find_victim_loop pool start fuel ((start + k) % pool_size pool) =
        find_victim_loop pool start (pool_size pool - k) ((start + k) % pool_size pool) := by
  intro fuel
  induction fuel with
  | zero => intro k h1 h2; omega
  | succ fuel ih =>
    intro k h1 h2
    obtain ⟨m, hm⟩ : ∃ m, pool_size pool - k = m + 1 := ⟨pool_size pool - k - 1, by omega⟩
    rw [hm, find_victim_loop, find_victim_loop]
    cases hp : pool.pages[(start + k) % pool_size pool]? with
    | none => rfl
    | some pg =>
      dsimp only
      by_cases c : pg.pin_count = 0 ∧ pg.state = ObeliskPageState.OBELISK_PAGE_CLEAN
      · rw [if_pos c, if_pos c]
      · rw [if_neg c, if_neg c]
        have e : ((start + k) % pool_size pool + 1) % pool_size pool =
            (start + (k + 1)) % pool_size pool := by
          rw [Nat.mod_add_mod]; rfl
        rw [e]
        by_cases c2 : (start + (k + 1)) % pool_size pool ≠ start
        · rw [if_pos c2, if_pos c2]
          have hk : k + 1 < pool_size pool := by
            by_contra hge
            have : k + 1 = pool_size pool := by omega
            rw [this, Nat.add_mod_right, Nat.mod_eq_of_lt hs] at c2
            exact c2 rfl
          have hm' : m = pool_size pool - (k + 1) := by omega
          rw [hm', ih (k + 1) hk (by omega)]
        · rw [if_neg c2, if_neg c2]

/-- From a clock hand inside the pool the scan of `find_victim_page` is the
loop with `pool_size` rounds. -/
theorem find_victim_page_eq (pool : ObeliskBufferPool) (clock_hand : Nat)
    (h : clock_hand < pool_size pool) :
    find_victim_page pool clock_hand =
      find_victim_loop pool clock_hand (pool_size pool) clock_hand := by
  unfold find_victim_page
  rw [Nat.max_eq_left (by omega)]

/-- What a defined call of `buffer_pool_get_page` does: it returns `NULL` and
leaves all frames alone, or it returns frame `i` and rewrites only that frame,
keeping its `pin_count`, giving it `page_id`; the frame changes identity only
on a miss, and then it was unpinned and clean. -/
theorem get_page_cases (pool : ObeliskBufferPool) (clock_hand page_id : Nat) (r : GetPage)
    (h : buffer_pool_get_page pool clock_hand page_id = some r) :
    (r.frame = none ∧ r.pool.pages = pool.pages ∧ find_page pool page_id = none) ∨
    ∃ i pg pg', pool.pages[i]? = some pg ∧ r.frame = some i ∧
      r.pool.pages = pool.pages.set i pg' ∧ pg'.pin_count = pg.pin_count ∧
      pg'.page_id = page_id ∧
      (pg.page_id = page_id ∨
        (pg.pin_count = 0 ∧ pg.state = ObeliskPageState.OBELISK_PAGE_CLEAN)) ∧
      (find_page pool page_id = none →
        pg.pin_count = 0 ∧ pg.state = ObeliskPageState.OBELISK_PAGE_CLEAN) := by
  unfold buffer_pool_get_page at h
  cases hf : find_page pool page_id with
  | some i =>
    rw [hf] at h
    dsimp only at h
    obtain ⟨pg, hp, hid⟩ := find_page_loop_some pool page_id _ 0 i hf
    rw [hp] at h
    dsimp only at h
    have hr := Option.some.inj h
    subst hr
    right
    exact ⟨i, pg,
      { pg with last_accessed := (incr64 pool.hits + pool.misses) % 18446744073709551616 },
      hp, rfl, rfl, rfl, hid, Or.inl hid, fun hn => by cases hn⟩
  | none =>
    rw [hf] at h
    dsimp only at h
    cases hv : find_victim_page { pool with misses := incr64 pool.misses } clock_hand with
    | mk res ch =>
      rw [hv] at h
      cases res with
      | out_of_bounds => simp at h
      | null =>
        dsimp only at h
        have hr := Option.some.inj h
        subst hr
        exact Or.inl ⟨rfl, rfl, rfl⟩
      | frame i =>
        dsimp only at h
        obtain ⟨pg, hp, h1, h2⟩ := find_victim_loop_frame _ _ _ _ i ch hv
        have hp' : pool.pages[i]? = some pg := hp
        rw [hp'] at h
        dsimp only at h
        have hr := Option.some.inj h
        subst hr
        right
        refine ⟨i, pg,
          { pg with page_id := page_id, state := ObeliskPageState.OBELISK_PAGE_CLEAN },
          hp', rfl, ?_, rfl, rfl, Or.inr ⟨h1, h2⟩, fun _ => ⟨h1, h2⟩⟩
        simp only [set_page]
        split <;> rfl

theorem set_frame_lookup (pages : List ObeliskPage) (i j : Nat) (pg pg0 pg1 : ObeliskPage)
    (hi : pages[i]? = some pg0) (hj : pages[j]? = some pg1) :
    (pages.set i pg)[j]? = some (if i = j then pg else pg1) := by
  rw [List.getElem?_set]
  by_cases c : i = j
  · subst c
    have : i < pages.length := by
      rcases List.getElem?_eq_some.mp hi with ⟨hlt, _⟩
      exact hlt
    rw [if_pos rfl, if_pos this, if_pos rfl]
  · rw [if_neg c, if_neg c, hj]

/-! ## Buffer pool: the claims -/

/-- C4: for every pool and every position of the clock hand, the frame
returned by `find_victim_page` has `pin_count` 0, and `buffer_pool_get_page`
leaves the `page_id` of every frame whose `pin_count` is greater than 0 as it
was; from a clock hand inside the array the call is defined. -/
theorem victim_never_pinned (pool : ObeliskBufferPool) (clock_hand page_id : Nat) :
    (∀ (i ch : Nat), find_victim_page pool clock_hand = (VictimResult.frame i, ch) →
      ∃ pg : ObeliskPage, pool.pages[i]? = some pg ∧ pg.pin_count = 0) ∧
    (∀ r : GetPage, buffer_pool_get_page pool clock_hand page_id = some r →
      ∀ (i : Nat) (pg : ObeliskPage), pool.pages[i]? = some pg → 0 < pg.pin_count →
        ∃ pg' : ObeliskPage, r.pool.pages[i]? = some pg' ∧ pg'.page_id = pg.page_id) ∧
    (clock_hand < pool_size pool →
      (buffer_pool_get_page pool clock_hand page_id).isSome = true) := by
  refine ⟨?_, ?_, ?_⟩
  · intro i ch h
    obtain ⟨pg, hp, h0, _⟩ := find_victim_loop_frame pool clock_hand _ _ i ch h
    exact ⟨pg, hp, h0⟩
  · intro r h i pg hp hpin
    rcases get_page_cases pool clock_hand page_id r h with
      ⟨_, e, _⟩ | ⟨j, pg0, pg1, hj, _, e, hpc, hid, hsame, _⟩
    · rw [e]; exact ⟨pg, hp, rfl⟩
    · rw [e, set_frame_lookup pool.pages j i pg1 pg0 pg hj hp]
      by_cases c : j = i
      · subst c
        rw [if_pos rfl]
        rw [hj] at hp
        have := Option.some.inj hp
        subst this
        refine ⟨pg1, rfl, ?_⟩
        rcases hsame with hs | ⟨h0, _⟩
        · rw [hid, hs]
        · omega
      · rw [if_neg c]
        exact ⟨pg, rfl, rfl⟩
  · intro hch
    unfold buffer_pool_get_page
    cases hf : find_page pool page_id with
    | some i =>
      obtain ⟨pg, hp, _⟩ := find_page_loop_some pool page_id _ 0 i hf
      dsimp only
      rw [hp]
      rfl
    | none =>
      dsimp only
      cases hv : find_victim_page { pool with misses := incr64 pool.misses } clock_hand with
      | mk res ch =>
        cases res with
        | out_of_bounds =>
          exfalso
          have := find_victim_loop_in_bounds { pool with misses := incr64 pool.misses }
            clock_hand (max (pool_size pool) 1) clock_hand hch
          unfold find_victim_page at hv
          have hv' : find_victim_loop { pool with misses := incr64 pool.misses } clock_hand
              (max (pool_size pool) 1) clock_hand = (VictimResult.out_of_bounds, ch) := hv
          rw [hv'] at this
          exact this rfl
        | null => rfl
        | frame i =>
          obtain ⟨pg, hp, _⟩ := find_victim_loop_frame _ _ _ _ i ch hv
          dsimp only
          rw [hp]
          rfl

/-- Witness for C4: the pool of two frames with frame 0 pinned, clock hand 0,
`buffer_pool_get_page(pool, 7)`. -/
theorem victim_never_pinned_witness :
    (∃ pg : ObeliskPage, pool_two_pinned.pages[1]? = some pg ∧ pg.pin_count = 0) ∧
    (∃ pg' : ObeliskPage,
      ((buffer_pool_get_page pool_two_pinned 0 7).map (fun r => r.pool.pages[0]?)) =
        some (some pg') ∧ pg'.page_id = 0) ∧
    (buffer_pool_get_page pool_two_pinned 0 7).isSome = true := by
  refine ⟨(victim_never_pinned pool_two_pinned 0 7).1 1 1 (by decide), ?_,
    (victim_never_pinned pool_two_pinned 0 7).2.2 (by decide)⟩
  have h := (victim_never_pinned pool_two_pinned 0 7).2.1
  cases hg : buffer_pool_get_page pool_two_pinned 0 7 with
  | none => exact absurd hg (by decide)
  | some r =>
    obtain ⟨pg', h1, h2⟩ := h r hg 0 ⟨0, ObeliskPageState.OBELISK_PAGE_CLEAN, 1, 0⟩
      (by decide) (by decide)
    exact ⟨pg', by rw [Option.map_some', h1], h2⟩

/-- C7 (as stated, refuted): on a fresh pool of two frames
`buffer_pool_get_page(pool, 7)` succeeds and returns frame 0 holding page 7,
and that frame has `pin_count` 0. -/
theorem get_page_returns_unpinned :
    (buffer_pool_get_page (buffer_pool_create ⟨2, 4096, false, 0⟩) 0 7).map
      (fun r => (r.frame, r.pool.pages[0]?)) =
    some (some 0, some ⟨7, ObeliskPageState.OBELISK_PAGE_CLEAN, 0, 0⟩) := by
  decide

/-- C7 (amended): after a successful `buffer_pool_get_page(pool, id)` the
returned frame has `page_id = id`; the call takes no pin: the frame's
`pin_count` is what it was before the call, which on a miss is 0. -/
theorem get_page_takes_no_pin (pool : ObeliskBufferPool) (clock_hand page_id : Nat)
    (r : GetPage) (i : Nat)
    (h : buffer_pool_get_page pool clock_hand page_id = some r) (hf : r.frame = some i) :
    ∃ pg pg' : ObeliskPage, pool.pages[i]? = some pg ∧ r.pool.pages[i]? = some pg' ∧
      pg'.page_id = page_id ∧ pg'.pin_count = pg.pin_count ∧
      (find_page pool page_id = none → pg'.pin_count = 0) := by
  rcases get_page_cases pool clock_hand page_id r h with
    ⟨e, _, _⟩ | ⟨j, pg0, pg1, hj, e1, e, hpc, hid, _, hmiss⟩
  · rw [e] at hf; cases hf
  · rw [e1] at hf
    have hji : j = i := Option.some.inj hf
    subst hji
    refine ⟨pg0, pg1, hj, ?_, hid, hpc, fun hn => ?_⟩
    · rw [e, set_frame_lookup pool.pages j j pg1 pg0 pg0 hj hj, if_pos rfl]
    · rw [hpc]; exact (hmiss hn).1

/-- Witness for C7: `buffer_pool_get_page(pool, 7)` on the pool of two frames
with frame 0 pinned misses and returns frame 1, whose `pin_count` stays 0. -/
theorem get_page_takes_no_pin_witness :
    buffer_pool_get_page pool_two_pinned 0 7 = some pool_two_pinned_got ∧
    pool_two_pinned_got.frame = some 1 ∧
    find_page pool_two_pinned 7 = none ∧
    ∃ pg pg' : ObeliskPage, pool_two_pinned.pages[1]? = some pg ∧
      pool_two_pinned_got.pool.pages[1]? = some pg' ∧
      pg'.page_id = 7 ∧ pg'.pin_count = pg.pin_count ∧ pg'.pin_count = 0 := by
  refine ⟨by decide, rfl, by decide, ?_⟩
  obtain ⟨pg, pg', h1, h2, h3, h4, h5⟩ :=
    get_page_takes_no_pin pool_two_pinned 0 7 pool_two_pinned_got 1 (by decide) rfl
  exact ⟨pg, pg', h1, h2, h3, h4, h5 (by decide)⟩

/-- C8 (code at the failing input): in a pool of one frame whose page was
fetched, pinned and unpinned dirty, the only frame is unpinned (`pin_count` 0)
and dirty, page 2 is not resident, and `buffer_pool_get_page(pool, 2)` returns
`NULL` and leaves the frame holding page 1. -/
theorem get_page_fails_on_unpinned_dirty :
    pool_one_dirty.pages = [⟨1, ObeliskPageState.OBELISK_PAGE_DIRTY, 0, 0⟩] ∧
    find_page pool_one_dirty 2 = none ∧
    (buffer_pool_get_page pool_one_dirty 0 2).map (fun r => (r.frame, r.pool.pages)) =
      some (none, [⟨1, ObeliskPageState.OBELISK_PAGE_DIRTY, 0, 0⟩]) := by
  decide

/-- C9: whenever `buffer_pool_get_page` leaves a frame with another `page_id`
than it had, that frame was Clean (and unpinned) when the call was made; a
frame in state Dirty keeps its `page_id`. -/
theorem dirty_frame_keeps_page (pool : ObeliskBufferPool) (clock_hand page_id : Nat)
    (r : GetPage) (i : Nat) (pg pg' : ObeliskPage)
    (h : buffer_pool_get_page pool clock_hand page_id = some r)
    (h1 : pool.pages[i]? = some pg) (h2 : r.pool.pages[i]? = some pg')
    (hne : pg'.page_id ≠ pg.page_id) :
    pg.state = ObeliskPageState.OBELISK_PAGE_CLEAN ∧ pg.pin_count = 0 := by
  rcases get_page_cases pool clock_hand page_id r h with
    ⟨_, e, _⟩ | ⟨j, pg0, pg1, hj, _, e, _, hid, hsame, _⟩
  · rw [e, h1] at h2
    have := Option.some.inj h2
    subst this
    exact absurd rfl hne
  · rw [e, set_frame_lookup pool.pages j i pg1 pg0 pg hj h1] at h2
    have h2' := Option.some.inj h2
    by_cases c : j = i
    · subst c
      rw [if_pos rfl] at h2'
      subst h2'
      rw [hj] at h1
      have := Option.some.inj h1
      subst this
      rcases hsame with hs | ⟨a, b⟩
      · exact absurd (by rw [hid, hs]) hne
      · exact ⟨b, a⟩
    · rw [if_neg c] at h2'
      subst h2'
      exact absurd rfl hne

/-- Witness for C9: frame 1 of the pool of two frames goes from page 0 to page
7 and was Clean and unpinned. -/
theorem dirty_frame_keeps_page_witness :
    buffer_pool_get_page pool_two_pinned 0 7 = some pool_two_pinned_got ∧
    pool_two_pinned.pages[1]? = some ⟨0, ObeliskPageState.OBELISK_PAGE_CLEAN, 0, 0⟩ ∧
    pool_two_pinned_got.pool.pages[1]? = some ⟨7, ObeliskPageState.OBELISK_PAGE_CLEAN, 0, 0⟩ ∧
    (⟨0, ObeliskPageState.OBELISK_PAGE_CLEAN, 0, 0⟩ : ObeliskPage).state =
      ObeliskPageState.OBELISK_PAGE_CLEAN ∧
    (⟨0, ObeliskPageState.OBELISK_PAGE_CLEAN, 0, 0⟩ : ObeliskPage).pin_count = 0 :=
  ⟨by decide, by decide, by decide,
    dirty_frame_keeps_page pool_two_pinned 0 7 pool_two_pinned_got 1
      ⟨0, ObeliskPageState.OBELISK_PAGE_CLEAN, 0, 0⟩
      ⟨7, ObeliskPageState.OBELISK_PAGE_CLEAN, 0, 0⟩
      (by decide) (by decide) (by decide) (by decide)⟩

/-! ## Transactions: the loops -/

theorem lock_index_none (locked : List Nat) (r : Nat) :
    ∀ (fuel i : Nat), locked.length ≤ i + fuel → lock_index locked r fuel i = none →
      ∀ j, i ≤ j → j < locked.length → rd locked j ≠ r := by
  intro fuel
  induction fuel with
  | zero => intro i hf _ j h1 h2; omega
  | succ fuel ih =>
    intro i hf h j h1 h2
    rw [lock_index] at h
    have hi : i < locked.length := by omega
    rw [if_pos hi] at h
    by_cases h3 : rd locked i = r
    · rw [if_pos h3] at h; cases h
    · rw [if_neg h3] at h
      rcases Nat.eq_or_lt_of_le h1 with e | e
      · subst e; exact h3
      · exact ih (i + 1) (by omega) h j (by omega) h2

theorem rd_append_last (l : List Nat) (r : Nat) : rd (l ++ [r]) l.length = r := by
  unfold rd
  rw [List.getD_eq_getElem?_getD, List.getElem?_append_right (le_refl _)]
  simp

theorem txn_acquire_lock_active (txn : ObeliskTransaction) (r : Nat)
    (mode mode' : ObeliskLockMode)
    (h : txn.state = ObeliskTransactionState.OBELISK_TXN_ACTIVE) :
    (txn_acquire_lock txn r mode).1 = 0 ∧
    txn_has_lock (txn_acquire_lock txn r mode).2 r mode' = true := by
  unfold txn_acquire_lock
  rw [if_neg (by rw [h]; decide)]
  cases hl : lock_index txn.locked_resources r txn.locked_resources.length 0 with
  | some i =>
    refine ⟨rfl, ?_⟩
    unfold txn_has_lock
    dsimp only
    rw [hl]
  | none =>
    refine ⟨rfl, ?_⟩
    unfold txn_has_lock
    dsimp only
    cases hl2 : lock_index (txn.locked_resources ++ [r]) r
        (txn.locked_resources ++ [r]).length 0 with
    | some i => rfl
    | none =>
      exfalso
      exact lock_index_none (txn.locked_resources ++ [r]) r _ 0 (by omega) hl2
        txn.locked_resources.length (Nat.zero_le _) (by simp) (rd_append_last _ r)

/-! ## Transactions: the claims -/

/-- C5 (as stated, refuted): two distinct active transactions of one manager;
the first holds resource 7 after an exclusive request, and the exclusive
request of the second for resource 7 returns `0` with the second recorded as a
holder too. -/
theorem exclusive_lock_granted_twice :
    txn_first.1.txn_id ≠ txn_second.1.txn_id ∧
    txn_second.1.state = ObeliskTransactionState.OBELISK_TXN_ACTIVE ∧
    txn_has_lock (txn_acquire_lock txn_first.1 7 ObeliskLockMode.OBELISK_LOCK_EXCLUSIVE).2 7
      ObeliskLockMode.OBELISK_LOCK_EXCLUSIVE = true ∧
    (txn_acquire_lock txn_second.1 7 ObeliskLockMode.OBELISK_LOCK_EXCLUSIVE).1 = 0 ∧
    txn_has_lock (txn_acquire_lock txn_second.1 7 ObeliskLockMode.OBELISK_LOCK_EXCLUSIVE).2 7
      ObeliskLockMode.OBELISK_LOCK_EXCLUSIVE = true := by
  decide

/-- C5 (amended): `txn_acquire_lock` consults only the requesting transaction's
own lock list and ignores the mode: for any two active transactions and any
two modes, the requests of both for the same resource return `0` and both are
recorded as holders; shared with shared is granted together, and so is every
other combination. -/
theorem acquire_ignores_other_holders (t1 t2 : ObeliskTransaction) (r : Nat)
    (m1 m2 : ObeliskLockMode)
    (h1 : t1.state = ObeliskTransactionState.OBELISK_TXN_ACTIVE)
    (h2 : t2.state = ObeliskTransactionState.OBELISK_TXN_ACTIVE) :
    (txn_acquire_lock t1 r m1).1 = 0 ∧ (txn_acquire_lock t2 r m2).1 = 0 ∧
    txn_has_lock (txn_acquire_lock t1 r m1).2 r m1 = true ∧
    txn_has_lock (txn_acquire_lock t2 r m2).2 r m2 = true :=
  ⟨(txn_acquire_lock_active t1 r m1 m1 h1).1, (txn_acquire_lock_active t2 r m2 m2 h2).1,
    (txn_acquire_lock_active t1 r m1 m1 h1).2, (txn_acquire_lock_active t2 r m2 m2 h2).2⟩

/-- Witness for C5: two transactions of one manager both obtain resource 7 in
shared mode. -/
theorem acquire_ignores_other_holders_witness :
    (txn_acquire_lock txn_first.1 7 ObeliskLockMode.OBELISK_LOCK_SHARED).1 = 0 ∧
    (txn_acquire_lock txn_second.1 7 ObeliskLockMode.OBELISK_LOCK_SHARED).1 = 0 ∧
    txn_has_lock (txn_acquire_lock txn_first.1 7 ObeliskLockMode.OBELISK_LOCK_SHARED).2 7
      ObeliskLockMode.OBELISK_LOCK_SHARED = true ∧
    txn_has_lock (txn_acquire_lock txn_second.1 7 ObeliskLockMode.OBELISK_LOCK_SHARED).2 7
      ObeliskLockMode.OBELISK_LOCK_SHARED = true :=
  acquire_ignores_other_holders txn_first.1 txn_second.1 7
    ObeliskLockMode.OBELISK_LOCK_SHARED ObeliskLockMode.OBELISK_LOCK_SHARED
    (by decide) (by decide)

/-- C6 (code at the failing input): an active transaction holding resources 1
and 2; `txn_commit` returns `0` and `txn_abort` returns `0`, and after either
the lock list is `[2]` and `txn_has_lock` is still true for resource 2. -/
theorem commit_leaves_second_lock :
    txn_two_locks.state = ObeliskTransactionState.OBELISK_TXN_ACTIVE ∧
    txn_two_locks.locked_resources = [1, 2] ∧
    (txn_commit txn_two_locks txn_first.2 5 true).1 = 0 ∧
    (txn_commit txn_two_locks txn_first.2 5 true).2.1.locked_resources = [2] ∧
    txn_has_lock (txn_commit txn_two_locks txn_first.2 5 true).2.1 2
      ObeliskLockMode.OBELISK_LOCK_EXCLUSIVE = true ∧
    (txn_abort txn_two_locks txn_first.2 5 true).1 = 0 ∧
    (txn_abort txn_two_locks txn_first.2 5 true).2.1.locked_resources = [2] ∧
    txn_has_lock (txn_abort txn_two_locks txn_first.2 5 true).2.1 2
      ObeliskLockMode.OBELISK_LOCK_EXCLUSIVE = true := by
  decide

/-- C10 (as stated, refuted): on the log written by `txn_begin` and a
successful `txn_commit`, `txn_recover` returns `-1`. -/
theorem recover_fails_on_committed_log :
    (txn_commit txn_first.1 txn_first.2 5 true).1 = 0 ∧
    (txn_commit txn_first.1 txn_first.2 5 true).2.2.log_file =
      [log_record ObeliskLogRecordType.OBELISK_LOG_BEGIN 1 0,
       log_record ObeliskLogRecordType.OBELISK_LOG_COMMIT 1 5] ∧
    (txn_recover (txn_commit txn_first.1 txn_first.2 5 true).2.2).1 = -1 := by
  decide

/-- C10 (amended): `txn_recover` is a stub: for every manager, whatever its
log, it returns `-1` and leaves the manager and its log as they were; it redoes
and undoes no record. -/
theorem recover_is_stub (manager : ObeliskTransactionManager) :
    txn_recover manager = (-1, manager) :=
  rfl

/-! ## B-tree: key counts, overflow, deletion -/

theorem deref_single_inv (L node : ObeliskNode) (p : Nat) (h : deref [L] p = some node) :
    p = 1 ∧ node = L := by
  unfold deref at h
  by_cases c : p = 0
  · rw [if_pos c] at h; cases h
  · rw [if_neg c] at h
    by_cases c1 : p = 1
    · subst c1
      simp at h
      exact ⟨rfl, h.symm⟩
    · have : p - 1 ≥ 1 := by omega
      rw [List.getElem?_eq_none (by simp; omega)] at h
      cases h

/-- C11: after every sequence of `btree_insert` and `btree_delete` calls on the
empty tree, every allocated node holds at most `OBELISK_BTREE_ORDER - 1 = 127`
keys, and every node other than the root holds at least
`ceil(OBELISK_BTREE_ORDER / 2) - 1` keys (the root leaf is the only node). -/
theorem key_count_bounds (ops : List BTreeOp) (p : Nat) (node : ObeliskNode)
    (h : deref (btree_run btree_create ops).heap p = some node) :
    node.num_keys ≤ OBELISK_BTREE_ORDER - 1 ∧
    (p ≠ (btree_run btree_create ops).root →
      (OBELISK_BTREE_ORDER + 1) / 2 - 1 ≤ node.num_keys) := by
  obtain ⟨hok, _⟩ := run_ok ops btree_create (Or.inl ⟨rfl, rfl⟩)
  rcases hok with ⟨_, hh⟩ | ⟨hr, L, hh, hL⟩
  · rw [hh] at h
    simp [deref] at h
  · rw [hh] at h
    obtain ⟨hp, hn⟩ := deref_single_inv L node p h
    subst hn
    exact ⟨hL.count_le, fun hne => absurd (hp.trans hr.symm) hne⟩

/-- Witness for C11: the root leaf after `btree_insert(5, 50)` and
`btree_delete(5)`. -/
theorem key_count_bounds_witness :
    deref (btree_run btree_create [BTreeOp.insert 5 50, BTreeOp.delete 5]).heap 1 =
      some { create_node ObeliskNodeType.OBELISK_NODE_LEAF with
        keys := wr (create_node ObeliskNodeType.OBELISK_NODE_LEAF).keys 0 5
        children := wr (create_node ObeliskNodeType.OBELISK_NODE_LEAF).children 0 50
        num_keys := 1 } ∧
    (1 : Nat) ≤ OBELISK_BTREE_ORDER - 1 :=
  ⟨by decide,
    (key_count_bounds [BTreeOp.insert 5 50, BTreeOp.delete 5] 1
      { create_node ObeliskNodeType.OBELISK_NODE_LEAF with
        keys := wr (create_node ObeliskNodeType.OBELISK_NODE_LEAF).keys 0 5
        children := wr (create_node ObeliskNodeType.OBELISK_NODE_LEAF).children 0 50
        num_keys := 1 } (by decide)).1⟩

theorem insert_find_of_absent (L : ObeliskNode) (k : Nat) (habs : ¬ has_key L k) :
    insert_find L k L.num_keys 0 = none := by
  cases hf : insert_find L k L.num_keys 0 with
  | none => rfl
  | some i =>
    obtain ⟨_, hi, e⟩ := insert_find_some L k L.num_keys 0 i hf
    exact absurd ⟨i, hi, e⟩ habs

theorem btree_insert_new_key (t : ObeliskBTree) (L : ObeliskNode) (k v : Nat)
    (hr : t.root = 1) (hh : t.heap = [L]) (hL : LeafOK L) (habs : ¬ has_key L k)
    (hroom : L.num_keys < OBELISK_BTREE_ORDER - 1) :
    btree_insert t k v = (0, { t with heap := [leaf_add L k v] }) := by
  rw [btree_insert_leaf t L k v hr hh hL.type_leaf, insert_find_of_absent L k habs]
  dsimp only
  rw [if_pos hroom]

theorem btree_insert_full (t : ObeliskBTree) (L : ObeliskNode) (k v : Nat)
    (hr : t.root = 1) (hh : t.heap = [L]) (hL : LeafOK L) (habs : ¬ has_key L k)
    (hfull : L.num_keys = OBELISK_BTREE_ORDER - 1) :
    btree_insert t k v = (-1, t) := by
  rw [btree_insert_leaf t L k v hr hh hL.type_leaf, insert_find_of_absent L k habs]
  dsimp only
  rw [if_neg (by omega)]

theorem insert_all_new (kvs : List (Nat × Nat)) :
    ∀ (t : ObeliskBTree) (L : ObeliskNode), t.root = 1 → t.heap = [L] → LeafOK L →
      t.height = 1 → t.num_nodes = 1 → (kvs.map Prod.fst).Nodup →
      (∀ k, k ∈ kvs.map Prod.fst → ¬ has_key L k) →
      L.num_keys + kvs.length ≤ OBELISK_BTREE_ORDER - 1 →
      (btree_insert_all t kvs).1 = List.replicate kvs.length 0 ∧
      (btree_insert_all t kvs).2.root = 1 ∧
      (btree_insert_all t kvs).2.height = 1 ∧
      (btree_insert_all t kvs).2.num_nodes = 1 ∧
      ∃ L', (btree_insert_all t kvs).2.heap = [L'] ∧ LeafOK L' ∧
        L'.num_keys = L.num_keys + kvs.length ∧
        ∀ x, has_key L' x ↔ has_key L x ∨ x ∈ kvs.map Prod.fst := by
  induction kvs with
  | nil =>
    intro t L hr hh hL hht hnn _ _ _
    exact ⟨rfl, hr, hht, hnn, L, hh, hL, rfl, fun x => by simp⟩
  | cons kv kvs ih =>
    intro t L hr hh hL hht hnn hnd hnew hlen
    have hnd' : kv.1 ∉ kvs.map Prod.fst ∧ (kvs.map Prod.fst).Nodup := by
      simpa using hnd
    have habs : ¬ has_key L kv.1 := hnew kv.1 (by simp)
    have hlen' : L.num_keys + (kvs.length + 1) ≤ OBELISK_BTREE_ORDER - 1 := hlen
    have hroom : L.num_keys < OBELISK_BTREE_ORDER - 1 := by omega
    have e := btree_insert_new_key t L kv.1 kv.2 hr hh hL habs hroom
    have hk' := leaf_add_has_key L kv.1 kv.2
    obtain ⟨a1, a2, a3, a4, L', a5, a6, a7, a8⟩ :=
      ih { t with heap := [leaf_add L kv.1 kv.2] } (leaf_add L kv.1 kv.2) hr rfl
        (leaf_add_ok L kv.1 kv.2 hL habs hroom) hht hnn hnd'.2
        (by
          intro k hk hkey
          rcases (hk' k hL habs hroom).mp hkey with h1 | h1
          · rw [h1] at hk; exact hnd'.1 hk
          · exact hnew k (by simp only [List.map_cons, List.mem_cons]; exact Or.inr hk) h1)
        (by
          show L.num_keys + 1 + kvs.length ≤ OBELISK_BTREE_ORDER - 1
          omega)
    simp only [btree_insert_all, e]
    refine ⟨by rw [a1]; rfl, a2, a3, a4, L', a5, a6, ?_, ?_⟩
    · rw [a7]
      show L.num_keys + 1 + kvs.length = L.num_keys + (kvs.length + 1)
      omega
    · intro x
      rw [a8 x, hk' x hL habs hroom]
      simp only [List.map_cons, List.mem_cons]
      tauto

/-- C12 (as stated, refuted): of the 128 inserts of the distinct keys
`0, ..., 127` into the empty tree the last one returns `-1`, and the tree it
leaves has height 1 and one node: no split took place. -/
theorem btree_no_split_at_order :
    (btree_insert (btree_fill 127) 127 0).1 ≠ 0 ∧
    (btree_insert (btree_fill 127) 127 0).2.height = 1 ∧
    (btree_insert (btree_fill 127) 127 0).2.num_nodes = 1 := by
  obtain ⟨hr, L, hh, hL, hc, hk⟩ := btree_fill_spec 126 (by decide)
  have habs : ¬ has_key L 127 := by rw [hk]; omega
  have e := btree_insert_full (btree_fill 127) L 127 0 hr hh hL habs hc
  have e1 : btree_fill 1 = (btree_insert btree_create 0 0).2 := rfl
  have hfill : ∀ n, (btree_fill (n + 1)).height = 1 ∧ (btree_fill (n + 1)).num_nodes = 1 := by
    intro n
    induction n with
    | zero => exact ⟨rfl, rfl⟩
    | succ n ih =>
      have hok : TreeOK (btree_fill (n + 1)) := reachable_ok _ (btree_fill_reachable _)
      show (btree_insert (btree_fill (n + 1)) (n + 1) 0).2.height = 1 ∧
        (btree_insert (btree_fill (n + 1)) (n + 1) 0).2.num_nodes = 1
      rcases hok with ⟨hr0, hh0⟩ | ⟨hr1, L1, hh1, hL1⟩
      · rw [btree_insert_empty _ _ _ hr0 hh0]
        exact ⟨rfl, rfl⟩
      · rw [btree_insert_leaf _ L1 _ _ hr1 hh1 hL1.type_leaf]
        cases insert_find L1 (n + 1) L1.num_keys 0 with
        | some i => exact ih
        | none =>
          dsimp only
          split
          · exact ih
          · exact ih
  rw [e]
  exact ⟨by decide, (hfill 126).1, (hfill 126).2⟩

/-- C12 (amended): with `OBELISK_BTREE_ORDER = 128` (a compile-time constant),
inserting `OBELISK_BTREE_ORDER` distinct keys into the empty tree succeeds on
the first `OBELISK_BTREE_ORDER - 1` inserts; the insert that would give the
leaf more than `OBELISK_BTREE_ORDER - 1` keys returns `-1` and leaves the tree
as it was: height 1, one node, the root leaf holding the first
`OBELISK_BTREE_ORDER - 1` keys. No split occurs; `btree_split_child` returns
`-1`. -/
theorem btree_order_keys_no_split (kvs : List (Nat × Nat)) (k v : Nat)
    (hnd : (kvs.map Prod.fst).Nodup) (hlen : kvs.length = OBELISK_BTREE_ORDER - 1)
    (hk : k ∉ kvs.map Prod.fst) :
    (btree_insert_all btree_create kvs).1 = List.replicate (OBELISK_BTREE_ORDER - 1) 0 ∧
    btree_insert (btree_insert_all btree_create kvs).2 k v =
      (-1, (btree_insert_all btree_create kvs).2) ∧
    (btree_insert_all btree_create kvs).2.height = 1 ∧
    (btree_insert_all btree_create kvs).2.num_nodes = 1 ∧
    (btree_insert_all btree_create kvs).2.root = 1 ∧
    (∃ L, (btree_insert_all btree_create kvs).2.heap = [L] ∧
      L.type = ObeliskNodeType.OBELISK_NODE_LEAF ∧
      L.num_keys = OBELISK_BTREE_ORDER - 1 ∧
      ∀ x, has_key L x ↔ x ∈ kvs.map Prod.fst) ∧
    (∀ parent index child, btree_split_child parent index child = -1) := by
  cases kvs with
  | nil => simp [OBELISK_BTREE_ORDER] at hlen
  | cons kv rest =>
    have hlen' : rest.length + 1 = OBELISK_BTREE_ORDER - 1 := hlen
    have hnd' : kv.1 ∉ rest.map Prod.fst ∧ (rest.map Prod.fst).Nodup := by
      simpa using hnd
    have e := btree_insert_empty btree_create kv.1 kv.2 rfl rfl
    have hfl := first_leaf_has_key kv.1 kv.2
    obtain ⟨a1, a2, a3, a4, L', a5, a6, a7, a8⟩ :=
      insert_all_new rest (btree_insert btree_create kv.1 kv.2).2 _
        (by rw [e]) (by rw [e]) (first_leaf_ok kv.1 kv.2) (by rw [e]) (by rw [e]) hnd'.2
        (by
          intro x hx hkey
          rw [hfl x] at hkey
          rw [hkey] at hx
          exact hnd'.1 hx)
        (by
          show 1 + rest.length ≤ OBELISK_BTREE_ORDER - 1
          omega)
    have hst : (btree_insert btree_create kv.1 kv.2).1 = 0 := by rw [e]
    have hkeys : ∀ x, has_key L' x ↔ x ∈ (kv :: rest).map Prod.fst := by
      intro x
      rw [a8 x, hfl x]
      simp only [List.map_cons, List.mem_cons]
    have hcnt : L'.num_keys = OBELISK_BTREE_ORDER - 1 := by
      rw [a7]
      show 1 + rest.length = OBELISK_BTREE_ORDER - 1
      omega
    have habs : ¬ has_key L' k := fun h => hk ((hkeys k).mp h)
    simp only [btree_insert_all]
    refine ⟨?_, btree_insert_full _ L' k v a2 a5 a6 habs hcnt, a3, a4, a2,
      ⟨L', a5, a6.type_leaf, hcnt, hkeys⟩, fun _ _ _ => rfl⟩
    rw [a1, hst, ← hlen']
    rfl

theorem pairs_upto_keys (n : Nat) : (pairs_upto n).map Prod.fst = List.range n := by
  unfold pairs_upto
  rw [List.map_map]
  exact List.map_id _

/-- Witness for C12: the pairs `(0, 0), ..., (126, 0)` followed by key 127. -/
theorem btree_order_keys_no_split_witness :
    (btree_insert_all btree_create (pairs_upto 127)).1 = List.replicate 127 0 ∧
    btree_insert (btree_insert_all btree_create (pairs_upto 127)).2 127 0 =
      (-1, (btree_insert_all btree_create (pairs_upto 127)).2) ∧
    (btree_insert_all btree_create (pairs_upto 127)).2.height = 1 := by
  have h := btree_order_keys_no_split (pairs_upto 127) 127 0
    (by rw [pairs_upto_keys]; exact List.nodup_range 127)
    (by simp [pairs_upto, OBELISK_BTREE_ORDER])
    (by rw [pairs_upto_keys]; simp)
  exact ⟨h.1, h.2.1, h.2.2.1⟩

/-- C13 (as stated, refuted): the tree after `btree_insert(1, 10)` contains
key 1; `btree_delete(tree, 1)` returns `-1` and `btree_search(tree, 1)`
afterwards still returns true with value 10. -/
theorem btree_delete_fails_on_present_key :
    btree_search (btree_insert btree_create 1 10).2 1 = some 10 ∧
    (btree_delete (btree_insert btree_create 1 10).2 1).1 = -1 ∧
    btree_search (btree_delete (btree_insert btree_create 1 10).2 1).2 1 = some 10 := by
  decide

/-- C13 (amended): `btree_delete` is a stub: for every tree and key it returns
`-1` and leaves the tree as it was, so every key, `k` included, is found
afterwards exactly as before, with its previous value. -/
theorem btree_delete_is_stub (t : ObeliskBTree) (k : Nat) :
    (btree_delete t k).1 = -1 ∧ (btree_delete t k).2 = t ∧
    ∀ k', btree_search (btree_delete t k).2 k' = btree_search t k' :=
  ⟨rfl, rfl, fun _ => rfl⟩

/-! ## Transactions: terminal states -/

theorem txn_apply_not_active (txn : ObeliskTransaction) (manager : ObeliskTransactionManager)
    (h : txn.state ≠ ObeliskTransactionState.OBELISK_TXN_ACTIVE) (op : TxnOp) :
    txn_apply txn manager op = (-1, txn, manager) := by
  cases op with
  | commit now write_ok =>
    show txn_commit txn manager now write_ok = _
    unfold txn_commit
    rw [if_pos h]
  | abort now write_ok =>
    show txn_abort txn manager now write_ok = _
    unfold txn_abort
    rw [if_pos h]
  | acquire resource_id mode =>
    show ((txn_acquire_lock txn resource_id mode).1, (txn_acquire_lock txn resource_id mode).2,
      manager) = _
    unfold txn_acquire_lock
    rw [if_pos h]

/-- C14: on a transaction whose state is not Active, `txn_commit`, `txn_abort`
and `txn_acquire_lock` return `-1` and leave the transaction (state, lock list,
log-record list) and the manager as they were; hence no sequence of these calls
changes it again. -/
theorem terminal_states (txn : ObeliskTransaction) (manager : ObeliskTransactionManager)
    (h : txn.state ≠ ObeliskTransactionState.OBELISK_TXN_ACTIVE) :
    (∀ now write_ok, txn_commit txn manager now write_ok = (-1, txn, manager)) ∧
    (∀ now write_ok, txn_abort txn manager now write_ok = (-1, txn, manager)) ∧
    (∀ resource_id mode, txn_acquire_lock txn resource_id mode = (-1, txn)) ∧
    (∀ ops, txn_run txn manager ops = (txn, manager)) := by
  refine ⟨fun now ok => txn_apply_not_active txn manager h (TxnOp.commit now ok),
    fun now ok => txn_apply_not_active txn manager h (TxnOp.abort now ok), ?_, ?_⟩
  · intro resource_id mode
    unfold txn_acquire_lock
    rw [if_pos h]
  · intro ops
    induction ops with
    | nil => rfl
    | cons op ops ih =>
      show txn_run (txn_apply txn manager op).2.1 (txn_apply txn manager op).2.2 ops = _
      rw [txn_apply_not_active txn manager h op]
      exact ih

/-- Witness for C14: a committed transaction; a second `txn_commit`, then
`txn_abort`, then a lock request leave it as it was. -/
theorem terminal_states_witness :
    txn_first_committed.1.state = ObeliskTransactionState.OBELISK_TXN_COMMITTED ∧
    txn_run txn_first_committed.1 txn_first_committed.2
      [TxnOp.commit 6 true, TxnOp.abort 7 true,
        TxnOp.acquire 3 ObeliskLockMode.OBELISK_LOCK_SHARED] =
      (txn_first_committed.1, txn_first_committed.2) :=
  ⟨by decide,
    (terminal_states txn_first_committed.1 txn_first_committed.2 (by decide)).2.2.2 _⟩

/-! ## Buffer pool: pin, unpin, flush -/

theorem set_page_same (pool : ObeliskBufferPool) (i : Nat) (pg pg0 : ObeliskPage)
    (h : pool.pages[i]? = some pg0) : (set_page pool i pg).pages[i]? = some pg := by
  show (pool.pages.set i pg)[i]? = some pg
  rw [set_frame_lookup pool.pages i i pg pg0 pg0 h h, if_pos rfl]

theorem pin_times_one (n : Nat) (hn : n < 4294967296) :
    pin_times n pool_one 0 =
      { pool_one with pages := [⟨0, ObeliskPageState.OBELISK_PAGE_CLEAN, n, 0⟩] } := by
  induction n with
  | zero => rfl
  | succ n ih =>
    show (buffer_pool_pin_page (pin_times n pool_one 0) 0).2 = _
    rw [ih (by omega)]
    have e : incr32 n = n + 1 := by
      unfold incr32
      exact Nat.mod_eq_of_lt hn
    simp [buffer_pool_pin_page, find_page, find_page_loop, pool_size, set_page, e]

/-- C15 (as stated, refuted): after 4294967295 calls of `buffer_pool_pin_page`
for page 0 on a fresh pool of one frame its `pin_count` is 4294967295; one more
call returns `0` and leaves `pin_count` 0, not 4294967296. -/
theorem pin_count_wraps :
    (pin_times 4294967295 pool_one 0).pages =
      [⟨0, ObeliskPageState.OBELISK_PAGE_CLEAN, 4294967295, 0⟩] ∧
    (buffer_pool_pin_page (pin_times 4294967295 pool_one 0) 0).1 = 0 ∧
    (buffer_pool_pin_page (pin_times 4294967295 pool_one 0) 0).2.pages =
      [⟨0, ObeliskPageState.OBELISK_PAGE_CLEAN, 0, 0⟩] := by
  rw [pin_times_one 4294967295 (by decide)]
  decide

/-- C15 (amended): `buffer_pool_unpin_page` on a page that is not resident or
whose `pin_count` is 0 returns `-1` and leaves the whole pool unchanged;
otherwise it returns `0` and decreases that page's `pin_count` by exactly 1.
`buffer_pool_pin_page` on a resident page returns `0` and leaves its
`pin_count` at the old value plus 1 modulo 2^32: an increase by exactly 1
unless the count was 4294967295. -/
theorem pin_unpin_counts (pool : ObeliskBufferPool) (page_id : Nat) (is_dirty : Bool) :
    (find_page pool page_id = none →
      buffer_pool_unpin_page pool page_id is_dirty = (-1, pool)) ∧
    (∀ (i : Nat) (pg : ObeliskPage), find_page pool page_id = some i →
      pool.pages[i]? = some pg →
      (pg.pin_count = 0 → buffer_pool_unpin_page pool page_id is_dirty = (-1, pool)) ∧
      (0 < pg.pin_count →
        (buffer_pool_unpin_page pool page_id is_dirty).1 = 0 ∧
        ∃ pg' : ObeliskPage,
          (buffer_pool_unpin_page pool page_id is_dirty).2.pages[i]? = some pg' ∧
          pg'.pin_count + 1 = pg.pin_count) ∧
      (buffer_pool_pin_page pool page_id).1 = 0 ∧
      ∃ pg' : ObeliskPage, (buffer_pool_pin_page pool page_id).2.pages[i]? = some pg' ∧
        pg'.pin_count = (pg.pin_count + 1) % 4294967296 ∧
        (pg.pin_count < 4294967295 → pg'.pin_count = pg.pin_count + 1)) := by
  constructor
  · intro h
    unfold buffer_pool_unpin_page
    rw [h]
  · intro i pg hf hp
    refine ⟨?_, ?_, ?_, ?_⟩
    · intro h0
      unfold buffer_pool_unpin_page
      rw [hf]
      dsimp only
      rw [hp]
      dsimp only
      rw [if_pos h0]
    · intro hpos
      unfold buffer_pool_unpin_page
      rw [hf]
      dsimp only
      rw [hp]
      dsimp only
      rw [if_neg (by omega)]
      refine ⟨rfl, _, set_page_same pool i _ pg hp, ?_⟩
      cases is_dirty
      · show pg.pin_count - 1 + 1 = pg.pin_count
        omega
      · show pg.pin_count - 1 + 1 = pg.pin_count
        omega
    · unfold buffer_pool_pin_page
      rw [hf]
      dsimp only
      rw [hp]
    · unfold buffer_pool_pin_page
      rw [hf]
      dsimp only
      rw [hp]
      refine ⟨_, set_page_same pool i _ pg hp, rfl, fun hlt => ?_⟩
      show (pg.pin_count + 1) % 4294967296 = pg.pin_count + 1
      exact Nat.mod_eq_of_lt (by omega)

/-- Witness for C15: the pool of two frames whose frame 0 (page 0) is pinned
once; unpinning page 0 succeeds and leaves `pin_count` 0, pinning it leaves 2. -/
theorem pin_unpin_counts_witness :
    find_page pool_two_pinned 0 = some 0 ∧
    (buffer_pool_unpin_page pool_two_pinned 0 false).1 = 0 ∧
    (∃ pg' : ObeliskPage, (buffer_pool_unpin_page pool_two_pinned 0 false).2.pages[0]? = some pg' ∧
      pg'.pin_count + 1 = 1) ∧
    (∃ pg' : ObeliskPage, (buffer_pool_pin_page pool_two_pinned 0).2.pages[0]? = some pg' ∧
      pg'.pin_count = 1 + 1) ∧
    buffer_pool_unpin_page pool_two_pinned 9 false = (-1, pool_two_pinned) := by
  have h := (pin_unpin_counts pool_two_pinned 0 false).2 0
    ⟨0, ObeliskPageState.OBELISK_PAGE_CLEAN, 1, 0⟩ (by decide) (by decide)
  obtain ⟨_, h2, _, pg', h4, _, h6⟩ := h
  exact ⟨by decide, (h2 (by decide)).1, (h2 (by decide)).2, ⟨pg', h4, h6 (by decide)⟩,
    (pin_unpin_counts pool_two_pinned 9 false).1 (by decide)⟩

/-- C16: a successful `buffer_pool_unpin_page(pool, id, true)` leaves the page
in state Dirty whatever its state was, and a successful
`buffer_pool_unpin_page(pool, id, false)` leaves the page's state as it was. -/
theorem unpin_dirty_marking (pool : ObeliskBufferPool) (page_id : Nat) (is_dirty : Bool)
    (h : (buffer_pool_unpin_page pool page_id is_dirty).1 = 0) :
    ∃ (i : Nat) (pg pg' : ObeliskPage), find_page pool page_id = some i ∧
      pool.pages[i]? = some pg ∧
      (buffer_pool_unpin_page pool page_id is_dirty).2.pages[i]? = some pg' ∧
      (is_dirty = true → pg'.state = ObeliskPageState.OBELISK_PAGE_DIRTY) ∧
      (is_dirty = false → pg'.state = pg.state) := by
  unfold buffer_pool_unpin_page at h ⊢
  cases hf : find_page pool page_id with
  | none => rw [hf] at h; simp at h
  | some i =>
    obtain ⟨pg, hp, _⟩ := find_page_loop_some pool page_id _ 0 i hf
    rw [hf] at h
    dsimp only at h ⊢
    rw [hp] at h ⊢
    dsimp only at h ⊢
    by_cases h0 : pg.pin_count = 0
    · rw [if_pos h0] at h; simp at h
    · rw [if_neg h0]
      refine ⟨i, pg, _, rfl, hp, set_page_same pool i _ pg hp, ?_, ?_⟩
      · intro hd; rw [hd]; rfl
      · intro hd; rw [hd]; rfl

/-- Witness for C16: unpinning page 0 of the pool of two frames with
`is_dirty = true` succeeds and leaves its frame Dirty. -/
theorem unpin_dirty_marking_witness :
    (buffer_pool_unpin_page pool_two_pinned 0 true).1 = 0 ∧
    ∃ (i : Nat) (pg pg' : ObeliskPage), find_page pool_two_pinned 0 = some i ∧
      pool_two_pinned.pages[i]? = some pg ∧
      (buffer_pool_unpin_page pool_two_pinned 0 true).2.pages[i]? = some pg' ∧
      pg'.state = ObeliskPageState.OBELISK_PAGE_DIRTY := by
  obtain ⟨i, pg, pg', h1, h2, h3, h4, _⟩ :=
    unpin_dirty_marking pool_two_pinned 0 true (by decide)
  exact ⟨by decide, i, pg, pg', h1, h2, h3, h4 rfl⟩

theorem clean_page_of_clean (pg : ObeliskPage)
    (h : pg.state = ObeliskPageState.OBELISK_PAGE_CLEAN) : clean_page pg = pg := by
  cases pg
  simp only [clean_page] at h ⊢
  rw [h]

theorem dirty_count_drop (pages : List ObeliskPage) (i : Nat) (pg : ObeliskPage)
    (h : pages[i]? = some pg) :
    dirty_count (pages.drop i) =
      (if pg.state = ObeliskPageState.OBELISK_PAGE_DIRTY then 1 else 0) +
        dirty_count (pages.drop (i + 1)) := by
  obtain ⟨hlt, e⟩ := List.getElem?_eq_some.mp h
  rw [List.drop_eq_getElem_cons hlt, e]
  unfold dirty_count
  by_cases c : pg.state = ObeliskPageState.OBELISK_PAGE_DIRTY
  · rw [List.filter_cons_of_pos (by simpa using c), if_pos c, List.length_cons]
    omega
  · rw [List.filter_cons_of_neg (by simpa using c), if_neg c]
    omega

theorem flush_all_loop_spec :
    ∀ (fuel i : Nat) (pool : ObeliskBufferPool), pool.pages.length ≤ i + fuel →
      (∀ j, (flush_all_loop fuel i pool).pages[j]? =
        if i ≤ j then (pool.pages[j]?).map clean_page else pool.pages[j]?) ∧
      (flush_all_loop fuel i pool).flushes =
        Nat.iterate incr64 (dirty_count (pool.pages.drop i)) pool.flushes := by
  intro fuel
  induction fuel with
  | zero =>
    intro i pool h
    refine ⟨fun j => ?_, ?_⟩
    · show pool.pages[j]? = _
      by_cases c : i ≤ j
      · rw [if_pos c, List.getElem?_eq_none (by omega)]; rfl
      · rw [if_neg c]
    · show pool.flushes = _
      rw [List.drop_of_length_le (by omega)]
      rfl
  | succ fuel ih =>
    intro i pool h
    rw [flush_all_loop]
    cases hp : pool.pages[i]? with
    | none =>
      dsimp only
      have hlen : pool.pages.length ≤ i := by
        by_contra hc
        rw [List.getElem?_eq_getElem (by omega)] at hp
        cases hp
      refine ⟨fun j => ?_, ?_⟩
      · by_cases c : i ≤ j
        · rw [if_pos c, List.getElem?_eq_none (by omega)]; rfl
        · rw [if_neg c]
      · rw [List.drop_of_length_le hlen]
        rfl
    | some pg =>
      dsimp only
      have hcount := dirty_count_drop pool.pages i pg hp
      by_cases c : pg.state = ObeliskPageState.OBELISK_PAGE_DIRTY
      · rw [if_pos c]
        obtain ⟨a1, a2⟩ := ih (i + 1)
          { set_page pool i { pg with state := ObeliskPageState.OBELISK_PAGE_CLEAN } with
              flushes := incr64 pool.flushes }
          (by
            show (pool.pages.set i _).length ≤ i + 1 + fuel
            rw [List.length_set]; omega)
        refine ⟨fun j => ?_, ?_⟩
        · rw [a1 j]
          show (if i + 1 ≤ j then ((pool.pages.set i (clean_page pg))[j]?).map clean_page
            else (pool.pages.set i (clean_page pg))[j]?) = _
          rw [List.getElem?_set]
          have hlt : i < pool.pages.length := (List.getElem?_eq_some.mp hp).1
          by_cases c1 : i = j
          · subst c1
            rw [if_neg (by omega), if_pos rfl, if_pos hlt, if_pos (le_refl _), hp]
            rfl
          · rw [if_neg c1]
            by_cases c2 : i + 1 ≤ j
            · rw [if_pos c2, if_pos (by omega)]
            · rw [if_neg c2, if_neg (by omega)]
        · rw [a2, hcount, if_pos c]
          show Nat.iterate incr64 (dirty_count ((pool.pages.set i _).drop (i + 1)))
            (incr64 pool.flushes) = _
          rw [List.drop_set_of_lt _ _ (by omega),
            show 1 + dirty_count (List.drop (i + 1) pool.pages) =
              (dirty_count (List.drop (i + 1) pool.pages)).succ from by omega,
            Function.iterate_succ_apply]
      · rw [if_neg c]
        have hclean : pg.state = ObeliskPageState.OBELISK_PAGE_CLEAN := by
          cases hs : pg.state with
          | OBELISK_PAGE_CLEAN => rfl
          | OBELISK_PAGE_DIRTY => exact absurd hs c
        obtain ⟨a1, a2⟩ := ih (i + 1) pool (by omega)
        refine ⟨fun j => ?_, ?_⟩
        · rw [a1 j]
          by_cases c1 : i = j
          · subst c1
            rw [if_neg (by omega), if_pos (le_refl _), hp]
            show some pg = some (clean_page pg)
            rw [clean_page_of_clean pg hclean]
          · by_cases c2 : i + 1 ≤ j
            · rw [if_pos c2, if_pos (by omega)]
            · rw [if_neg c2, if_neg (by omega)]
        · rw [a2, hcount, if_neg c, Nat.zero_add]

theorem incr64_iterate (k : Nat) :
    ∀ x, x + k < 18446744073709551616 → Nat.iterate incr64 k x = x + k := by
  induction k with
  | zero => intro x _; rfl
  | succ k ih =>
    intro x h
    rw [Function.iterate_succ_apply]
    have e : incr64 x = x + 1 := by
      unfold incr64
      exact Nat.mod_eq_of_lt (by omega)
    rw [e, ih (x + 1) (by omega)]
    omega

theorem set_same_frame (pages : List ObeliskPage) (i : Nat) (pg : ObeliskPage)
    (h : pages[i]? = some pg) : pages.set i pg = pages := by
  apply List.ext_getElem?
  intro j
  rw [List.getElem?_set]
  by_cases c : i = j
  · subst c
    rw [if_pos rfl, if_pos (List.getElem?_eq_some.mp h).1, h]
  · rw [if_neg c]

/-- C17: `buffer_pool_flush_page(pool, id)` on a resident page returns `0`,
leaves that page's frame Clean and every other frame as it was, and adds 1 to
`flushes` if the frame was Dirty and nothing otherwise;
`buffer_pool_flush_all(pool)` returns `0`, leaves every frame Clean and adds
the number of frames that were Dirty. Making a frame Clean changes neither its
`page_id` nor its `pin_count`. The additions are those of a `uint64_t`, exact
while the counter stays below 2^64. -/
theorem flush_effects (pool : ObeliskBufferPool) (page_id : Nat) :
    (∀ (i : Nat) (pg : ObeliskPage), find_page pool page_id = some i →
      pool.pages[i]? = some pg →
      (buffer_pool_flush_page pool page_id).1 = 0 ∧
      (buffer_pool_flush_page pool page_id).2.pages = pool.pages.set i (clean_page pg) ∧
      (buffer_pool_flush_page pool page_id).2.flushes =
        Nat.iterate incr64
          (if pg.state = ObeliskPageState.OBELISK_PAGE_DIRTY then 1 else 0) pool.flushes) ∧
    ((buffer_pool_flush_all pool).1 = 0 ∧
      (buffer_pool_flush_all pool).2.pages = pool.pages.map clean_page ∧
      (buffer_pool_flush_all pool).2.flushes =
        Nat.iterate incr64 (dirty_count pool.pages) pool.flushes) ∧
    (∀ pg : ObeliskPage, (clean_page pg).state = ObeliskPageState.OBELISK_PAGE_CLEAN ∧
      (clean_page pg).page_id = pg.page_id ∧ (clean_page pg).pin_count = pg.pin_count) ∧
    (∀ k, pool.flushes + k < 18446744073709551616 →
      Nat.iterate incr64 k pool.flushes = pool.flushes + k) := by
  refine ⟨?_, ⟨rfl, ?_, ?_⟩, fun pg => ⟨rfl, rfl, rfl⟩,
    fun k hk => incr64_iterate k pool.flushes hk⟩
  · intro i pg hf hp
    unfold buffer_pool_flush_page
    rw [hf]
    dsimp only
    rw [hp]
    dsimp only
    by_cases c : pg.state = ObeliskPageState.OBELISK_PAGE_DIRTY
    · rw [if_pos c, if_pos c]
      exact ⟨rfl, rfl, rfl⟩
    · rw [if_neg c, if_neg c]
      have hclean : pg.state = ObeliskPageState.OBELISK_PAGE_CLEAN := by
        cases hs : pg.state with
        | OBELISK_PAGE_CLEAN => rfl
        | OBELISK_PAGE_DIRTY => exact absurd hs c
      refine ⟨rfl, ?_, rfl⟩
      rw [clean_page_of_clean pg hclean, set_same_frame pool.pages i pg hp]
  · obtain ⟨a1, _⟩ := flush_all_loop_spec (pool_size pool) 0 pool
      (by simp [pool_size])
    apply List.ext_getElem?
    intro j
    show (flush_all_loop (pool_size pool) 0 pool).pages[j]? = _
    rw [a1 j, if_pos (Nat.zero_le _), List.getElem?_map]
  · obtain ⟨_, a2⟩ := flush_all_loop_spec (pool_size pool) 0 pool
      (by simp [pool_size])
    show (flush_all_loop (pool_size pool) 0 pool).flushes = _
    rw [a2]
    rfl

/-- Witness for C17: flushing page 1 of the one-frame pool whose frame is Dirty
leaves the frame Clean and `flushes` at 1. -/
theorem flush_effects_witness :
    find_page pool_one_dirty 1 = some 0 ∧
    (buffer_pool_flush_page pool_one_dirty 1).2.pages =
      [⟨1, ObeliskPageState.OBELISK_PAGE_CLEAN, 0, 0⟩] ∧
    (buffer_pool_flush_page pool_one_dirty 1).2.flushes = 0 + 1 := by
  obtain ⟨h1, _, _, h4⟩ := flush_effects pool_one_dirty 1
  obtain ⟨_, b2, b3⟩ := h1 0 ⟨1, ObeliskPageState.OBELISK_PAGE_DIRTY, 0, 0⟩
    (by decide) (by decide)
  refine ⟨by decide, ?_, ?_⟩
  · rw [b2]; decide
  · rw [b3]
    exact h4 1 (by decide)

/-! ## Transactions: the log of one transaction -/

theorem txn_release_lock_keeps (txn : ObeliskTransaction) (r : Nat) :
    (txn_release_lock txn r).2.log_records = txn.log_records ∧
    (txn_release_lock txn r).2.txn_id = txn.txn_id ∧
    (txn_release_lock txn r).2.state = txn.state := by
  unfold txn_release_lock
  cases lock_index txn.locked_resources r txn.locked_resources.length 0 with
  | none => exact ⟨rfl, rfl, rfl⟩
  | some i => exact ⟨rfl, rfl, rfl⟩

theorem release_locks_loop_keeps :
    ∀ (fuel i : Nat) (txn : ObeliskTransaction),
      (release_locks_loop fuel i txn).log_records = txn.log_records ∧
      (release_locks_loop fuel i txn).txn_id = txn.txn_id ∧
      (release_locks_loop fuel i txn).state = txn.state := by
  intro fuel
  induction fuel with
  | zero => intro i txn; exact ⟨rfl, rfl, rfl⟩
  | succ fuel ih =>
    intro i txn
    rw [release_locks_loop]
    split
    · obtain ⟨a, b, c⟩ := ih (i + 1) (txn_release_lock txn (rd txn.locked_resources i)).2
      obtain ⟨a', b', c'⟩ := txn_release_lock_keeps txn (rd txn.locked_resources i)
      exact ⟨a.trans a', b.trans b', c.trans c'⟩
    · exact ⟨rfl, rfl, rfl⟩

theorem txn_write_all_spec (rs : List ObeliskLogRecord) :
    ∀ (txn : ObeliskTransaction) (manager : ObeliskTransactionManager),
      (txn_write_all txn manager rs).1.log_records = txn.log_records ++ rs ∧
      (txn_write_all txn manager rs).1.txn_id = txn.txn_id ∧
      (txn_write_all txn manager rs).1.state = txn.state ∧
      (txn_write_all txn manager rs).2.log_file = manager.log_file ++ rs := by
  induction rs with
  | nil => intro txn manager; simp [txn_write_all]
  | cons r rs ih =>
    intro txn manager
    obtain ⟨a, b, c, d⟩ := ih (txn_write_log_record txn manager r true).2.1
      (txn_write_log_record txn manager r true).2.2
    rw [txn_write_all]
    refine ⟨?_, b, c, ?_⟩
    · rw [a]
      simp [txn_write_log_record]
    · rw [d]
      simp [txn_write_log_record]

theorem txn_commit_log (txn : ObeliskTransaction) (manager : ObeliskTransactionManager)
    (now : Nat) (h : txn.state = ObeliskTransactionState.OBELISK_TXN_ACTIVE) :
    (txn_commit txn manager now true).1 = 0 ∧
    (txn_commit txn manager now true).2.1.log_records =
      txn.log_records ++ [log_record ObeliskLogRecordType.OBELISK_LOG_COMMIT txn.txn_id now] ∧
    (txn_commit txn manager now true).2.1.state =
      ObeliskTransactionState.OBELISK_TXN_COMMITTED := by
  unfold txn_commit
  rw [if_neg (by rw [h]; decide)]
  simp only [txn_write_log_record, if_true]
  rw [if_neg (by decide)]
  refine ⟨rfl, ?_, rfl⟩
  exact (release_locks_loop_keeps _ 0 _).1

theorem txn_abort_log (txn : ObeliskTransaction) (manager : ObeliskTransactionManager)
    (now : Nat) (h : txn.state = ObeliskTransactionState.OBELISK_TXN_ACTIVE) :
    (txn_abort txn manager now true).1 = 0 ∧
    (txn_abort txn manager now true).2.1.log_records =
      txn.log_records ++ [log_record ObeliskLogRecordType.OBELISK_LOG_ABORT txn.txn_id now] ∧
    (txn_abort txn manager now true).2.1.state =
      ObeliskTransactionState.OBELISK_TXN_ABORTED := by
  unfold txn_abort
  rw [if_neg (by rw [h]; decide)]
  simp only [txn_write_log_record, if_true]
  refine ⟨trivial, ?_, trivial⟩
  exact (release_locks_loop_keeps _ 0 _).1

theorem txn_begin_spec (manager : ObeliskTransactionManager) (addr now now_log : Nat) :
    (txn_begin manager addr now now_log true).1.log_records =
      [log_record ObeliskLogRecordType.OBELISK_LOG_BEGIN manager.next_txn_id now_log] ∧
    (txn_begin manager addr now now_log true).1.txn_id = manager.next_txn_id ∧
    (txn_begin manager addr now now_log true).1.state =
      ObeliskTransactionState.OBELISK_TXN_ACTIVE := by
  simp [txn_begin, create_transaction, txn_write_log_record]

/-- C18 (as stated, refuted): a transaction with id 1 is begun, a record naming
transaction 99 is passed to `txn_write_log_record`, and `txn_commit` succeeds;
the transaction's records are Begin, that record and Commit, so one of them
does not carry the transaction's `txn_id`. -/
theorem log_record_of_other_txn_kept :
    (txn_life_commit (txn_manager_create ⟨0, true, 0⟩ []) 1 0 0 [record_of_other_txn] 5).1 = 0 ∧
    (txn_life_commit (txn_manager_create ⟨0, true, 0⟩ []) 1 0 0
        [record_of_other_txn] 5).2.1.txn_id = 1 ∧
    ((txn_life_commit (txn_manager_create ⟨0, true, 0⟩ []) 1 0 0
        [record_of_other_txn] 5).2.1.log_records.map (fun r => r.txn_id)) = [1, 99, 1] := by
  decide

/-- C18 (amended): for every transaction created by `txn_begin` and ended by
`txn_commit` (respectively `txn_abort`), with all log writes succeeding, the
call succeeds and the ordered sequence of records the transaction appended is
the Begin record, then the records passed to `txn_write_log_record` in call
order, then the Commit (respectively Abort) record; Begin and Commit/Abort
carry the transaction's `txn_id`, and so does every record provided the records
passed by the caller do (`txn_write_log_record` stores the record as given).
Each `txn_write_log_record` call appends exactly one record at the end and
leaves the earlier ones as they were. -/
theorem txn_log_sequence (manager : ObeliskTransactionManager) (addr now now_log : Nat)
    (rs : List ObeliskLogRecord) (now_end : Nat) :
    (txn_life_commit manager addr now now_log rs now_end).1 = 0 ∧
    (txn_life_commit manager addr now now_log rs now_end).2.1.log_records =
      log_record ObeliskLogRecordType.OBELISK_LOG_BEGIN manager.next_txn_id now_log ::
        (rs ++ [log_record ObeliskLogRecordType.OBELISK_LOG_COMMIT manager.next_txn_id now_end]) ∧
    (txn_life_abort manager addr now now_log rs now_end).1 = 0 ∧
    (txn_life_abort manager addr now now_log rs now_end).2.1.log_records =
      log_record ObeliskLogRecordType.OBELISK_LOG_BEGIN manager.next_txn_id now_log ::
        (rs ++ [log_record ObeliskLogRecordType.OBELISK_LOG_ABORT manager.next_txn_id now_end]) ∧
    (txn_life_commit manager addr now now_log rs now_end).2.1.txn_id = manager.next_txn_id ∧
    (txn_life_abort manager addr now now_log rs now_end).2.1.txn_id = manager.next_txn_id ∧
    ((∀ r, r ∈ rs → r.txn_id = manager.next_txn_id) →
      (∀ r, r ∈ (txn_life_commit manager addr now now_log rs now_end).2.1.log_records →
        r.txn_id = manager.next_txn_id) ∧
      (∀ r, r ∈ (txn_life_abort manager addr now now_log rs now_end).2.1.log_records →
        r.txn_id = manager.next_txn_id)) ∧
    (∀ (txn : ObeliskTransaction) (m : ObeliskTransactionManager) (r : ObeliskLogRecord),
      txn_write_log_record txn m r true =
        (0, { txn with log_records := txn.log_records ++ [r] },
          { m with log_file := m.log_file ++ [r] })) := by
  obtain ⟨b1, b2, b3⟩ := txn_begin_spec manager addr now now_log
  obtain ⟨w1, w2, w3, _⟩ := txn_write_all_spec rs (txn_begin manager addr now now_log true).1
    (txn_begin manager addr now now_log true).2
  obtain ⟨c1, c2, _⟩ := txn_commit_log
    (txn_write_all (txn_begin manager addr now now_log true).1
      (txn_begin manager addr now now_log true).2 rs).1
    (txn_write_all (txn_begin manager addr now now_log true).1
      (txn_begin manager addr now now_log true).2 rs).2 now_end (by rw [w3, b3])
  obtain ⟨d1, d2, _⟩ := txn_abort_log
    (txn_write_all (txn_begin manager addr now now_log true).1
      (txn_begin manager addr now now_log true).2 rs).1
    (txn_write_all (txn_begin manager addr now now_log true).1
      (txn_begin manager addr now now_log true).2 rs).2 now_end (by rw [w3, b3])
  rw [w1, w2, b1, b2] at c2 d2
  have hc : (txn_life_commit manager addr now now_log rs now_end).2.1.log_records =
      log_record ObeliskLogRecordType.OBELISK_LOG_BEGIN manager.next_txn_id now_log ::
        (rs ++ [log_record ObeliskLogRecordType.OBELISK_LOG_COMMIT manager.next_txn_id
          now_end]) := by
    unfold txn_life_commit
    rw [c2]
    simp
  have ha : (txn_life_abort manager addr now now_log rs now_end).2.1.log_records =
      log_record ObeliskLogRecordType.OBELISK_LOG_BEGIN manager.next_txn_id now_log ::
        (rs ++ [log_record ObeliskLogRecordType.OBELISK_LOG_ABORT manager.next_txn_id
          now_end]) := by
    unfold txn_life_abort
    rw [d2]
    simp
  refine ⟨c1, hc, d1, ha, ?_, ?_, ?_, fun _ _ _ => rfl⟩
  · unfold txn_life_commit txn_commit
    rw [if_neg (by rw [w3, b3]; decide)]
    simp only [txn_write_log_record, if_true]
    rw [if_neg (by decide)]
    show (release_locks_loop _ 0 _).txn_id = _
    rw [(release_locks_loop_keeps _ 0 _).2.1]
    show (txn_write_all _ _ rs).1.txn_id = _
    rw [w2, b2]
  · unfold txn_life_abort txn_abort
    rw [if_neg (by rw [w3, b3]; decide)]
    simp only [txn_write_log_record, if_true]
    show (release_locks_loop _ 0 _).txn_id = _
    rw [(release_locks_loop_keeps _ 0 _).2.1]
    show (txn_write_all _ _ rs).1.txn_id = _
    rw [w2, b2]
  · intro hrs
    constructor
    · intro r hr
      rw [hc] at hr
      simp only [List.mem_cons, List.mem_append, List.not_mem_nil, or_false] at hr
      rcases hr with h | h | h
      · rw [h]; rfl
      · exact hrs r h
      · rw [h]; rfl
    · intro r hr
      rw [ha] at hr
      simp only [List.mem_cons, List.mem_append, List.not_mem_nil, or_false] at hr
      rcases hr with h | h | h
      · rw [h]; rfl
      · exact hrs r h
      · rw [h]; rfl

/-- Witness for C18: a transaction of a fresh manager that writes one Update
record naming itself and commits. -/
theorem txn_log_sequence_witness :
    (txn_life_commit (txn_manager_create ⟨0, true, 0⟩ []) 1 0 0
      [log_record ObeliskLogRecordType.OBELISK_LOG_UPDATE 1 3] 5).1 = 0 ∧
    ∀ r, r ∈ (txn_life_commit (txn_manager_create ⟨0, true, 0⟩ []) 1 0 0
        [log_record ObeliskLogRecordType.OBELISK_LOG_UPDATE 1 3] 5).2.1.log_records →
      r.txn_id = 1 :=
  ⟨(txn_log_sequence (txn_manager_create ⟨0, true, 0⟩ []) 1 0 0
      [log_record ObeliskLogRecordType.OBELISK_LOG_UPDATE 1 3] 5).1,
    ((txn_log_sequence (txn_manager_create ⟨0, true, 0⟩ []) 1 0 0
      [log_record ObeliskLogRecordType.OBELISK_LOG_UPDATE 1 3] 5).2.2.2.2.2.2.1
        (by
          intro r hr
          simp only [List.mem_singleton] at hr
          rw [hr]; rfl)).1⟩

/-! ## Transactions: identifiers -/

theorem txn_write_log_record_next (txn : ObeliskTransaction)
    (manager : ObeliskTransactionManager) (record : ObeliskLogRecord) (write_ok : Bool) :
    (txn_write_log_record txn manager record write_ok).2.2.next_txn_id =
      manager.next_txn_id := by
  unfold txn_write_log_record
  cases write_ok <;> rfl

theorem txn_commit_next (txn : ObeliskTransaction) (manager : ObeliskTransactionManager)
    (now : Nat) (write_ok : Bool) :
    (txn_commit txn manager now write_ok).2.2.next_txn_id = manager.next_txn_id := by
  unfold txn_commit
  split
  · rfl
  · dsimp only
    split
    · exact txn_write_log_record_next _ _ _ _
    · exact txn_write_log_record_next _ _ _ _

theorem txn_abort_next (txn : ObeliskTransaction) (manager : ObeliskTransactionManager)
    (now : Nat) (write_ok : Bool) :
    (txn_abort txn manager now write_ok).2.2.next_txn_id = manager.next_txn_id := by
  unfold txn_abort
  split
  · rfl
  · exact txn_write_log_record_next _ _ _ _

theorem txn_begin_id (manager : ObeliskTransactionManager) (addr now now_log : Nat)
    (write_ok : Bool) :
    (txn_begin manager addr now now_log write_ok).1.txn_id = manager.next_txn_id ∧
    (txn_begin manager addr now now_log write_ok).1.state =
      ObeliskTransactionState.OBELISK_TXN_ACTIVE ∧
    (txn_begin manager addr now now_log write_ok).2.next_txn_id =
      incr64 manager.next_txn_id := by
  cases write_ok <;> simp [txn_begin, create_transaction, txn_write_log_record]

theorem mgr_run_ids (ops : List MgrOp) :
    ∀ manager : ObeliskTransactionManager,
      manager.next_txn_id + (mgr_run manager ops).1.length < 18446744073709551616 →
      (mgr_run manager ops).1.map (fun t => t.txn_id) =
        List.range' manager.next_txn_id (mgr_run manager ops).1.length ∧
      ∀ t, t ∈ (mgr_run manager ops).1 →
        t.state = ObeliskTransactionState.OBELISK_TXN_ACTIVE := by
  induction ops with
  | nil => intro manager _; exact ⟨rfl, fun t ht => by cases ht⟩
  | cons op ops ih =>
    intro manager h
    cases op with
    | begin addr now now_log write_ok =>
      obtain ⟨b1, b2, b3⟩ := txn_begin_id manager addr now now_log write_ok
      simp only [mgr_run, List.length_cons] at h ⊢
      have e : incr64 manager.next_txn_id = manager.next_txn_id + 1 := by
        unfold incr64
        exact Nat.mod_eq_of_lt (by omega)
      obtain ⟨a1, a2⟩ := ih (txn_begin manager addr now now_log write_ok).2
        (by rw [b3, e]; omega)
      refine ⟨?_, ?_⟩
      · rw [List.map_cons, a1, b1, b3, e, List.range'_succ]
      · intro t ht
        rcases List.mem_cons.mp ht with h1 | h1
        · rw [h1]; exact b2
        · exact a2 t h1
    | commit txn now write_ok =>
      simp only [mgr_run] at h ⊢
      have := ih (txn_commit txn manager now write_ok).2.2
        (by rw [txn_commit_next]; exact h)
      rw [txn_commit_next] at this
      exact this
    | abort txn now write_ok =>
      simp only [mgr_run] at h ⊢
      have := ih (txn_abort txn manager now write_ok).2.2
        (by rw [txn_abort_next]; exact h)
      rw [txn_abort_next] at this
      exact this
    | write txn record write_ok =>
      simp only [mgr_run] at h ⊢
      have := ih (txn_write_log_record txn manager record write_ok).2.2
        (by rw [txn_write_log_record_next]; exact h)
      rw [txn_write_log_record_next] at this
      exact this

/-- C19: on a manager from `txn_manager_create`, through any sequence of
`txn_begin`, `txn_commit`, `txn_abort` and `txn_write_log_record` calls, the
n-th transaction `txn_begin` returns has `txn_id` n (ids start at 1), so the
ids are strictly increasing in begin order and pairwise different, and every
new transaction is in state Active. The `uint64_t` counter `next_txn_id` is
taken not to wrap: fewer than 2^64 - 1 transactions are begun (the array
`active_txns` holds one pointer per transaction begun). -/
theorem txn_ids_fresh (config : ObeliskTransactionConfig) (log_file : List ObeliskLogRecord)
    (ops : List MgrOp)
    (h : (mgr_run (txn_manager_create config log_file) ops).1.length + 1 <
      18446744073709551616) :
    (mgr_run (txn_manager_create config log_file) ops).1.map (fun t => t.txn_id) =
      List.range' 1 (mgr_run (txn_manager_create config log_file) ops).1.length ∧
    ((mgr_run (txn_manager_create config log_file) ops).1.map (fun t => t.txn_id)).Pairwise
      (fun a b => a < b) ∧
    ((mgr_run (txn_manager_create config log_file) ops).1.map (fun t => t.txn_id)).Nodup ∧
    ∀ t, t ∈ (mgr_run (txn_manager_create config log_file) ops).1 →
      t.state = ObeliskTransactionState.OBELISK_TXN_ACTIVE := by
  obtain ⟨a1, a2⟩ := mgr_run_ids ops (txn_manager_create config log_file)
    (by
      show 1 + _ < _
      omega)
  have a1' : (mgr_run (txn_manager_create config log_file) ops).1.map (fun t => t.txn_id) =
      List.range' 1 (mgr_run (txn_manager_create config log_file) ops).1.length := a1
  refine ⟨a1', ?_, ?_, a2⟩
  · rw [a1']
    exact List.pairwise_lt_range' 1 _
  · rw [a1']
    exact List.nodup_range' 1 _

/-- Witness for C19: two transactions are begun, the first commits, a third is
begun; the ids returned are 1, 2, 3. -/
theorem txn_ids_fresh_witness :
    (mgr_run (txn_manager_create ⟨0, true, 0⟩ [])
      [MgrOp.begin 1 0 0 true, MgrOp.begin 2 0 0 true, MgrOp.commit txn_first.1 5 true,
        MgrOp.begin 3 6 6 true]).1.map (fun t => t.txn_id) = List.range' 1 3 :=
  (txn_ids_fresh ⟨0, true, 0⟩ []
    [MgrOp.begin 1 0 0 true, MgrOp.begin 2 0 0 true, MgrOp.commit txn_first.1 5 true,
      MgrOp.begin 3 6 6 true] (by decide)).1

/-! ## Buffer pool: statistics are not read -/

theorem frames_get (p q : ObeliskBufferPool) (h : frames p = frames q) (i : Nat) :
    (p.pages[i]?).map frame_key = (q.pages[i]?).map frame_key := by
  have := congrArg (fun l => l[i]?) h
  simpa [frames, List.getElem?_map] using this

theorem frames_size (p q : ObeliskBufferPool) (h : frames p = frames q) :
    pool_size p = pool_size q := by
  have := congrArg List.length h
  simpa [frames, pool_size] using this

theorem frames_cases (p q : ObeliskBufferPool) (h : frames p = frames q) (i : Nat) :
    (p.pages[i]? = none ∧ q.pages[i]? = none) ∨
    ∃ a b, p.pages[i]? = some a ∧ q.pages[i]? = some b ∧ frame_key a = frame_key b := by
  have hi := frames_get p q h i
  cases hp : p.pages[i]? with
  | none =>
    cases hq : q.pages[i]? with
    | none => exact Or.inl ⟨rfl, rfl⟩
    | some b => rw [hp, hq] at hi; cases hi
  | some a =>
    cases hq : q.pages[i]? with
    | none => rw [hp, hq] at hi; cases hi
    | some b =>
      rw [hp, hq] at hi
      exact Or.inr ⟨a, b, rfl, rfl, Option.some.inj hi⟩

theorem frame_key_eq (a b : ObeliskPage) (h : frame_key a = frame_key b) :
    a.page_id = b.page_id ∧ a.state = b.state ∧ a.pin_count = b.pin_count := by
  unfold frame_key at h
  simp only [Prod.mk.injEq] at h
  exact h

theorem frames_set (p q : ObeliskBufferPool) (h : frames p = frames q) (i : Nat)
    (a b : ObeliskPage) (hab : frame_key a = frame_key b) :
    frames (set_page p i a) = frames (set_page q i b) := by
  show (p.pages.set i a).map frame_key = (q.pages.set i b).map frame_key
  rw [List.map_set, List.map_set, hab]
  exact congrArg (fun l => l.set i (frame_key b)) h

theorem find_page_loop_frames (p q : ObeliskBufferPool) (h : frames p = frames q)
    (page_id : Nat) :
    ∀ (fuel i : Nat), find_page_loop p page_id fuel i = find_page_loop q page_id fuel i := by
  intro fuel
  induction fuel with
  | zero => intro i; rfl
  | succ fuel ih =>
    intro i
    rw [find_page_loop, find_page_loop]
    rcases frames_cases p q h i with ⟨hp, hq⟩ | ⟨a, b, hp, hq, hab⟩
    · rw [hp, hq]
    · rw [hp, hq]
      dsimp only
      rw [(frame_key_eq a b hab).1, ih (i + 1)]

theorem find_page_frames (p q : ObeliskBufferPool) (h : frames p = frames q) (page_id : Nat) :
    find_page p page_id = find_page q page_id := by
  unfold find_page
  rw [frames_size p q h]
  exact find_page_loop_frames p q h page_id _ 0

theorem find_victim_loop_frames (p q : ObeliskBufferPool) (h : frames p = frames q)
    (start : Nat) :
    ∀ (fuel ch : Nat), find_victim_loop p start fuel ch = find_victim_loop q start fuel ch := by
  intro fuel
  induction fuel with
  | zero => intro ch; rfl
  | succ fuel ih =>
    intro ch
    rw [find_victim_loop, find_victim_loop]
    rcases frames_cases p q h ch with ⟨hp, hq⟩ | ⟨a, b, hp, hq, hab⟩
    · rw [hp, hq]
    · rw [hp, hq]
      dsimp only
      obtain ⟨_, e2, e3⟩ := frame_key_eq a b hab
      rw [e2, e3, frames_size p q h, ih]

theorem find_victim_page_frames (p q : ObeliskBufferPool) (h : frames p = frames q)
    (clock_hand : Nat) :
    find_victim_page p clock_hand = find_victim_page q clock_hand := by
  unfold find_victim_page
  rw [frames_size p q h]
  exact find_victim_loop_frames p q h clock_hand _ clock_hand

theorem get_page_frames (p q : ObeliskBufferPool) (h : frames p = frames q)
    (clock_hand page_id : Nat) :
    (buffer_pool_get_page p clock_hand page_id).map
        (fun r => (PoolResult.frame r.frame, frames r.pool, r.clock_hand)) =
      (buffer_pool_get_page q clock_hand page_id).map
        (fun r => (PoolResult.frame r.frame, frames r.pool, r.clock_hand)) := by
  unfold buffer_pool_get_page
  rw [find_page_frames p q h page_id]
  cases find_page q page_id with
  | some i =>
    dsimp only
    rcases frames_cases p q h i with ⟨hp, hq⟩ | ⟨a, b, hp, hq, hab⟩
    · rw [hp, hq]
    · rw [hp, hq]
      dsimp only
      rw [Option.map_some', Option.map_some']
      refine congrArg some (Prod.ext rfl (Prod.ext ?_ rfl))
      exact frames_set _ _ h i _ _ hab
  | none =>
    dsimp only
    have h1 : frames { p with misses := incr64 p.misses } =
        frames { q with misses := incr64 q.misses } := h
    rw [find_victim_page_frames _ _ h1 clock_hand]
    cases hv : find_victim_page { q with misses := incr64 q.misses } clock_hand with
    | mk res ch =>
      cases res with
      | out_of_bounds => rfl
      | null =>
        dsimp only
        rw [Option.map_some', Option.map_some']
        exact congrArg some (Prod.ext rfl (Prod.ext h1 rfl))
      | frame i =>
        dsimp only
        rcases frames_cases _ _ h1 i with ⟨hp, hq⟩ | ⟨a, b, hp, hq, hab⟩
        · rw [hp, hq]
        · rw [hp, hq]
          dsimp only
          rw [Option.map_some', Option.map_some']
          refine congrArg some (Prod.ext rfl (Prod.ext ?_ rfl))
          obtain ⟨_, e2, e3⟩ := frame_key_eq a b hab
          have hkey :
              frame_key ⟨page_id, ObeliskPageState.OBELISK_PAGE_CLEAN, a.pin_count,
                a.last_accessed⟩ =
              frame_key ⟨page_id, ObeliskPageState.OBELISK_PAGE_CLEAN, b.pin_count,
                b.last_accessed⟩ := by
            show (page_id, ObeliskPageState.OBELISK_PAGE_CLEAN, a.pin_count) =
              (page_id, ObeliskPageState.OBELISK_PAGE_CLEAN, b.pin_count)
            rw [e3]
          show (List.set _ i _).map frame_key = (List.set _ i _).map frame_key
          rw [List.map_set, List.map_set, hkey]
          rw [e2]
          by_cases c : b.state = ObeliskPageState.OBELISK_PAGE_DIRTY
          · rw [if_pos c, if_pos c]
            show (List.map frame_key p.pages).set i _ = (List.map frame_key q.pages).set i _
            rw [show List.map frame_key p.pages = List.map frame_key q.pages from h]
          · rw [if_neg c, if_neg c]
            show (List.map frame_key p.pages).set i _ = (List.map frame_key q.pages).set i _
            rw [show List.map frame_key p.pages = List.map frame_key q.pages from h]

theorem pin_page_frames (p q : ObeliskBufferPool) (h : frames p = frames q) (page_id : Nat) :
    (buffer_pool_pin_page p page_id).1 = (buffer_pool_pin_page q page_id).1 ∧
    frames (buffer_pool_pin_page p page_id).2 = frames (buffer_pool_pin_page q page_id).2 := by
  unfold buffer_pool_pin_page
  rw [find_page_frames p q h page_id]
  cases find_page q page_id with
  | none => exact ⟨rfl, h⟩
  | some i =>
    dsimp only
    rcases frames_cases p q h i with ⟨hp, hq⟩ | ⟨a, b, hp, hq, hab⟩
    · rw [hp, hq]; exact ⟨rfl, h⟩
    · rw [hp, hq]
      refine ⟨rfl, frames_set p q h i _ _ ?_⟩
      obtain ⟨e1, e2, e3⟩ := frame_key_eq a b hab
      show (a.page_id, a.state, incr32 a.pin_count) = (b.page_id, b.state, incr32 b.pin_count)
      rw [e1, e2, e3]

theorem unpin_page_frames (p q : ObeliskBufferPool) (h : frames p = frames q) (page_id : Nat)
    (is_dirty : Bool) :
    (buffer_pool_unpin_page p page_id is_dirty).1 =
      (buffer_pool_unpin_page q page_id is_dirty).1 ∧
    frames (buffer_pool_unpin_page p page_id is_dirty).2 =
      frames (buffer_pool_unpin_page q page_id is_dirty).2 := by
  unfold buffer_pool_unpin_page
  rw [find_page_frames p q h page_id]
  cases find_page q page_id with
  | none => exact ⟨rfl, h⟩
  | some i =>
    dsimp only
    rcases frames_cases p q h i with ⟨hp, hq⟩ | ⟨a, b, hp, hq, hab⟩
    · rw [hp, hq]; exact ⟨rfl, h⟩
    · rw [hp, hq]
      dsimp only
      obtain ⟨e1, e2, e3⟩ := frame_key_eq a b hab
      rw [e3]
      by_cases c : b.pin_count = 0
      · rw [if_pos c, if_pos c]; exact ⟨rfl, h⟩
      · rw [if_neg c, if_neg c]
        refine ⟨rfl, frames_set p q h i _ _ ?_⟩
        cases is_dirty <;> simp [frame_key, e1, e2]

theorem flush_page_frames (p q : ObeliskBufferPool) (h : frames p = frames q) (page_id : Nat) :
    (buffer_pool_flush_page p page_id).1 = (buffer_pool_flush_page q page_id).1 ∧
    frames (buffer_pool_flush_page p page_id).2 =
      frames (buffer_pool_flush_page q page_id).2 := by
  unfold buffer_pool_flush_page
  rw [find_page_frames p q h page_id]
  cases find_page q page_id with
  | none => exact ⟨rfl, h⟩
  | some i =>
    dsimp only
    rcases frames_cases p q h i with ⟨hp, hq⟩ | ⟨a, b, hp, hq, hab⟩
    · rw [hp, hq]; exact ⟨rfl, h⟩
    · rw [hp, hq]
      dsimp only
      obtain ⟨e1, e2, e3⟩ := frame_key_eq a b hab
      rw [e2]
      by_cases c : b.state = ObeliskPageState.OBELISK_PAGE_DIRTY
      · rw [if_pos c, if_pos c]
        refine ⟨rfl, ?_⟩
        show frames (set_page p i _) = frames (set_page q i _)
        refine frames_set p q h i _ _ ?_
        show (a.page_id, ObeliskPageState.OBELISK_PAGE_CLEAN, a.pin_count) =
          (b.page_id, ObeliskPageState.OBELISK_PAGE_CLEAN, b.pin_count)
        rw [e1, e3]
      · rw [if_neg c, if_neg c]; exact ⟨rfl, h⟩

theorem flush_all_pages (pool : ObeliskBufferPool) :
    (buffer_pool_flush_all pool).2.pages = pool.pages.map clean_page := by
  obtain ⟨a1, _⟩ := flush_all_loop_spec (pool_size pool) 0 pool (by simp [pool_size])
  apply List.ext_getElem?
  intro j
  show (flush_all_loop (pool_size pool) 0 pool).pages[j]? = _
  rw [a1 j, if_pos (Nat.zero_le _), List.getElem?_map]

theorem flush_all_frames (p q : ObeliskBufferPool) (h : frames p = frames q) :
    frames (buffer_pool_flush_all p).2 = frames (buffer_pool_flush_all q).2 := by
  have e : ∀ pool : ObeliskBufferPool, frames (buffer_pool_flush_all pool).2 =
      (frames pool).map (fun k => (k.1, ObeliskPageState.OBELISK_PAGE_CLEAN, k.2.2)) := by
    intro pool
    unfold frames
    rw [flush_all_pages, List.map_map, List.map_map]
    rfl
  rw [e p, e q, h]

theorem pool_apply_frames (p q : ObeliskBufferPool) (h : frames p = frames q)
    (clock_hand : Nat) (op : PoolOp) :
    (pool_apply p clock_hand op = none ∧ pool_apply q clock_hand op = none) ∨
    ∃ res p1 q1 ch1, pool_apply p clock_hand op = some (res, p1, ch1) ∧
      pool_apply q clock_hand op = some (res, q1, ch1) ∧ frames p1 = frames q1 := by
  cases op with
  | get page_id =>
    have hg := get_page_frames p q h clock_hand page_id
    show ((buffer_pool_get_page p clock_hand page_id).map _ = none ∧
      (buffer_pool_get_page q clock_hand page_id).map _ = none) ∨
      ∃ res p1 q1 ch1, (buffer_pool_get_page p clock_hand page_id).map _ = some (res, p1, ch1) ∧
        (buffer_pool_get_page q clock_hand page_id).map _ = some (res, q1, ch1) ∧
        frames p1 = frames q1
    cases hp : buffer_pool_get_page p clock_hand page_id with
    | none =>
      cases hq : buffer_pool_get_page q clock_hand page_id with
      | none => exact Or.inl ⟨rfl, rfl⟩
      | some rq => rw [hp, hq] at hg; cases hg
    | some rp =>
      cases hq : buffer_pool_get_page q clock_hand page_id with
      | none => rw [hp, hq] at hg; cases hg
      | some rq =>
        rw [hp, hq] at hg
        have hg' := Option.some.inj hg
        simp only [Prod.mk.injEq] at hg'
        obtain ⟨g1, g2, g3⟩ := hg'
        right
        refine ⟨PoolResult.frame rp.frame, rp.pool, rq.pool, rp.clock_hand, rfl, ?_, g2⟩
        rw [Option.map_some', g1, g3]
  | pin page_id =>
    obtain ⟨a, b⟩ := pin_page_frames p q h page_id
    exact Or.inr ⟨_, _, _, _, rfl, by show some _ = some _; rw [a], b⟩
  | unpin page_id is_dirty =>
    obtain ⟨a, b⟩ := unpin_page_frames p q h page_id is_dirty
    exact Or.inr ⟨_, _, _, _, rfl, by show some _ = some _; rw [a], b⟩
  | flush page_id =>
    obtain ⟨a, b⟩ := flush_page_frames p q h page_id
    exact Or.inr ⟨_, _, _, _, rfl, by show some _ = some _; rw [a], b⟩
  | flush_all =>
    exact Or.inr ⟨_, _, _, _, rfl, rfl, flush_all_frames p q h⟩
  | reset_stats =>
    exact Or.inr ⟨_, _, _, _, rfl, rfl, h⟩

theorem pool_run_frames (ops : List PoolOp) :
    ∀ (p q : ObeliskBufferPool) (clock_hand : Nat), frames p = frames q →
      (pool_run p clock_hand ops).map observe = (pool_run q clock_hand ops).map observe := by
  induction ops with
  | nil =>
    intro p q ch h
    show some (([] : List PoolResult), frames p, ch) = some ([], frames q, ch)
    rw [h]
  | cons op ops ih =>
    intro p q ch h
    rw [pool_run, pool_run]
    rcases pool_apply_frames p q h ch op with ⟨hp, hq⟩ | ⟨res, p1, q1, ch1, hp, hq, h1⟩
    · rw [hp, hq]
    · rw [hp, hq]
      dsimp only
      have := ih p1 q1 ch1 h1
      cases hrp : pool_run p1 ch1 ops with
      | none =>
        cases hrq : pool_run q1 ch1 ops with
        | none => rfl
        | some y => rw [hrp, hrq] at this; cases this
      | some x =>
        cases hrq : pool_run q1 ch1 ops with
        | none => rw [hrp, hrq] at this; cases this
        | some y =>
          rw [hrp, hrq] at this
          have e := Option.some.inj this
          unfold observe at e
          simp only [Prod.mk.injEq] at e
          obtain ⟨e1, e2, e3⟩ := e
          show some (observe (res :: x.1, x.2.1, x.2.2)) = some (observe (res :: y.1, y.2.1, y.2.2))
          unfold observe
          simp only
          rw [e1, e2, e3]

/-- C20: two pools whose frames agree on `page_id`, `state` and `pin_count`,
started with the same clock hand, whatever their `hits`, `misses`, `evictions`
and `flushes` counters: every sequence of get_page / pin / unpin / flush_page /
flush_all / reset_stats calls is defined on both or on neither, returns the
same results (same statuses, same frames chosen), and leaves the same
`page_id`, `state` and `pin_count` in every frame and the same clock hand;
`buffer_pool_reset_stats` changes no frame. -/
theorem stats_not_read (p q : ObeliskBufferPool) (clock_hand : Nat) (ops : List PoolOp)
    (h : frames p = frames q) :
    (pool_run p clock_hand ops).map observe = (pool_run q clock_hand ops).map observe ∧
    (buffer_pool_reset_stats p).pages = p.pages :=
  ⟨pool_run_frames ops p q clock_hand h, rfl⟩

/-- Witness for C20: the pool of two frames with frame 0 pinned, once with its
counters at 0 and once with other counters, under the same five calls. -/
theorem stats_not_read_witness :
    frames pool_two_pinned = frames pool_two_pinned_counted ∧
    pool_two_pinned.hits ≠ pool_two_pinned_counted.hits ∧
    (pool_run pool_two_pinned 0
      [PoolOp.get 7, PoolOp.unpin 0 true, PoolOp.flush_all, PoolOp.get 9,
        PoolOp.pin 9]).map observe =
    (pool_run pool_two_pinned_counted 0
      [PoolOp.get 7, PoolOp.unpin 0 true, PoolOp.flush_all, PoolOp.get 9,
        PoolOp.pin 9]).map observe :=
  ⟨by decide, by decide,
    (stats_not_read pool_two_pinned pool_two_pinned_counted 0
      [PoolOp.get 7, PoolOp.unpin 0 true, PoolOp.flush_all, PoolOp.get 9, PoolOp.pin 9]
      (by decide)).1⟩

/-! ## B-tree: entries of the leaf -/

theorem has_entry_unique (L : ObeliskNode) (k v w : Nat) (hL : LeafOK L)
    (h1 : has_entry L k v) (h2 : has_entry L k w) : v = w := by
  obtain ⟨i, hi, ki, vi⟩ := h1
  obtain ⟨j, hj, kj, vj⟩ := h2
  have : i = j := by
    rcases Nat.lt_trichotomy i j with h | h | h
    · have := hL.sorted i j h hj; omega
    · exact h
    · have := hL.sorted j i h hi; omega
  subst this
  rw [← vi, ← vj]

theorem has_entry_key (L : ObeliskNode) (k v : Nat) (h : has_entry L k v) : has_key L k := by
  obtain ⟨i, hi, ki, _⟩ := h
  exact ⟨i, hi, ki⟩

theorem has_key_entry (L : ObeliskNode) (k : Nat) (h : has_key L k) : ∃ v, has_entry L k v := by
  obtain ⟨i, hi, ki⟩ := h
  exact ⟨_, i, hi, ki, rfl⟩

theorem leaf_update_entries (L : ObeliskNode) (i v k w : Nat) (hL : LeafOK L)
    (hi : i < L.num_keys) :
    has_entry (leaf_update L i v) k w ↔
      (k = rd L.keys i ∧ w = v) ∨ (k ≠ rd L.keys i ∧ has_entry L k w) := by
  have h1 := hL.count_le
  have h2 := hL.children_len
  simp only [OBELISK_BTREE_ORDER] at h1 h2
  have hc : ∀ j, rd (leaf_update L i v).children j = if i = j then v else rd L.children j := by
    intro j
    show rd (wr L.children i v) j = _
    rw [rd_wr]
    by_cases c : i = j
    · rw [if_pos ⟨c, by omega⟩, if_pos c]
    · rw [if_neg (fun h => c h.1), if_neg c]
  have hinj : ∀ j, j < L.num_keys → rd L.keys j = rd L.keys i → j = i := by
    intro j hj e
    rcases Nat.lt_trichotomy j i with h | h | h
    · have := hL.sorted j i h hi; omega
    · exact h
    · have := hL.sorted i j h hj; omega
  constructor
  · rintro ⟨j, hj, kj, vj⟩
    have kj' : rd L.keys j = k := kj
    have hj' : j < L.num_keys := hj
    rw [hc j] at vj
    by_cases c : i = j
    · subst c
      rw [if_pos rfl] at vj
      exact Or.inl ⟨kj'.symm, vj.symm⟩
    · rw [if_neg c] at vj
      refine Or.inr ⟨fun e => c (hinj j hj' (by rw [kj', e])).symm, j, hj', kj', vj⟩
  · rintro (⟨e1, e2⟩ | ⟨ne, j, hj, kj, vj⟩)
    · refine ⟨i, hi, e1.symm, ?_⟩
      rw [hc i, if_pos rfl, e2]
    · refine ⟨j, hj, kj, ?_⟩
      rw [hc j, if_neg (fun e => ne (by rw [← kj, e])), vj]

theorem leaf_add_entries (L : ObeliskNode) (key value k w : Nat) (hL : LeafOK L)
    (habs : ¬ has_key L key) (hroom : L.num_keys < OBELISK_BTREE_ORDER - 1) :
    has_entry (leaf_add L key value) k w ↔ (k = key ∧ w = value) ∨ has_entry L k w := by
  obtain ⟨p, hp, hlt, hgt, hk, hc⟩ := leaf_add_spec L key value hL habs hroom
  constructor
  · rintro ⟨j, hj, kj, vj⟩
    have hj' : j < L.num_keys + 1 := hj
    rw [hk j] at kj
    rw [hc j] at vj
    by_cases c1 : j < p
    · rw [if_pos c1] at kj vj
      exact Or.inr ⟨j, by omega, kj, vj⟩
    · by_cases c2 : j = p
      · rw [if_neg c1, if_pos c2] at kj vj
        exact Or.inl ⟨kj.symm, vj.symm⟩
      · rw [if_neg c1, if_neg c2, if_pos (by omega)] at kj vj
        exact Or.inr ⟨j - 1, by omega, kj, vj⟩
  · rintro (⟨e1, e2⟩ | ⟨j, hj, kj, vj⟩)
    · refine ⟨p, show p < L.num_keys + 1 by omega, ?_, ?_⟩
      · rw [hk p, if_neg (by omega), if_pos rfl, e1]
      · rw [hc p, if_neg (by omega), if_pos rfl, e2]
    · by_cases c1 : j < p
      · refine ⟨j, show j < L.num_keys + 1 by omega, ?_, ?_⟩
        · rw [hk j, if_pos c1, kj]
        · rw [hc j, if_pos c1, vj]
      · refine ⟨j + 1, show j + 1 < L.num_keys + 1 by omega, ?_, ?_⟩
        · rw [hk (j + 1), if_neg (by omega), if_neg (by omega), if_pos (by omega)]
          exact kj
        · rw [hc (j + 1), if_neg (by omega), if_neg (by omega), if_pos (by omega)]
          exact vj

theorem first_leaf_entries (key value k w : Nat) :
    has_entry { create_node ObeliskNodeType.OBELISK_NODE_LEAF with
      keys := wr (create_node ObeliskNodeType.OBELISK_NODE_LEAF).keys 0 key
      children := wr (create_node ObeliskNodeType.OBELISK_NODE_LEAF).children 0 value
      num_keys := 1 } k w ↔ k = key ∧ w = value := by
  constructor
  · intro h
    have hk := (first_leaf_has_key key value k).mp (has_entry_key _ k w h)
    subst hk
    exact ⟨rfl, has_entry_unique _ k w value (first_leaf_ok k value) h (first_leaf_entry k value)⟩
  · rintro ⟨e1, e2⟩
    rw [e1, e2]
    exact first_leaf_entry key value

/-- What `btree_insert(k, v)` does to the stored pairs of a tree of the shape
`TreeOK`: the pair `(k, v)` is stored if the call returns `0`, and the pairs
with another key are the ones stored before. -/
theorem stored_value_insert (t : ObeliskBTree) (k v k' w : Nat) (h : TreeOK t) :
    stored_value (btree_insert t k v).2 k' w ↔
      ((btree_insert t k v).1 = 0 ∧ k' = k ∧ w = v) ∨ (k' ≠ k ∧ stored_value t k' w) := by
  unfold stored_value
  rcases h with ⟨hr, hh⟩ | ⟨hr, L, hh, hL⟩
  · rw [btree_insert_empty t k v hr hh, hh]
    simp only [List.cons.injEq, and_true, exists_eq_left', true_and]
    rw [first_leaf_entries]
    simp
  · rw [btree_insert_leaf t L k v hr hh hL.type_leaf, hh]
    cases hf : insert_find L k L.num_keys 0 with
    | some i =>
      obtain ⟨_, hi, e⟩ := insert_find_some L k L.num_keys 0 i hf
      simp only [List.cons.injEq, and_true, exists_eq_left', true_and]
      rw [leaf_update_entries L i v k' w hL hi, e]
    | none =>
      have habs := insert_find_absent L k hf
      by_cases hroom : L.num_keys < OBELISK_BTREE_ORDER - 1
      · dsimp only
        rw [if_pos hroom]
        simp only [List.cons.injEq, and_true, exists_eq_left', true_and]
        rw [leaf_add_entries L k v k' w hL habs hroom]
        constructor
        · rintro (h1 | h1)
          · exact Or.inl h1
          · refine Or.inr ⟨fun e => habs ?_, h1⟩
            rw [← e]
            exact has_entry_key L k' w h1
        · rintro (h1 | ⟨_, h1⟩)
          · exact Or.inl h1
          · exact Or.inr h1
      · dsimp only
        rw [if_neg hroom, hh]
        simp only [List.cons.injEq, and_true, exists_eq_left']
        constructor
        · intro h1
          refine Or.inr ⟨fun e => habs ?_, h1⟩
          rw [← e]
          exact has_entry_key L k' w h1
        · rintro (⟨h0, _⟩ | ⟨_, h1⟩)
          · simp at h0
          · exact h1

/-- On a tree of the shape `TreeOK`, `btree_search` finds exactly the stored
pairs. -/
theorem btree_search_stored (t : ObeliskBTree) (k : Nat) (h : TreeOK t) :
    (∃ v, stored_value t k v ∧ btree_search t k = some v) ∨
    ((∀ v, ¬ stored_value t k v) ∧ btree_search t k = none) := by
  rcases h with ⟨hr, hh⟩ | ⟨hr, L, hh, hL⟩
  · right
    refine ⟨?_, ?_⟩
    · rintro v ⟨L, hL, _⟩
      rw [hh] at hL
      cases hL
    · unfold btree_search
      rw [if_pos hr]
  · by_cases hk : has_key L k
    · obtain ⟨v, hv⟩ := has_key_entry L k hk
      exact Or.inl ⟨v, ⟨L, hh, hv⟩, btree_search_entry t L k v hr hh hL hv⟩
    · right
      refine ⟨?_, btree_search_no_key t L k hr hh hL hk⟩
      rintro v ⟨L1, hL1, he⟩
      rw [hh] at hL1
      have : L = L1 := by simpa using hL1
      subst this
      exact hk (has_entry_key L k v he)

theorem insert_all_ok (kvs : List (Nat × Nat)) :
    ∀ t, TreeOK t → TreeOK (btree_insert_all t kvs).2 := by
  induction kvs with
  | nil => intro t h; exact h
  | cons kv kvs ih =>
    intro t h
    exact ih _ (btree_insert_ok t kv.1 kv.2 h)

theorem insert_all_reachable (kvs : List (Nat × Nat)) :
    ∀ t, Reachable t → Reachable (btree_insert_all t kvs).2 := by
  induction kvs with
  | nil => intro t h; exact h
  | cons kv kvs ih =>
    intro t h
    exact ih _ (Reachable.insert t kv.1 kv.2 h)

theorem insert_all_values (kvs : List (Nat × Nat)) :
    ∀ t, TreeOK t → ∀ k w, stored_value (btree_insert_all t kvs).2 k w →
      last_inserted kvs k = some w ∨ (last_inserted kvs k = none ∧ stored_value t k w) := by
  induction kvs with
  | nil => intro t _ k w h; exact Or.inr ⟨rfl, h⟩
  | cons kv kvs ih =>
    intro t ht k w h
    have h' : stored_value (btree_insert_all (btree_insert t kv.1 kv.2).2 kvs).2 k w := h
    rcases ih _ (btree_insert_ok t kv.1 kv.2 ht) k w h' with h1 | ⟨h1, h2⟩
    · left
      simp only [last_inserted, h1]
    · rcases (stored_value_insert t kv.1 kv.2 k w ht).mp h2 with ⟨_, e1, e2⟩ | ⟨ne, h3⟩
      · left
        simp only [last_inserted, h1]
        rw [if_pos e1.symm, e2]
      · right
        refine ⟨?_, h3⟩
        simp only [last_inserted, h1]
        rw [if_neg (fun e => ne e.symm)]

/-! ## B-tree: validation, sortedness, lookup, failure, frame -/

/-- C25 (as stated, refuted): `btree_validate` returns true for a tree whose
leaf holds the keys 2, 1 out of order, and for a tree whose leaf holds the key
1 twice. -/
theorem btree_validate_accepts_unsorted :
    (tree_unsorted.heap.map node_keys = [[2, 1]] ∧ btree_validate tree_unsorted = true) ∧
    (tree_duplicate.heap.map node_keys = [[1, 1]] ∧ btree_validate tree_duplicate = true) := by
  decide

/-- C25 (amended): `btree_validate` is a stub: it returns true for every tree,
whether or not the tree satisfies the node invariants; it never returns
false. -/
theorem btree_validate_is_stub (t : ObeliskBTree) : btree_validate t = true :=
  rfl

/-- C26: after every sequence of `btree_insert` calls on the empty tree, the
first `num_keys` entries of the leaf's `keys` array are strictly increasing
(so no key occurs twice), and `children[i]` is the value of the last call that
inserted `keys[i]`. -/
theorem leaf_sorted_last_values (kvs : List (Nat × Nat)) (L : ObeliskNode)
    (h : (btree_insert_all btree_create kvs).2.heap = [L]) :
    (∀ i j, i < j → j < L.num_keys → rd L.keys i < rd L.keys j) ∧
    (∀ i, i < L.num_keys → last_inserted kvs (rd L.keys i) = some (rd L.children i)) := by
  have hok := insert_all_ok kvs btree_create (Or.inl ⟨rfl, rfl⟩)
  rcases hok with ⟨_, hh⟩ | ⟨_, L1, hh, hL⟩
  · rw [hh] at h; cases h
  · rw [hh] at h
    have : L1 = L := by simpa using h
    subst this
    refine ⟨hL.sorted, fun i hi => ?_⟩
    have hs : stored_value (btree_insert_all btree_create kvs).2 (rd L1.keys i)
        (rd L1.children i) := ⟨L1, hh, i, hi, rfl, rfl⟩
    rcases insert_all_values kvs btree_create (Or.inl ⟨rfl, rfl⟩) _ _ hs with h1 | ⟨_, L2, h2, _⟩
    · exact h1
    · cases h2

/-- Witness for C26: the calls `insert(5, 50)`, `insert(3, 30)`,
`insert(5, 51)`; the leaf holds keys 3, 5 with values 30, 51. -/
theorem leaf_sorted_last_values_witness :
    ∃ L, (btree_insert_all btree_create [(5, 50), (3, 30), (5, 51)]).2.heap = [L] ∧
      rd L.keys 0 < rd L.keys 1 ∧
      last_inserted [(5, 50), (3, 30), (5, 51)] (rd L.keys 1) = some (rd L.children 1) ∧
      rd L.keys 1 = 5 ∧ rd L.children 1 = 51 := by
  cases hh : (btree_insert_all btree_create [(5, 50), (3, 30), (5, 51)]).2.heap with
  | nil => exact absurd hh (by decide)
  | cons L rest =>
    have hrest : rest = [] := by
      have : (btree_insert_all btree_create [(5, 50), (3, 30), (5, 51)]).2.heap.length = 1 := by
        decide
      rw [hh] at this
      cases rest with
      | nil => rfl
      | cons a b => simp at this
    subst hrest
    have hn : L.num_keys = 2 := by
      have : (btree_insert_all btree_create [(5, 50), (3, 30), (5, 51)]).2.heap.map
          (fun n => n.num_keys) = [2] := by decide
      rw [hh] at this
      simpa using this
    have hk : rd L.keys 1 = 5 ∧ rd L.children 1 = 51 := by
      have : (btree_insert_all btree_create [(5, 50), (3, 30), (5, 51)]).2.heap.map
          (fun n => (rd n.keys 1, rd n.children 1)) = [(5, 51)] := by decide
      rw [hh] at this
      simpa using this
    obtain ⟨a, b⟩ := leaf_sorted_last_values [(5, 50), (3, 30), (5, 51)] L hh
    exact ⟨L, rfl, a 0 1 (by omega) (by omega), b 1 (by omega), hk.1, hk.2⟩

theorem btree_search_root_leaf (t : ObeliskBTree) (L : ObeliskNode) (key : Nat)
    (hr : t.root ≠ 0) (hd : deref t.heap t.root = some L)
    (hL : L.type = ObeliskNodeType.OBELISK_NODE_LEAF) :
    btree_search t key =
      search_loop L key (L.num_keys + 1) 0 (toInt32 (L.num_keys + 4294967296 - 1)) := by
  have hne : ¬ L.type = ObeliskNodeType.OBELISK_NODE_INTERNAL := by rw [hL]; decide
  have hf : btree_find_leaf t key = some t.root := by
    unfold btree_find_leaf
    rw [if_neg hr, find_leaf_descend, hd]
    dsimp only
    rw [if_neg hne]
  unfold btree_search
  rw [if_neg hr, hf]
  dsimp only
  rw [hd]

/-- C27: for every leaf with at most `OBELISK_BTREE_ORDER - 1` keys in use,
strictly increasing, and every key: the binary search of `btree_search` returns
true and yields `children[i]` if `keys[i] = key` for some `i < num_keys`, and
returns false if there is no such `i`; it finds the key exactly when the linear
scan of `btree_insert` does, at the same slot. The loop ends within
`num_keys + 1` iterations, and `btree_search` on a tree whose root is that leaf
returns what the loop returns. -/
theorem leaf_lookup_exact (L : ObeliskNode) (key : Nat)
    (hn : L.num_keys ≤ OBELISK_BTREE_ORDER - 1)
    (hs : ∀ i j, i < j → j < L.num_keys → rd L.keys i < rd L.keys j) :
    (∀ i, i < L.num_keys → rd L.keys i = key →
      search_loop L key (L.num_keys + 1) 0 (toInt32 (L.num_keys + 4294967296 - 1)) =
        some (rd L.children i)) ∧
    ((∀ i, i < L.num_keys → rd L.keys i ≠ key) →
      search_loop L key (L.num_keys + 1) 0 (toInt32 (L.num_keys + 4294967296 - 1)) = none) ∧
    (∀ i, insert_find L key L.num_keys 0 = some i →
      search_loop L key (L.num_keys + 1) 0 (toInt32 (L.num_keys + 4294967296 - 1)) =
        some (rd L.children i)) ∧
    (insert_find L key L.num_keys 0 = none →
      search_loop L key (L.num_keys + 1) 0 (toInt32 (L.num_keys + 4294967296 - 1)) = none) ∧
    (∀ fuel, L.num_keys + 1 ≤ fuel →
      search_loop L key fuel 0 (toInt32 (L.num_keys + 4294967296 - 1)) =
        search_loop L key (L.num_keys + 1) 0 (toInt32 (L.num_keys + 4294967296 - 1))) ∧
    (∀ t : ObeliskBTree, t.root ≠ 0 → deref t.heap t.root = some L →
      L.type = ObeliskNodeType.OBELISK_NODE_LEAF →
      btree_search t key =
        search_loop L key (L.num_keys + 1) 0 (toInt32 (L.num_keys + 4294967296 - 1))) := by
  simp only [OBELISK_BTREE_ORDER] at hn
  rw [toInt32_pred L.num_keys (by omega)]
  have hfound : ∀ fuel i, L.num_keys + 1 ≤ fuel → i < L.num_keys → rd L.keys i = key →
      search_loop L key fuel 0 ((L.num_keys : Int) - 1) = some (rd L.children i) := by
    intro fuel i hf hi hk
    exact search_loop_found L key hs fuel 0 _ i (le_refl _) (by omega) (by omega) (by omega)
      (by omega) hk
  have habsent : ∀ fuel, (∀ i, i < L.num_keys → rd L.keys i ≠ key) →
      search_loop L key fuel 0 ((L.num_keys : Int) - 1) = none := by
    intro fuel h
    exact search_loop_absent L key h fuel 0 _ (le_refl _) (by omega)
  refine ⟨fun i hi hk => hfound _ i (le_refl _) hi hk, habsent _, ?_, ?_, ?_, ?_⟩
  · intro i hf
    obtain ⟨_, hi, hk⟩ := insert_find_some L key L.num_keys 0 i hf
    exact hfound _ i (le_refl _) hi hk
  · intro hf
    exact habsent _ (fun i hi e => insert_find_absent L key hf ⟨i, hi, e⟩)
  · intro fuel hf
    by_cases hk : has_key L key
    · obtain ⟨i, hi, e⟩ := hk
      rw [hfound fuel i hf hi e, hfound _ i (le_refl _) hi e]
    · have h : ∀ i, i < L.num_keys → rd L.keys i ≠ key := fun i hi e => hk ⟨i, hi, e⟩
      rw [habsent fuel h, habsent _ h]
  · intro t hr hd hL
    rw [btree_search_root_leaf t L key hr hd hL, toInt32_pred L.num_keys (by omega)]

/-- Witness for C27: the leaf of the tree after `insert(5, 50)` and
`insert(3, 30)`; key 5 sits in slot 1 and the binary search yields 50. -/
theorem leaf_lookup_exact_witness :
    search_loop (leaf_add
        { create_node ObeliskNodeType.OBELISK_NODE_LEAF with
          keys := wr (create_node ObeliskNodeType.OBELISK_NODE_LEAF).keys 0 5
          children := wr (create_node ObeliskNodeType.OBELISK_NODE_LEAF).children 0 50
          num_keys := 1 } 3 30) 5 (2 + 1) 0 (toInt32 (2 + 4294967296 - 1)) = some 50 :=
  (leaf_lookup_exact (leaf_add
        { create_node ObeliskNodeType.OBELISK_NODE_LEAF with
          keys := wr (create_node ObeliskNodeType.OBELISK_NODE_LEAF).keys 0 5
          children := wr (create_node ObeliskNodeType.OBELISK_NODE_LEAF).children 0 50
          num_keys := 1 } 3 30) 5 (by decide)
      (by
        intro i j hij hj
        have hj' : j < 2 := hj
        have hi0 : i = 0 := by omega
        have hj1 : j = 1 := by omega
        subst hi0 hj1
        decide)).1 1 (by decide) (by decide)

theorem key_present_single (t : ObeliskBTree) (L : ObeliskNode) (k : Nat)
    (hr : t.root = 1) (hh : t.heap = [L]) (hL : LeafOK L) :
    key_present t k ↔ has_key L k := by
  have hlen : L.num_keys ≤ L.keys.length := by
    rw [hL.keys_len]; exact hL.count_le
  unfold key_present
  rw [leaf_of_single t L k hr hh hL.type_leaf]
  constructor
  · rintro ⟨L1, e, hm⟩
    have : L = L1 := Option.some.inj e
    subst this
    exact (mem_node_keys L k hlen).mp hm
  · intro h
    exact ⟨L, rfl, (mem_node_keys L k hlen).mpr h⟩

/-- C29: on every tree reachable from the empty tree by `btree_insert` calls,
`btree_insert(k, v)` returns `-1` if and only if `k` is absent and its leaf
already holds `OBELISK_BTREE_ORDER - 1 = 127` keys, and then the tree is left
exactly as it was; in every other case it returns `0`. -/
theorem btree_insert_fails_iff (t : ObeliskBTree) (k v : Nat) (h : Reachable t) :
    ((btree_insert t k v).1 = -1 ↔
      (¬ key_present t k ∧ leaf_count t k = OBELISK_BTREE_ORDER - 1)) ∧
    ((btree_insert t k v).1 = -1 → (btree_insert t k v).2 = t) ∧
    ((btree_insert t k v).1 ≠ -1 → (btree_insert t k v).1 = 0) := by
  rcases reachable_ok t h with ⟨hr, hh⟩ | ⟨hr, L, hh, hL⟩
  · rw [btree_insert_empty t k v hr hh]
    refine ⟨⟨fun h0 => by simp at h0, ?_⟩, fun h0 => by simp at h0, fun _ => rfl⟩
    rintro ⟨_, hc⟩
    unfold leaf_count at hc
    rw [leaf_of_empty t k hr] at hc
    simp [OBELISK_BTREE_ORDER] at hc
  · have hcount : leaf_count t k = L.num_keys := by
      unfold leaf_count
      rw [leaf_of_single t L k hr hh hL.type_leaf]
    rw [key_present_single t L k hr hh hL, hcount]
    rcases btree_insert_cases t k v (Or.inr ⟨hr, L, hh, hL⟩) with
      ⟨h0, _⟩ | ⟨e, _, L1, hh1, _, habs, hfull⟩
    · refine ⟨⟨fun h1 => by rw [h0] at h1; simp at h1, ?_⟩,
        fun h1 => by rw [h0] at h1; simp at h1, fun _ => h0⟩
      rintro ⟨habs, hfull⟩
      rw [btree_insert_full t L k v hr hh hL habs hfull] at h0
      simp at h0
    · rw [hh] at hh1
      have : L = L1 := by simpa using hh1
      subst this
      rw [e]
      exact ⟨⟨fun _ => ⟨habs, hfull⟩, fun _ => rfl⟩, fun _ => rfl, fun h1 => absurd rfl h1⟩

/-- Witness for C29: on the tree after `insert(5, 50)` the call `insert(3, 30)`
does not return `-1`, so it returns `0`. -/
theorem btree_insert_fails_iff_witness :
    Reachable (btree_insert btree_create 5 50).2 ∧
    (btree_insert (btree_insert btree_create 5 50).2 3 30).1 = 0 :=
  ⟨Reachable.insert _ 5 50 Reachable.create,
    (btree_insert_fails_iff (btree_insert btree_create 5 50).2 3 30
      (Reachable.insert _ 5 50 Reachable.create)).2.2 (by decide)⟩

/-- C30: on every tree reachable from the empty tree by `btree_insert` calls
and for all keys `k` and `k'` with `k'` different from `k`, `btree_search(k')`
gives the same result, found or not and with the same value, after
`btree_insert(k, v)` as before it, whether the insert adds `k`, overwrites `k`
or fails. -/
theorem btree_insert_other_keys (t : ObeliskBTree) (k v k' : Nat) (h : Reachable t)
    (hne : k' ≠ k) :
    btree_search (btree_insert t k v).2 k' = btree_search t k' := by
  have hok := reachable_ok t h
  have hok' := btree_insert_ok t k v hok
  rcases btree_search_stored t k' hok with ⟨w, hs, e⟩ | ⟨hns, e⟩
  · rw [e]
    have hs' : stored_value (btree_insert t k v).2 k' w :=
      (stored_value_insert t k v k' w hok).mpr (Or.inr ⟨hne, hs⟩)
    rcases btree_search_stored (btree_insert t k v).2 k' hok' with ⟨w', hs2, e2⟩ | ⟨hns2, _⟩
    · rw [e2]
      rcases (stored_value_insert t k v k' w' hok).mp hs2 with ⟨_, e3, _⟩ | ⟨_, hs3⟩
      · exact absurd e3 hne
      · obtain ⟨L1, h1, he1⟩ := hs
        obtain ⟨L2, h2, he2⟩ := hs3
        rw [h1] at h2
        have : L1 = L2 := by simpa using h2
        subst this
        rcases hok with ⟨_, hh⟩ | ⟨_, L, hh, hL⟩
        · rw [hh] at h1; cases h1
        · rw [hh] at h1
          have : L = L1 := by simpa using h1
          subst this
          rw [has_entry_unique L k' w' w hL he2 he1]
    · exact absurd hs' (hns2 w)
  · rw [e]
    rcases btree_search_stored (btree_insert t k v).2 k' hok' with ⟨w', hs2, _⟩ | ⟨_, e2⟩
    · rcases (stored_value_insert t k v k' w' hok).mp hs2 with ⟨_, e3, _⟩ | ⟨_, hs3⟩
      · exact absurd e3 hne
      · exact absurd hs3 (hns w')
    · exact e2

/-- Witness for C30: on the tree after `insert(5, 50)`, `insert(3, 30)` leaves
the result of `btree_search(5)` as it was. -/
theorem btree_insert_other_keys_witness :
    Reachable (btree_insert btree_create 5 50).2 ∧ (5 : Nat) ≠ 3 ∧
    btree_search (btree_insert (btree_insert btree_create 5 50).2 3 30).2 5 =
      btree_search (btree_insert btree_create 5 50).2 5 :=
  ⟨Reachable.insert _ 5 50 Reachable.create, by decide,
    btree_insert_other_keys (btree_insert btree_create 5 50).2 3 30 5
      (Reachable.insert _ 5 50 Reachable.create) (by decide)⟩

/-! ## Buffer pool: the clock hand -/

/-- C21 (code at the failing input): in a fresh pool of three frames the calls
`get_page(1)`, `get_page(2)`, `get_page(3)` are three misses that all return
frame 0 and leave the clock hand at 0: afterwards only page 3 is resident and
pages 1 and 2 are not; `get_page(4)` then replaces page 3 in frame 0, and
`get_page(1)` is a miss (the fifth). -/
theorem clock_reuses_frame_zero :
    (pool_run pool_three 0 [PoolOp.get 1, PoolOp.get 2, PoolOp.get 3]).map
        (fun r => (r.1, r.2.1.pages.map (fun pg => pg.page_id), r.2.2,
          find_page r.2.1 1, find_page r.2.1 2)) =
      some ([PoolResult.frame (some 0), PoolResult.frame (some 0), PoolResult.frame (some 0)],
        [3, 0, 0], 0, none, none) ∧
    (pool_run pool_three 0 [PoolOp.get 1, PoolOp.get 2, PoolOp.get 3, PoolOp.get 4]).map
        (fun r => r.2.1.pages.map (fun pg => pg.page_id)) = some [4, 0, 0] ∧
    (pool_run pool_three 0
        [PoolOp.get 1, PoolOp.get 2, PoolOp.get 3, PoolOp.get 4, PoolOp.get 1]).map
        (fun r => (r.2.1.hits, r.2.1.misses)) = some (0, 5) := by
  decide

theorem find_victim_scan_loop (pool : ObeliskBufferPool) (start : Nat) :
    ∀ (fuel ch : Nat),
      ((find_victim_scan pool start fuel ch).1, (find_victim_scan pool start fuel ch).2.1) =
        find_victim_loop pool start fuel ch := by
  intro fuel
  induction fuel with
  | zero => intro ch; rfl
  | succ fuel ih =>
    intro ch
    rw [find_victim_scan, find_victim_loop]
    cases pool.pages[ch]? with
    | none => rfl
    | some pg =>
      dsimp only
      split
      · rfl
      · split
        · exact ih _
        · rfl

theorem find_victim_scan_bounds (pool : ObeliskBufferPool) (start : Nat) :
    ∀ (fuel ch : Nat), ch < pool_size pool →
      (∀ i, i ∈ (find_victim_scan pool start fuel ch).2.2 → i < pool_size pool) ∧
      (find_victim_scan pool start fuel ch).2.1 < pool_size pool := by
  intro fuel
  induction fuel with
  | zero => intro ch hch; exact ⟨fun i hi => (by cases hi), hch⟩
  | succ fuel ih =>
    intro ch hch
    have hmod : (ch + 1) % pool_size pool < pool_size pool := Nat.mod_lt _ (by omega)
    rw [find_victim_scan]
    cases pool.pages[ch]? with
    | none =>
      refine ⟨fun i hi => ?_, hch⟩
      rw [List.mem_singleton.mp hi]; exact hch
    | some pg =>
      dsimp only
      split
      · refine ⟨fun i hi => ?_, hch⟩
        rw [List.mem_singleton.mp hi]; exact hch
      · split
        · obtain ⟨a, b⟩ := ih _ hmod
          refine ⟨fun i hi => ?_, b⟩
          rcases List.mem_cons.mp hi with h | h
          · rw [h]; exact hch
          · exact a i h
        · refine ⟨fun i hi => ?_, hmod⟩
          rw [List.mem_singleton.mp hi]; exact hch

theorem find_victim_scan_length (pool : ObeliskBufferPool) (start : Nat)
    (hs : start < pool_size pool) :
    ∀ (fuel k : Nat), k < pool_size pool →
      (find_victim_scan pool start fuel ((start + k) % pool_size pool)).2.2.length ≤
        pool_size pool - k := by
  intro fuel
  induction fuel with
  | zero => intro k _; exact Nat.zero_le _
  | succ fuel ih =>
    intro k hk
    rw [find_victim_scan]
    cases pool.pages[(start + k) % pool_size pool]? with
    | none => show 1 ≤ _; omega
    | some pg =>
      dsimp only
      split
      · show 1 ≤ _; omega
      · have e : ((start + k) % pool_size pool + 1) % pool_size pool =
            (start + (k + 1)) % pool_size pool := by
          rw [Nat.mod_add_mod]; rfl
        rw [e]
        split
        · rename_i c2
          have hk1 : k + 1 < pool_size pool := by
            by_contra hge
            have : k + 1 = pool_size pool := by omega
            rw [this, Nat.add_mod_right, Nat.mod_eq_of_lt hs] at c2
            exact c2 rfl
          have := ih (k + 1) hk1
          show (find_victim_scan pool start fuel ((start + (k + 1)) % pool_size pool)).2.2.length
            + 1 ≤ _
          omega
        · show 1 ≤ _; omega

theorem find_victim_page_hand (pool : ObeliskBufferPool) (clock_hand : Nat)
    (h : clock_hand < pool_size pool) :
    (find_victim_page pool clock_hand).2 < pool_size pool := by
  have e := find_victim_scan_loop pool clock_hand (pool_size pool) clock_hand
  have b := (find_victim_scan_bounds pool clock_hand (pool_size pool) clock_hand h).2
  rw [find_victim_page_eq pool clock_hand h, ← e]
  exact b

theorem get_page_hand (pool : ObeliskBufferPool) (clock_hand page_id : Nat) (r : GetPage)
    (h : clock_hand < pool_size pool)
    (hg : buffer_pool_get_page pool clock_hand page_id = some r) :
    pool_size r.pool = pool_size pool ∧ r.clock_hand < pool_size pool := by
  unfold buffer_pool_get_page at hg
  cases hf : find_page pool page_id with
  | some i =>
    rw [hf] at hg
    dsimp only at hg
    cases hp : pool.pages[i]? with
    | none => rw [hp] at hg; cases hg
    | some pg =>
      rw [hp] at hg
      dsimp only at hg
      have hr := Option.some.inj hg
      subst hr
      refine ⟨?_, h⟩
      show (pool.pages.set i _).length = pool.pages.length
      exact List.length_set _ _ _
  | none =>
    rw [hf] at hg
    dsimp only at hg
    have hh := find_victim_page_hand { pool with misses := incr64 pool.misses } clock_hand h
    cases hv : find_victim_page { pool with misses := incr64 pool.misses } clock_hand with
    | mk res ch =>
      rw [hv] at hg hh
      cases res with
      | out_of_bounds => cases hg
      | null =>
        dsimp only at hg
        have hr := Option.some.inj hg
        subst hr
        exact ⟨rfl, hh⟩
      | frame i =>
        dsimp only at hg
        cases hp : pool.pages[i]? with
        | none =>
          have hp' : ({ pool with misses := incr64 pool.misses } : ObeliskBufferPool).pages[i]? =
              none := hp
          rw [hp'] at hg
          cases hg
        | some pg =>
          have hp' : ({ pool with misses := incr64 pool.misses } : ObeliskBufferPool).pages[i]? =
              some pg := hp
          rw [hp'] at hg
          dsimp only at hg
          have hr := Option.some.inj hg
          subst hr
          refine ⟨?_, hh⟩
          show (List.set _ i _).length = pool.pages.length
          rw [List.length_set]
          split <;> rfl

/-- C22 (as stated, refuted): on a fresh pool A of two frames
`get_page(A, 5)` selects frame 0 when the clock hand is where process start
left it; after `pin_page(B, 0)` and `get_page(B, 5)` on another pool B of three
frames the hand is at 1 and the same call on A selects frame 1; after two more
calls on B the hand is at 2, and the scan of A starts by reading `pages[2]`,
past A's two frames. -/
theorem clock_hand_shared_between_pools :
    (buffer_pool_get_page pool_two 0 5).map (fun r => r.frame) = some (some 0) ∧
    (pool_run pool_three 0 [PoolOp.pin 0, PoolOp.get 5]).map (fun r => r.2.2) = some 1 ∧
    (buffer_pool_get_page pool_two 1 5).map (fun r => r.frame) = some (some 1) ∧
    (pool_run pool_three 0 [PoolOp.pin 0, PoolOp.get 5, PoolOp.pin 5, PoolOp.get 6]).map
      (fun r => r.2.2) = some 2 ∧
    (find_victim_scan pool_two 2 (pool_size pool_two) 2).2.2 = [2] ∧
    buffer_pool_get_page pool_two 2 5 = none := by
  decide

/-- C22 (amended): the eviction scan position is one process-wide clock hand
shared by all pools, so calls on a pool B can change which frame a later
`buffer_pool_get_page` on A selects. When the hand is below A's `pool_size` as
the scan starts (as it stays while A is the only pool used: `get_page` leaves
it below `pool_size`), the victim scan of A reads only frames with index below
`pool_size`, makes at most `pool_size` reads however much fuel it is given, and
leaves the hand below `pool_size`. -/
theorem victim_scan_within_pool (pool : ObeliskBufferPool) (clock_hand : Nat)
    (h : clock_hand < pool_size pool) :
    (∀ fuel, ((find_victim_scan pool clock_hand fuel clock_hand).1,
        (find_victim_scan pool clock_hand fuel clock_hand).2.1) =
      find_victim_loop pool clock_hand fuel clock_hand) ∧
    (∀ fuel i, i ∈ (find_victim_scan pool clock_hand fuel clock_hand).2.2 →
      i < pool_size pool) ∧
    (∀ fuel, (find_victim_scan pool clock_hand fuel clock_hand).2.2.length ≤ pool_size pool) ∧
    (∀ fuel, pool_size pool ≤ fuel →
      find_victim_loop pool clock_hand fuel clock_hand = find_victim_page pool clock_hand) ∧
    (find_victim_page pool clock_hand).2 < pool_size pool ∧
    (∀ (page_id : Nat) (r : GetPage),
      buffer_pool_get_page pool clock_hand page_id = some r →
      pool_size r.pool = pool_size pool ∧ r.clock_hand < pool_size r.pool) := by
  have h0 : (clock_hand + 0) % pool_size pool = clock_hand := Nat.mod_eq_of_lt h
  refine ⟨fun fuel => find_victim_scan_loop pool clock_hand fuel clock_hand,
    fun fuel i hi => (find_victim_scan_bounds pool clock_hand fuel clock_hand h).1 i hi,
    fun fuel => ?_, fun fuel hf => ?_, find_victim_page_hand pool clock_hand h,
    fun page_id r hg => ?_⟩
  · have := find_victim_scan_length pool clock_hand h fuel 0 (by omega)
    rw [h0] at this
    exact this
  · have := find_victim_loop_fuel pool clock_hand h fuel 0 (by omega) (by omega)
    rw [h0] at this
    rw [find_victim_page_eq pool clock_hand h]
    exact this
  · obtain ⟨a, b⟩ := get_page_hand pool clock_hand page_id r h hg
    exact ⟨a, by rw [a]; exact b⟩

/-- Witness for C22: the pool of two frames with frame 0 pinned, clock hand 0:
the scan reads frames 0 and 1 and leaves the hand at 1. -/
theorem victim_scan_within_pool_witness :
    (find_victim_scan pool_two_pinned 0 (pool_size pool_two_pinned) 0).2.2 = [0, 1] ∧
    (∀ i, i ∈ (find_victim_scan pool_two_pinned 0 (pool_size pool_two_pinned) 0).2.2 →
      i < pool_size pool_two_pinned) ∧
    (find_victim_page pool_two_pinned 0).2 < pool_size pool_two_pinned :=
  ⟨by decide,
    (victim_scan_within_pool pool_two_pinned 0 (by decide)).2.1 (pool_size pool_two_pinned),
    (victim_scan_within_pool pool_two_pinned 0 (by decide)).2.2.2.2.1⟩

/-- The reads of the victim scan go round the frames in index order from the
clock hand. -/
theorem find_victim_scan_order (pool : ObeliskBufferPool) (start : Nat) :
    ∀ (fuel ch : Nat), ch < pool_size pool →
      ∀ (j : Nat), j < (find_victim_scan pool start fuel ch).2.2.length →
        (find_victim_scan pool start fuel ch).2.2[j]? = some ((ch + j) % pool_size pool) := by
  intro fuel
  induction fuel with
  | zero => intro ch _ j hj; simp [find_victim_scan] at hj
  | succ fuel ih =>
    intro ch hch j hj
    have hn : 0 < pool_size pool := by omega
    have h0 : (ch + 0) % pool_size pool = ch := Nat.mod_eq_of_lt hch
    rw [find_victim_scan] at hj ⊢
    cases hp : pool.pages[ch]? with
    | none =>
      rw [hp] at hj
      dsimp only at hj ⊢
      have : j = 0 := by simpa using hj
      subst this
      simp [Nat.mod_eq_of_lt hch]
    | some pg =>
      rw [hp] at hj
      dsimp only at hj ⊢
      by_cases c : pg.pin_count = 0 ∧ pg.state = ObeliskPageState.OBELISK_PAGE_CLEAN
      · rw [if_pos c] at hj ⊢
        have : j = 0 := by simpa using hj
        subst this
        simp [Nat.mod_eq_of_lt hch]
      · rw [if_neg c] at hj ⊢
        by_cases c2 : (ch + 1) % pool_size pool ≠ start
        · rw [if_pos c2] at hj ⊢
          cases j with
          | zero => simp [Nat.mod_eq_of_lt hch]
          | succ j =>
            have hj' : j < (find_victim_scan pool start fuel
                ((ch + 1) % pool_size pool)).2.2.length := by
              simpa using hj
            have := ih ((ch + 1) % pool_size pool) (Nat.mod_lt _ hn) j hj'
            rw [List.getElem?_cons_succ, this, Nat.mod_add_mod]
            congr 2
            omega
        · rw [if_neg c2] at hj ⊢
          have : j = 0 := by simpa using hj
          subst this
          simp [Nat.mod_eq_of_lt hch]

/-- When the victim scan returns frame `i`, `i` is its last read, frame `i` is
unpinned and clean, and every frame read before it is pinned or not clean. -/
theorem find_victim_scan_first (pool : ObeliskBufferPool) (start : Nat) :
    ∀ (fuel ch i : Nat), (find_victim_scan pool start fuel ch).1 = VictimResult.frame i →
      ∃ pre : List Nat, (find_victim_scan pool start fuel ch).2.2 = pre ++ [i] ∧
        (∀ j, j ∈ pre → ∃ pg : ObeliskPage, pool.pages[j]? = some pg ∧
          ¬ (pg.pin_count = 0 ∧ pg.state = ObeliskPageState.OBELISK_PAGE_CLEAN)) ∧
        ∃ pg : ObeliskPage, pool.pages[i]? = some pg ∧ pg.pin_count = 0 ∧
          pg.state = ObeliskPageState.OBELISK_PAGE_CLEAN := by
  intro fuel
  induction fuel with
  | zero => intro ch i h; simp [find_victim_scan] at h
  | succ fuel ih =>
    intro ch i h
    rw [find_victim_scan] at h ⊢
    cases hp : pool.pages[ch]? with
    | none => rw [hp] at h; cases h
    | some pg =>
      rw [hp] at h
      dsimp only at h ⊢
      by_cases c : pg.pin_count = 0 ∧ pg.state = ObeliskPageState.OBELISK_PAGE_CLEAN
      · rw [if_pos c] at h ⊢
        have e : ch = i := VictimResult.frame.inj h
        subst e
        exact ⟨[], rfl, fun j hj => (by cases hj), pg, hp, c.1, c.2⟩
      · rw [if_neg c] at h ⊢
        by_cases c2 : (ch + 1) % pool_size pool ≠ start
        · rw [if_pos c2] at h ⊢
          obtain ⟨pre, e, hpre, hi⟩ := ih ((ch + 1) % pool_size pool) i h
          refine ⟨ch :: pre, ?_, ?_, hi⟩
          · show ch :: _ = ch :: pre ++ [i]
            rw [e]; rfl
          · intro j hj
            rcases List.mem_cons.mp hj with rfl | hj
            · exact ⟨pg, hp, c⟩
            · exact hpre j hj
        · rw [if_neg c2] at h
          cases h

/-- On a miss that returns a frame, the frame is the one `find_victim_page`
selects in the pool. -/
theorem get_page_miss_victim (pool : ObeliskBufferPool) (clock_hand page_id : Nat)
    (r : GetPage) (i : Nat)
    (hg : buffer_pool_get_page pool clock_hand page_id = some r)
    (hf : find_page pool page_id = none) (hr : r.frame = some i) :
    (find_victim_page pool clock_hand).1 = VictimResult.frame i := by
  unfold buffer_pool_get_page at hg
  rw [hf] at hg
  dsimp only at hg
  have e : find_victim_page { pool with misses := incr64 pool.misses } clock_hand =
      find_victim_page pool clock_hand :=
    find_victim_page_frames { pool with misses := incr64 pool.misses } pool rfl clock_hand
  rw [e] at hg
  cases hv : find_victim_page pool clock_hand with
  | mk res ch =>
    rw [hv] at hg
    cases res with
    | out_of_bounds => cases hg
    | null =>
      dsimp only at hg
      have := Option.some.inj hg
      subst this
      cases hr
    | frame k =>
      dsimp only at hg
      cases hp : pool.pages[k]? with
      | none =>
        have hp' : ({ pool with misses := incr64 pool.misses } : ObeliskBufferPool).pages[k]? =
            none := hp
        rw [hp'] at hg
        cases hg
      | some pg =>
        have hp' : ({ pool with misses := incr64 pool.misses } : ObeliskBufferPool).pages[k]? =
            some pg := hp
        rw [hp'] at hg
        dsimp only at hg
        have := Option.some.inj hg
        subst this
        have : k = i := Option.some.inj hr
        subst this
        rfl

/-- C23 (as stated, refuted): `buffer_pool_create` sets the policy to LRU, not
Clock; and in a pool of two frames under `OBELISK_POLICY_LRU` whose unpinned
frames 0 and 1 have `last_accessed` 3 and 2, the miss `get_page(9)` takes
frame 0, the more recently used one. -/
theorem lru_policy_not_followed :
    (buffer_pool_create ⟨2, 4096, false, 0⟩).policy =
      ObeliskReplacementPolicy.OBELISK_POLICY_LRU ∧
    pool_lru_used.map (fun r => (r.2.1.policy,
        r.2.1.pages.map (fun pg => (pg.page_id, pg.pin_count, pg.last_accessed)), r.2.2)) =
      some (ObeliskReplacementPolicy.OBELISK_POLICY_LRU, [(5, 0, 3), (0, 0, 2)], 0) ∧
    (pool_lru_used.bind (fun r => buffer_pool_get_page r.2.1 r.2.2 9)).map
        (fun r => (r.frame, r.pool.misses,
          r.pool.pages.map (fun pg => (pg.page_id, pg.pin_count, pg.last_accessed)))) =
      some (some 0, 2, [(9, 0, 3), (0, 0, 2)]) :=
  ⟨by decide, by decide, by decide⟩

/-- C23 (amended): a newly created pool has policy `OBELISK_POLICY_LRU`;
`buffer_pool_set_policy` returns 0 and only stores the policy; what
`buffer_pool_get_page` returns and does to the frames and the clock hand is the
same under every policy; and with the clock hand below `pool_size`, the victim
chosen on a miss is the first frame in index order from the clock hand, going
round, that is unpinned and Clean: every frame read before it is pinned or not
Clean, whatever the `last_accessed` values. -/
theorem victim_first_unpinned_clean (pool : ObeliskBufferPool) (clock_hand : Nat)
    (config : ObeliskBufferPoolConfig) (h : clock_hand < pool_size pool) :
    (buffer_pool_create config).policy = ObeliskReplacementPolicy.OBELISK_POLICY_LRU ∧
    (∀ policy, buffer_pool_set_policy pool policy = (0, { pool with policy := policy })) ∧
    (∀ policy page_id,
      (buffer_pool_get_page (buffer_pool_set_policy pool policy).2 clock_hand page_id).map
          (fun r => (PoolResult.frame r.frame, frames r.pool, r.clock_hand)) =
        (buffer_pool_get_page pool clock_hand page_id).map
          (fun r => (PoolResult.frame r.frame, frames r.pool, r.clock_hand))) ∧
    (∀ (page_id : Nat) (r : GetPage) (i : Nat),
      buffer_pool_get_page pool clock_hand page_id = some r →
      find_page pool page_id = none → r.frame = some i →
      (find_victim_page pool clock_hand).1 = VictimResult.frame i) ∧
    (∀ (i : Nat), (find_victim_page pool clock_hand).1 = VictimResult.frame i →
      ∃ pre : List Nat,
        (find_victim_scan pool clock_hand (pool_size pool) clock_hand).2.2 = pre ++ [i] ∧
        (∀ (j : Nat), j < (pre ++ [i]).length →
          (pre ++ [i])[j]? = some ((clock_hand + j) % pool_size pool)) ∧
        (∀ j, j ∈ pre → ∃ pg : ObeliskPage, pool.pages[j]? = some pg ∧
          ¬ (pg.pin_count = 0 ∧ pg.state = ObeliskPageState.OBELISK_PAGE_CLEAN)) ∧
        ∃ pg : ObeliskPage, pool.pages[i]? = some pg ∧ pg.pin_count = 0 ∧
          pg.state = ObeliskPageState.OBELISK_PAGE_CLEAN) := by
  refine ⟨rfl, fun _ => rfl, fun policy page_id => ?_, fun page_id r i hg hf hr => ?_,
    fun i hi => ?_⟩
  · exact get_page_frames (buffer_pool_set_policy pool policy).2 pool rfl clock_hand page_id
  · exact get_page_miss_victim pool clock_hand page_id r i hg hf hr
  · rw [find_victim_page_eq pool clock_hand h] at hi
    have e := find_victim_scan_loop pool clock_hand (pool_size pool) clock_hand
    have hi' : (find_victim_scan pool clock_hand (pool_size pool) clock_hand).1 =
        VictimResult.frame i := by
      have := congrArg Prod.fst e
      exact this.trans hi
    obtain ⟨pre, e1, hpre, hpg⟩ :=
      find_victim_scan_first pool clock_hand (pool_size pool) clock_hand i hi'
    refine ⟨pre, e1, ?_, hpre, hpg⟩
    intro j hj
    have := find_victim_scan_order pool clock_hand (pool_size pool) clock_hand h j
      (by rw [e1]; exact hj)
    rw [e1] at this
    exact this

/-- Witness for C23: the pool of two frames with frame 0 pinned, clock hand 0:
the victim is frame 1, read after frame 0. -/
theorem victim_first_unpinned_clean_witness :
    (find_victim_page pool_two_pinned 0).1 = VictimResult.frame 1 ∧
    ∃ pre : List Nat,
      (find_victim_scan pool_two_pinned 0 (pool_size pool_two_pinned) 0).2.2 = pre ++ [1] ∧
      (∀ (j : Nat), j < (pre ++ [1]).length →
        (pre ++ [1])[j]? = some ((0 + j) % pool_size pool_two_pinned)) ∧
      (∀ j, j ∈ pre → ∃ pg : ObeliskPage, pool_two_pinned.pages[j]? = some pg ∧
        ¬ (pg.pin_count = 0 ∧ pg.state = ObeliskPageState.OBELISK_PAGE_CLEAN)) ∧
      ∃ pg : ObeliskPage, pool_two_pinned.pages[1]? = some pg ∧ pg.pin_count = 0 ∧
        pg.state = ObeliskPageState.OBELISK_PAGE_CLEAN :=
  ⟨by decide,
    (victim_first_unpinned_clean pool_two_pinned 0 ⟨2, 4096, false, 0⟩ (by decide)).2.2.2.2 1
      (by decide)⟩

theorem lock_index_some (locked : List Nat) (r : Nat) :
    ∀ (fuel i k : Nat), lock_index locked r fuel i = some k →
      k < locked.length ∧ rd locked k = r := by
  intro fuel
  induction fuel with
  | zero => intro i k h; simp [lock_index] at h
  | succ fuel ih =>
    intro i k h
    rw [lock_index] at h
    by_cases hi : i < locked.length
    · rw [if_pos hi] at h
      by_cases h3 : rd locked i = r
      · rw [if_pos h3] at h
        have := Option.some.inj h
        subst this
        exact ⟨hi, h3⟩
      · rw [if_neg h3] at h
        exact ih (i + 1) k h
    · rw [if_neg hi] at h
      cases h

/-- The search of the lock array finds `r` exactly when `r` is in it. -/
theorem txn_has_lock_iff (txn : ObeliskTransaction) (r : Nat) (mode : ObeliskLockMode) :
    txn_has_lock txn r mode = true ↔ r ∈ txn.locked_resources := by
  unfold txn_has_lock
  cases hl : lock_index txn.locked_resources r txn.locked_resources.length 0 with
  | some k =>
    obtain ⟨hk, e⟩ := lock_index_some _ _ _ _ _ hl
    refine ⟨fun _ => ?_, fun _ => rfl⟩
    rw [← e]
    unfold rd
    rw [List.getD_eq_getElem?_getD, List.getElem?_eq_getElem hk]
    exact List.getElem_mem hk
  | none =>
    refine ⟨fun h => (by cases h), fun h => ?_⟩
    obtain ⟨j, hj, e⟩ := List.getElem_of_mem h
    have := lock_index_none _ r _ 0 (by omega) hl j (Nat.zero_le _) hj
    exfalso
    apply this
    unfold rd
    rw [List.getD_eq_getElem?_getD, List.getElem?_eq_getElem hj]
    exact e

/-- What `txn_acquire_lock` does on an Active transaction: it returns 0, adds
the resource to the lock array if it is not there, and changes nothing else. -/
theorem txn_acquire_lock_spec (txn : ObeliskTransaction) (r : Nat) (mode : ObeliskLockMode)
    (h : txn.state = ObeliskTransactionState.OBELISK_TXN_ACTIVE) :
    (txn_acquire_lock txn r mode).1 = 0 ∧
    (txn_acquire_lock txn r mode).2 =
      { txn with locked_resources :=
          if r ∈ txn.locked_resources then txn.locked_resources
          else txn.locked_resources ++ [r] } := by
  have hm := txn_has_lock_iff txn r mode
  unfold txn_has_lock at hm
  unfold txn_acquire_lock
  rw [if_neg (by rw [h]; decide)]
  cases hl : lock_index txn.locked_resources r txn.locked_resources.length 0 with
  | some k =>
    rw [hl] at hm
    rw [if_pos (hm.mp rfl)]
    exact ⟨rfl, rfl⟩
  | none =>
    rw [hl] at hm
    have : ¬ r ∈ txn.locked_resources := fun c => by cases hm.mpr c
    rw [if_neg this]
    exact ⟨rfl, rfl⟩

theorem txn_acquire_lock_mem (txn : ObeliskTransaction) (r : Nat) (mode : ObeliskLockMode)
    (h : txn.state = ObeliskTransactionState.OBELISK_TXN_ACTIVE) (x : Nat) :
    (txn_acquire_lock txn r mode).2.state = ObeliskTransactionState.OBELISK_TXN_ACTIVE ∧
    (x ∈ (txn_acquire_lock txn r mode).2.locked_resources ↔
      x ∈ txn.locked_resources ∨ x = r) := by
  rw [(txn_acquire_lock_spec txn r mode h).2]
  refine ⟨h, ?_⟩
  dsimp only
  by_cases c : r ∈ txn.locked_resources
  · rw [if_pos c]
    constructor
    · exact Or.inl
    · rintro (hx | rfl)
      · exact hx
      · exact c
  · rw [if_neg c]
    simp

/-- C24 (as stated, refuted): transactions 1 and 2 of one manager acquire
resources 1 and 2 crosswise in exclusive mode. All four calls return 0 and
both transactions hold both resources; `txn_detect_deadlocks` returns `NULL`
with `*num_deadlocks = 0`, `txn_resolve_deadlock` returns `-1`, and both
transactions then commit: none is aborted. -/
theorem crossed_locks_no_victim :
    txn_crossed.1 = [0, 0, 0, 0] ∧
    txn_crossed.2.1.locked_resources = [1, 2] ∧
    txn_crossed.2.2.locked_resources = [2, 1] ∧
    txn_detect_deadlocks txn_second.2 (some 7) = (none, some 0) ∧
    txn_resolve_deadlock txn_second.2 (some ⟨2, 1, 1, 0⟩) = -1 ∧
    (txn_commit txn_crossed.2.1 txn_second.2 5 true).1 = 0 ∧
    (txn_commit txn_crossed.2.1 txn_second.2 5 true).2.1.state =
      ObeliskTransactionState.OBELISK_TXN_COMMITTED ∧
    (txn_commit txn_crossed.2.2 (txn_commit txn_crossed.2.1 txn_second.2 5 true).2.2 6 true).1
      = 0 ∧
    (txn_commit txn_crossed.2.2
      (txn_commit txn_crossed.2.1 txn_second.2 5 true).2.2 6 true).2.1.state =
      ObeliskTransactionState.OBELISK_TXN_COMMITTED :=
  ⟨by decide, by decide, by decide, by decide, by decide, by decide, by decide, by decide,
    by decide⟩

/-- C24 (amended): there is no deadlock handling. When two Active transactions
acquire resources `a` then `b` and `b` then `a`, all four `txn_acquire_lock`
calls return 0, both transactions stay Active and both hold `a` and `b`;
`txn_detect_deadlocks` returns `NULL` and sets `*num_deadlocks` to 0 on every
manager; `txn_resolve_deadlock` returns `-1`; and each of the two transactions
commits (status 0, state Committed) when its log write succeeds. -/
theorem crossed_locks_both_commit (t1 t2 : ObeliskTransaction) (a b : Nat)
    (mode : ObeliskLockMode)
    (h1 : t1.state = ObeliskTransactionState.OBELISK_TXN_ACTIVE)
    (h2 : t2.state = ObeliskTransactionState.OBELISK_TXN_ACTIVE) :
    (txn_cross_acquire t1 t2 a b mode).1 = [0, 0, 0, 0] ∧
    (txn_cross_acquire t1 t2 a b mode).2.1.state = ObeliskTransactionState.OBELISK_TXN_ACTIVE ∧
    (txn_cross_acquire t1 t2 a b mode).2.2.state = ObeliskTransactionState.OBELISK_TXN_ACTIVE ∧
    (∀ mode', txn_has_lock (txn_cross_acquire t1 t2 a b mode).2.1 a mode' = true ∧
      txn_has_lock (txn_cross_acquire t1 t2 a b mode).2.1 b mode' = true ∧
      txn_has_lock (txn_cross_acquire t1 t2 a b mode).2.2 a mode' = true ∧
      txn_has_lock (txn_cross_acquire t1 t2 a b mode).2.2 b mode' = true) ∧
    (∀ manager num_deadlocks,
      txn_detect_deadlocks manager num_deadlocks = (none, num_deadlocks.map (fun _ => 0))) ∧
    (∀ manager deadlock, txn_resolve_deadlock manager deadlock = -1) ∧
    (∀ manager now,
      (txn_commit (txn_cross_acquire t1 t2 a b mode).2.1 manager now true).1 = 0 ∧
      (txn_commit (txn_cross_acquire t1 t2 a b mode).2.1 manager now true).2.1.state =
        ObeliskTransactionState.OBELISK_TXN_COMMITTED) ∧
    (∀ manager now,
      (txn_commit (txn_cross_acquire t1 t2 a b mode).2.2 manager now true).1 = 0 ∧
      (txn_commit (txn_cross_acquire t1 t2 a b mode).2.2 manager now true).2.1.state =
        ObeliskTransactionState.OBELISK_TXN_COMMITTED) := by
  have s1 := txn_acquire_lock_spec t1 a mode h1
  have s2 := txn_acquire_lock_spec t2 b mode h2
  have a1 : (txn_acquire_lock t1 a mode).2.state = ObeliskTransactionState.OBELISK_TXN_ACTIVE :=
    (txn_acquire_lock_mem t1 a mode h1 a).1
  have a2 : (txn_acquire_lock t2 b mode).2.state = ObeliskTransactionState.OBELISK_TXN_ACTIVE :=
    (txn_acquire_lock_mem t2 b mode h2 b).1
  have s3 := txn_acquire_lock_spec (txn_acquire_lock t1 a mode).2 b mode a1
  have s4 := txn_acquire_lock_spec (txn_acquire_lock t2 b mode).2 a mode a2
  have e1 : (txn_cross_acquire t1 t2 a b mode).2.1 =
      (txn_acquire_lock (txn_acquire_lock t1 a mode).2 b mode).2 := rfl
  have e2 : (txn_cross_acquire t1 t2 a b mode).2.2 =
      (txn_acquire_lock (txn_acquire_lock t2 b mode).2 a mode).2 := rfl
  have f1 : (txn_cross_acquire t1 t2 a b mode).2.1.state =
      ObeliskTransactionState.OBELISK_TXN_ACTIVE := by
    rw [e1]; exact (txn_acquire_lock_mem _ b mode a1 b).1
  have f2 : (txn_cross_acquire t1 t2 a b mode).2.2.state =
      ObeliskTransactionState.OBELISK_TXN_ACTIVE := by
    rw [e2]; exact (txn_acquire_lock_mem _ a mode a2 a).1
  refine ⟨?_, f1, f2, fun mode' => ⟨?_, ?_, ?_, ?_⟩, fun _ _ => rfl, fun _ _ => rfl,
    fun manager now => ?_, fun manager now => ?_⟩
  · show [(txn_acquire_lock t1 a mode).1, (txn_acquire_lock t2 b mode).1,
      (txn_acquire_lock (txn_acquire_lock t1 a mode).2 b mode).1,
      (txn_acquire_lock (txn_acquire_lock t2 b mode).2 a mode).1] = [0, 0, 0, 0]
    rw [s1.1, s2.1, s3.1, s4.1]
  · rw [txn_has_lock_iff, e1, (txn_acquire_lock_mem _ b mode a1 a).2,
      (txn_acquire_lock_mem t1 a mode h1 a).2]
    exact Or.inl (Or.inr rfl)
  · rw [txn_has_lock_iff, e1, (txn_acquire_lock_mem _ b mode a1 b).2]
    exact Or.inr rfl
  · rw [txn_has_lock_iff, e2, (txn_acquire_lock_mem _ a mode a2 a).2]
    exact Or.inr rfl
  · rw [txn_has_lock_iff, e2, (txn_acquire_lock_mem _ a mode a2 b).2,
      (txn_acquire_lock_mem t2 b mode h2 b).2]
    exact Or.inl (Or.inr rfl)
  · have := txn_commit_log _ manager now f1
    exact ⟨this.1, this.2.2⟩
  · have := txn_commit_log _ manager now f2
    exact ⟨this.1, this.2.2⟩

/-- Witness for C24: the first two transactions of a manager, resources 1
and 2, exclusive mode. -/
theorem crossed_locks_both_commit_witness :
    txn_first.1.state = ObeliskTransactionState.OBELISK_TXN_ACTIVE ∧
    txn_second.1.state = ObeliskTransactionState.OBELISK_TXN_ACTIVE ∧
    (txn_cross_acquire txn_first.1 txn_second.1 1 2
      ObeliskLockMode.OBELISK_LOCK_EXCLUSIVE).1 = [0, 0, 0, 0] ∧
    (txn_commit (txn_cross_acquire txn_first.1 txn_second.1 1 2
      ObeliskLockMode.OBELISK_LOCK_EXCLUSIVE).2.2 txn_second.2 9 true).1 = 0 :=
  ⟨by decide, by decide,
    (crossed_locks_both_commit txn_first.1 txn_second.1 1 2
      ObeliskLockMode.OBELISK_LOCK_EXCLUSIVE (by decide) (by decide)).1,
    ((crossed_locks_both_commit txn_first.1 txn_second.1 1 2
      ObeliskLockMode.OBELISK_LOCK_EXCLUSIVE (by decide) (by decide)).2.2.2.2.2.2.2
        txn_second.2 9).1⟩

theorem txn_write_log_record_active (txn : ObeliskTransaction)
    (manager : ObeliskTransactionManager) (record : ObeliskLogRecord) (write_ok : Bool) :
    (txn_write_log_record txn manager record write_ok).2.2.active_txns =
      manager.active_txns := by
  unfold txn_write_log_record
  cases write_ok <;> rfl

theorem txn_commit_active (txn : ObeliskTransaction) (manager : ObeliskTransactionManager)
    (now : Nat) (write_ok : Bool) :
    (txn_commit txn manager now write_ok).2.2.active_txns = manager.active_txns := by
  unfold txn_commit
  split
  · rfl
  · dsimp only
    split
    · exact txn_write_log_record_active _ _ _ _
    · exact txn_write_log_record_active _ _ _ _

theorem txn_abort_active (txn : ObeliskTransaction) (manager : ObeliskTransactionManager)
    (now : Nat) (write_ok : Bool) :
    (txn_abort txn manager now write_ok).2.2.active_txns = manager.active_txns := by
  unfold txn_abort
  split
  · rfl
  · exact txn_write_log_record_active _ _ _ _

theorem txn_begin_active (manager : ObeliskTransactionManager) (addr now now_log : Nat)
    (write_ok : Bool) :
    (txn_begin manager addr now now_log write_ok).2.active_txns =
      manager.active_txns ++ [addr] := by
  cases write_ok <;> simp [txn_begin, create_transaction, txn_write_log_record]

/-- C28 (as stated, refuted): a transaction is begun at address 1 and
committed; `txn_commit` returns 0, the transaction is Committed, and the
manager's `active_txns` still holds address 1. The same after `txn_abort`. -/
theorem committed_txn_stays_registered :
    txn_first.2.active_txns = [1] ∧
    (txn_commit txn_first.1 txn_first.2 5 true).1 = 0 ∧
    (txn_commit txn_first.1 txn_first.2 5 true).2.1.state =
      ObeliskTransactionState.OBELISK_TXN_COMMITTED ∧
    (txn_commit txn_first.1 txn_first.2 5 true).2.2.active_txns = [1] ∧
    (txn_abort txn_first.1 txn_first.2 5 true).1 = 0 ∧
    (txn_abort txn_first.1 txn_first.2 5 true).2.1.state =
      ObeliskTransactionState.OBELISK_TXN_ABORTED ∧
    (txn_abort txn_first.1 txn_first.2 5 true).2.2.active_txns = [1] :=
  ⟨by decide, by decide, by decide, by decide, by decide, by decide, by decide⟩

/-- C28 (amended): `txn_begin` appends the new transaction to the manager's
`active_txns`, and `txn_commit`, `txn_abort` and `txn_write_log_record` leave
the list as it is; so after any sequence of these calls the list is the
initial one followed by every transaction begun, in order of the `txn_begin`
calls, whether Active, Committed or Aborted. -/
theorem active_txns_only_grows (manager : ObeliskTransactionManager) (ops : List MgrOp) :
    (∀ addr now now_log write_ok,
      (txn_begin manager addr now now_log write_ok).2.active_txns =
        manager.active_txns ++ [addr]) ∧
    (∀ txn now write_ok,
      (txn_commit txn manager now write_ok).2.2.active_txns = manager.active_txns) ∧
    (∀ txn now write_ok,
      (txn_abort txn manager now write_ok).2.2.active_txns = manager.active_txns) ∧
    (mgr_run manager ops).2.active_txns = manager.active_txns ++ ops_begun ops := by
  refine ⟨txn_begin_active manager, fun txn => txn_commit_active txn manager,
    fun txn => txn_abort_active txn manager, ?_⟩
  induction ops generalizing manager with
  | nil => simp [mgr_run, ops_begun]
  | cons op ops ih =>
    cases op with
    | begin addr now now_log write_ok =>
      simp only [mgr_run, ops_begun]
      rw [ih, txn_begin_active, List.append_assoc]
      rfl
    | commit txn now write_ok =>
      simp only [mgr_run, ops_begun]
      rw [ih, txn_commit_active]
    | abort txn now write_ok =>
      simp only [mgr_run, ops_begun]
      rw [ih, txn_abort_active]
    | write txn record write_ok =>
      simp only [mgr_run, ops_begun]
      rw [ih, txn_write_log_record_active]

/-! ## Transactions: the lock list as a set -/

theorem eraseIdx_eq_filter :
    ∀ (l : List Nat) (k : Nat) (hk : k < l.length), l.Nodup →
      l.eraseIdx k = l.filter (fun x => decide (x ≠ l[k])) := by
  intro l
  induction l with
  | nil => intro k hk; simp at hk
  | cons a l ih =>
    intro k hk hn
    obtain ⟨ha, hl⟩ := List.nodup_cons.mp hn
    cases k with
    | zero =>
      show l = List.filter (fun x => decide (x ≠ a)) (a :: l)
      rw [List.filter_cons_of_neg (by simp)]
      symm
      apply List.filter_eq_self.mpr
      intro x hx
      have : x ≠ a := fun e => ha (e ▸ hx)
      simpa using this
    | succ k =>
      have hk' : k < l.length := by simpa using hk
      show a :: l.eraseIdx k = List.filter (fun x => decide (x ≠ l[k])) (a :: l)
      have : a ≠ l[k] := fun e => ha (e ▸ List.getElem_mem hk')
      rw [List.filter_cons_of_pos (by simpa using this), ih k hk' hl]

/-- What `txn_release_lock` does: on a resource in the lock list it returns 0
and removes one entry holding it; on a resource not in the list it returns
`-1` and changes nothing. -/
theorem txn_release_lock_spec (txn : ObeliskTransaction) (r : Nat) :
    (r ∈ txn.locked_resources →
      ∃ (k : Nat) (hk : k < txn.locked_resources.length), txn.locked_resources[k] = r ∧
        txn_release_lock txn r =
          (0, { txn with locked_resources := txn.locked_resources.eraseIdx k })) ∧
    (¬ r ∈ txn.locked_resources → txn_release_lock txn r = (-1, txn)) := by
  have hm := txn_has_lock_iff txn r ObeliskLockMode.OBELISK_LOCK_SHARED
  unfold txn_has_lock at hm
  unfold txn_release_lock
  cases hl : lock_index txn.locked_resources r txn.locked_resources.length 0 with
  | some k =>
    rw [hl] at hm
    obtain ⟨hk, e⟩ := lock_index_some _ _ _ _ _ hl
    refine ⟨fun _ => ⟨k, hk, ?_, rfl⟩, fun h => absurd (hm.mp rfl) h⟩
    rw [← e]
    unfold rd
    rw [List.getD_eq_getElem?_getD, List.getElem?_eq_getElem hk]
    rfl
  | none =>
    rw [hl] at hm
    exact ⟨fun h => (by cases hm.mpr h), fun _ => rfl⟩

theorem txn_acquire_lock_nodup (txn : ObeliskTransaction) (r : Nat) (mode : ObeliskLockMode)
    (h : txn.locked_resources.Nodup) : (txn_acquire_lock txn r mode).2.locked_resources.Nodup := by
  by_cases hs : txn.state = ObeliskTransactionState.OBELISK_TXN_ACTIVE
  · rw [(txn_acquire_lock_spec txn r mode hs).2]
    dsimp only
    by_cases c : r ∈ txn.locked_resources
    · rw [if_pos c]; exact h
    · rw [if_neg c]
      exact List.Nodup.append h (List.nodup_singleton r) (by
        intro x hx hx'
        rw [List.mem_singleton] at hx'
        exact c (hx' ▸ hx))
  · unfold txn_acquire_lock
    rw [if_pos hs]
    exact h

theorem txn_release_lock_nodup (txn : ObeliskTransaction) (r : Nat)
    (h : txn.locked_resources.Nodup) : (txn_release_lock txn r).2.locked_resources.Nodup := by
  by_cases c : r ∈ txn.locked_resources
  · obtain ⟨k, _, _, e⟩ := (txn_release_lock_spec txn r).1 c
    rw [e]
    exact List.Nodup.sublist (List.eraseIdx_sublist _ _) h
  · rw [(txn_release_lock_spec txn r).2 c]
    exact h

theorem release_locks_loop_nodup :
    ∀ (fuel i : Nat) (txn : ObeliskTransaction), txn.locked_resources.Nodup →
      (release_locks_loop fuel i txn).locked_resources.Nodup := by
  intro fuel
  induction fuel with
  | zero => intro i txn h; exact h
  | succ fuel ih =>
    intro i txn h
    rw [release_locks_loop]
    split
    · exact ih (i + 1) _ (txn_release_lock_nodup txn _ h)
    · exact h

theorem txn_write_log_record_locks (txn : ObeliskTransaction)
    (manager : ObeliskTransactionManager) (record : ObeliskLogRecord) (write_ok : Bool) :
    (txn_write_log_record txn manager record write_ok).2.1.locked_resources =
      txn.locked_resources := by
  unfold txn_write_log_record
  cases write_ok <;> rfl

theorem txn_commit_nodup (txn : ObeliskTransaction) (manager : ObeliskTransactionManager)
    (now : Nat) (write_ok : Bool) (h : txn.locked_resources.Nodup) :
    (txn_commit txn manager now write_ok).2.1.locked_resources.Nodup := by
  have hw := txn_write_log_record_locks txn manager
    (log_record ObeliskLogRecordType.OBELISK_LOG_COMMIT txn.txn_id now) write_ok
  unfold txn_commit
  split
  · exact h
  · dsimp only
    split
    · rw [hw]; exact h
    · exact release_locks_loop_nodup _ 0 _ (by rw [hw]; exact h)

theorem txn_abort_nodup (txn : ObeliskTransaction) (manager : ObeliskTransactionManager)
    (now : Nat) (write_ok : Bool) (h : txn.locked_resources.Nodup) :
    (txn_abort txn manager now write_ok).2.1.locked_resources.Nodup := by
  have hw := txn_write_log_record_locks txn manager
    (log_record ObeliskLogRecordType.OBELISK_LOG_ABORT txn.txn_id now) write_ok
  unfold txn_abort
  split
  · exact h
  · exact release_locks_loop_nodup _ 0 _ (by rw [hw]; exact h)

theorem lock_run_nodup (ops : List LockOp) :
    ∀ (txn : ObeliskTransaction) (manager : ObeliskTransactionManager),
      txn.locked_resources.Nodup → (lock_run txn manager ops).1.locked_resources.Nodup := by
  induction ops with
  | nil => intro txn manager h; exact h
  | cons op ops ih =>
    intro txn manager h
    rw [lock_run]
    apply ih
    cases op with
    | acquire r mode => exact txn_acquire_lock_nodup txn r mode h
    | release r => exact txn_release_lock_nodup txn r h
    | write record write_ok =>
      show (txn_write_log_record txn manager record write_ok).2.1.locked_resources.Nodup
      rw [txn_write_log_record_locks]; exact h
    | commit now write_ok => exact txn_commit_nodup txn manager now write_ok h
    | abort now write_ok => exact txn_abort_nodup txn manager now write_ok h

theorem txn_begin_locks (manager : ObeliskTransactionManager) (addr now now_log : Nat)
    (write_ok : Bool) :
    (txn_begin manager addr now now_log write_ok).1.locked_resources = [] := by
  cases write_ok <;> simp [txn_begin, create_transaction, txn_write_log_record]

theorem txn_reached_nodup (manager : ObeliskTransactionManager) (addr now now_log : Nat)
    (write_ok : Bool) (ops : List LockOp) :
    (txn_reached manager addr now now_log write_ok ops).locked_resources.Nodup := by
  unfold txn_reached
  apply lock_run_nodup
  rw [txn_begin_locks]
  exact List.nodup_nil

theorem txn_has_lock_false_iff (txn : ObeliskTransaction) (r : Nat) (mode : ObeliskLockMode) :
    txn_has_lock txn r mode = false ↔ ¬ r ∈ txn.locked_resources := by
  rw [← txn_has_lock_iff txn r mode]
  cases txn_has_lock txn r mode <;> simp

/-- The round trips of a duplicate-free lock list. -/
theorem lock_list_round_trip (t : ObeliskTransaction) (hn : t.locked_resources.Nodup) :
    (∀ r mode mode',
      ((txn_acquire_lock t r mode).1 = 0 ↔
        t.state = ObeliskTransactionState.OBELISK_TXN_ACTIVE) ∧
      ((txn_acquire_lock t r mode).1 = 0 →
        txn_has_lock (txn_acquire_lock t r mode).2 r mode' = true)) ∧
    (∀ r mode, (txn_release_lock t r).1 = 0 →
      txn_has_lock (txn_release_lock t r).2 r mode = false ∧
      (txn_release_lock t r).2.locked_resources =
        t.locked_resources.filter (fun x => decide (x ≠ r)) ∧
      ∀ x, x ≠ r → txn_has_lock (txn_release_lock t r).2 x mode = txn_has_lock t x mode) ∧
    (∀ r mode, txn_has_lock t r mode = false → txn_release_lock t r = (-1, t)) ∧
    (∀ r mode, txn_has_lock t r mode = true → (txn_release_lock t r).1 = 0) := by
  refine ⟨fun r mode mode' => ?_, fun r mode h0 => ?_, fun r mode h => ?_, fun r mode h => ?_⟩
  · have key : (txn_acquire_lock t r mode).1 = 0 →
        t.state = ObeliskTransactionState.OBELISK_TXN_ACTIVE := by
      intro h0
      by_contra hs
      unfold txn_acquire_lock at h0
      rw [if_pos hs] at h0
      have h1 : (-1 : Int) = 0 := h0
      exact absurd h1 (by decide)
    exact ⟨⟨key, fun hs => (txn_acquire_lock_active t r mode mode' hs).1⟩,
      fun h0 => (txn_acquire_lock_active t r mode mode' (key h0)).2⟩
  · have hr : r ∈ t.locked_resources := by
      by_contra c
      rw [(txn_release_lock_spec t r).2 c] at h0
      have h1 : (-1 : Int) = 0 := h0
      exact absurd h1 (by decide)
    obtain ⟨k, hk, ek, e⟩ := (txn_release_lock_spec t r).1 hr
    have ef : (txn_release_lock t r).2.locked_resources =
        t.locked_resources.filter (fun x => decide (x ≠ r)) := by
      rw [e]
      show t.locked_resources.eraseIdx k = _
      rw [eraseIdx_eq_filter t.locked_resources k hk hn, ek]
    refine ⟨?_, ef, fun x hx => ?_⟩
    · rw [txn_has_lock_false_iff, ef]
      simp
    · rw [Bool.eq_iff_iff, txn_has_lock_iff, txn_has_lock_iff, ef]
      simp [hx]
  · exact (txn_release_lock_spec t r).2 ((txn_has_lock_false_iff t r mode).mp h)
  · obtain ⟨k, hk, ek, e⟩ := (txn_release_lock_spec t r).1 ((txn_has_lock_iff t r mode).mp h)
    rw [e]

/-- C33: the lock list of a transaction returned by `txn_begin`, after any
sequence of `txn_acquire_lock`, `txn_release_lock`, `txn_write_log_record`,
`txn_commit` and `txn_abort` calls on it, holds no resource id twice.
`txn_acquire_lock` returns 0 exactly when the transaction is Active, and then
`txn_has_lock` is true for the resource. When `txn_release_lock(r)` returns 0,
`txn_has_lock(r)` is false afterwards, the lock list is the old one without
`r`, in the same order, and every other resource is held exactly if it was
held before. `txn_release_lock` on a resource not held returns `-1` and
changes nothing, and on a resource held it returns 0. -/
theorem lock_list_is_set (manager : ObeliskTransactionManager) (addr now now_log : Nat)
    (write_ok : Bool) (ops : List LockOp) :
    (txn_reached manager addr now now_log write_ok ops).locked_resources.Nodup ∧
    (∀ r mode mode',
      ((txn_acquire_lock (txn_reached manager addr now now_log write_ok ops) r mode).1 = 0 ↔
        (txn_reached manager addr now now_log write_ok ops).state =
          ObeliskTransactionState.OBELISK_TXN_ACTIVE) ∧
      ((txn_acquire_lock (txn_reached manager addr now now_log write_ok ops) r mode).1 = 0 →
        txn_has_lock
          (txn_acquire_lock (txn_reached manager addr now now_log write_ok ops) r mode).2
          r mode' = true)) ∧
    (∀ r mode,
      (txn_release_lock (txn_reached manager addr now now_log write_ok ops) r).1 = 0 →
      txn_has_lock (txn_release_lock (txn_reached manager addr now now_log write_ok ops) r).2
        r mode = false ∧
      (txn_release_lock (txn_reached manager addr now now_log write_ok ops) r).2.locked_resources
        = (txn_reached manager addr now now_log write_ok ops).locked_resources.filter
            (fun x => decide (x ≠ r)) ∧
      ∀ x, x ≠ r →
        txn_has_lock (txn_release_lock (txn_reached manager addr now now_log write_ok ops) r).2
            x mode =
          txn_has_lock (txn_reached manager addr now now_log write_ok ops) x mode) ∧
    (∀ r mode, txn_has_lock (txn_reached manager addr now now_log write_ok ops) r mode = false →
      txn_release_lock (txn_reached manager addr now now_log write_ok ops) r =
        (-1, txn_reached manager addr now now_log write_ok ops)) ∧
    (∀ r mode, txn_has_lock (txn_reached manager addr now now_log write_ok ops) r mode = true →
      (txn_release_lock (txn_reached manager addr now now_log write_ok ops) r).1 = 0) :=
  ⟨txn_reached_nodup manager addr now now_log write_ok ops,
    lock_list_round_trip _ (txn_reached_nodup manager addr now now_log write_ok ops)⟩

/-- Witness for C33: the first transaction of a fresh manager acquires
resources 1, 2 and 3 and acquires 2 again: it holds `[1, 2, 3]`, and releasing
2 returns 0 and leaves `[1, 3]`. -/
theorem lock_list_is_set_witness :
    (txn_reached (txn_manager_create ⟨0, true, 0⟩ []) 1 0 0 true
      [LockOp.acquire 1 ObeliskLockMode.OBELISK_LOCK_SHARED,
       LockOp.acquire 2 ObeliskLockMode.OBELISK_LOCK_EXCLUSIVE,
       LockOp.acquire 3 ObeliskLockMode.OBELISK_LOCK_SHARED,
       LockOp.acquire 2 ObeliskLockMode.OBELISK_LOCK_SHARED]).locked_resources = [1, 2, 3] ∧
    (txn_release_lock (txn_reached (txn_manager_create ⟨0, true, 0⟩ []) 1 0 0 true
      [LockOp.acquire 1 ObeliskLockMode.OBELISK_LOCK_SHARED,
       LockOp.acquire 2 ObeliskLockMode.OBELISK_LOCK_EXCLUSIVE,
       LockOp.acquire 3 ObeliskLockMode.OBELISK_LOCK_SHARED,
       LockOp.acquire 2 ObeliskLockMode.OBELISK_LOCK_SHARED]) 2).2.locked_resources = [1, 3] ∧
    txn_has_lock (txn_release_lock (txn_reached (txn_manager_create ⟨0, true, 0⟩ []) 1 0 0 true
      [LockOp.acquire 1 ObeliskLockMode.OBELISK_LOCK_SHARED,
       LockOp.acquire 2 ObeliskLockMode.OBELISK_LOCK_EXCLUSIVE,
       LockOp.acquire 3 ObeliskLockMode.OBELISK_LOCK_SHARED,
       LockOp.acquire 2 ObeliskLockMode.OBELISK_LOCK_SHARED]) 2).2 2
      ObeliskLockMode.OBELISK_LOCK_SHARED = false :=
  ⟨by decide, by decide,
    ((lock_list_is_set (txn_manager_create ⟨0, true, 0⟩ []) 1 0 0 true
      [LockOp.acquire 1 ObeliskLockMode.OBELISK_LOCK_SHARED,
       LockOp.acquire 2 ObeliskLockMode.OBELISK_LOCK_EXCLUSIVE,
       LockOp.acquire 3 ObeliskLockMode.OBELISK_LOCK_SHARED,
       LockOp.acquire 2 ObeliskLockMode.OBELISK_LOCK_SHARED]).2.2.1 2
      ObeliskLockMode.OBELISK_LOCK_SHARED (by decide)).1⟩

/-! ## Buffer pool: residency -/

theorem find_page_loop_none (pool : ObeliskBufferPool) (page_id : Nat) :
    ∀ (fuel i : Nat), pool.pages.length ≤ i + fuel →
      find_page_loop pool page_id fuel i = none →
      ∀ (j : Nat) (pg : ObeliskPage), i ≤ j → pool.pages[j]? = some pg →
        pg.page_id ≠ page_id := by
  intro fuel
  induction fuel with
  | zero =>
    intro i hf _ j pg h1 h2
    have : j < pool.pages.length := (List.getElem?_eq_some.mp h2).1
    omega
  | succ fuel ih =>
    intro i hf h j pg h1 h2
    rw [find_page_loop] at h
    cases hp : pool.pages[i]? with
    | none =>
      have hj : j < pool.pages.length := (List.getElem?_eq_some.mp h2).1
      have hi : pool.pages.length ≤ i := List.getElem?_eq_none_iff.mp hp
      omega
    | some pg0 =>
      rw [hp] at h
      dsimp only at h
      by_cases c : pg0.page_id = page_id
      · rw [if_pos c] at h; cases h
      · rw [if_neg c] at h
        rcases Nat.eq_or_lt_of_le h1 with e | e
        · subst e
          rw [hp] at h2
          have := Option.some.inj h2
          subst this
          exact c
        · exact ih (i + 1) (by omega) h j pg (by omega) h2

/-- When `find_page` returns `NULL`, no frame holds `page_id`. -/
theorem find_page_none (pool : ObeliskBufferPool) (page_id : Nat)
    (h : find_page pool page_id = none) (j : Nat) (pg : ObeliskPage)
    (hj : pool.pages[j]? = some pg) : pg.page_id ≠ page_id :=
  find_page_loop_none pool page_id (pool_size pool) 0 (by simp [pool_size]) h j pg
    (Nat.zero_le _) hj

theorem find_page_loop_absent (pool : ObeliskBufferPool) (page_id : Nat)
    (h : ∀ (j : Nat) (pg : ObeliskPage), pool.pages[j]? = some pg → pg.page_id ≠ page_id) :
    ∀ (fuel i : Nat), find_page_loop pool page_id fuel i = none := by
  intro fuel
  induction fuel with
  | zero => intro i; rfl
  | succ fuel ih =>
    intro i
    rw [find_page_loop]
    cases hp : pool.pages[i]? with
    | none => rfl
    | some pg =>
      dsimp only
      rw [if_neg (h i pg hp)]
      exact ih (i + 1)

/-- A frame that is unpinned and Clean under the clock hand is the victim, and
the hand stays on it. -/
theorem find_victim_page_free (pool : ObeliskBufferPool) (clock_hand : Nat) (pg : ObeliskPage)
    (hp : pool.pages[clock_hand]? = some pg) (h0 : pg.pin_count = 0)
    (hc : pg.state = ObeliskPageState.OBELISK_PAGE_CLEAN) :
    find_victim_page pool clock_hand = (VictimResult.frame clock_hand, clock_hand) := by
  have hlt : clock_hand < pool.pages.length := (List.getElem?_eq_some.mp hp).1
  obtain ⟨m, hm⟩ : ∃ m, pool_size pool = m + 1 := ⟨pool_size pool - 1, by
    unfold pool_size; omega⟩
  rw [find_victim_page_eq pool clock_hand hlt, hm, find_victim_loop, hp]
  dsimp only
  rw [if_pos ⟨h0, hc⟩]

/-- A miss with an unpinned Clean frame under the clock hand: that frame takes
the page and `misses` is incremented. -/
theorem get_page_miss_free (pool : ObeliskBufferPool) (clock_hand page_id : Nat)
    (pg : ObeliskPage) (hf : find_page pool page_id = none)
    (hp : pool.pages[clock_hand]? = some pg) (h0 : pg.pin_count = 0)
    (hc : pg.state = ObeliskPageState.OBELISK_PAGE_CLEAN) :
    buffer_pool_get_page pool clock_hand page_id =
      some ⟨some clock_hand,
        set_page { pool with misses := incr64 pool.misses } clock_hand
          { pg with page_id := page_id, state := ObeliskPageState.OBELISK_PAGE_CLEAN },
        clock_hand⟩ := by
  unfold buffer_pool_get_page
  rw [hf]
  dsimp only
  rw [find_victim_page_free { pool with misses := incr64 pool.misses } clock_hand pg hp h0 hc]
  dsimp only
  rw [hp]
  dsimp only
  rw [if_neg (by rw [hc]; decide)]

/-- A hit: the frame `find_page` returns is stamped and `hits` is incremented. -/
theorem get_page_hit (pool : ObeliskBufferPool) (clock_hand page_id i : Nat)
    (pg : ObeliskPage) (hf : find_page pool page_id = some i)
    (hp : pool.pages[i]? = some pg) :
    buffer_pool_get_page pool clock_hand page_id =
      some ⟨some i,
        set_page { pool with hits := incr64 pool.hits } i
          { pg with last_accessed := (incr64 pool.hits + pool.misses) % 18446744073709551616 },
        clock_hand⟩ := by
  unfold buffer_pool_get_page
  rw [hf]
  dsimp only
  rw [hp]

theorem fresh_pool_frame (config : ObeliskBufferPoolConfig) (j : Nat) (pg : ObeliskPage)
    (h : (buffer_pool_create config).pages[j]? = some pg) :
    pg = ⟨0, ObeliskPageState.OBELISK_PAGE_CLEAN, 0, 0⟩ := by
  have h' : (List.replicate config.pool_size
      (⟨0, ObeliskPageState.OBELISK_PAGE_CLEAN, 0, 0⟩ : ObeliskPage))[j]? = some pg := h
  rw [List.getElem?_replicate] at h'
  split at h'
  · exact (Option.some.inj h').symm
  · cases h'

theorem fresh_pool_lookup (config : ObeliskBufferPoolConfig) (j : Nat)
    (h : j < config.pool_size) :
    (buffer_pool_create config).pages[j]? =
      some ⟨0, ObeliskPageState.OBELISK_PAGE_CLEAN, 0, 0⟩ := by
  show (List.replicate config.pool_size
      (⟨0, ObeliskPageState.OBELISK_PAGE_CLEAN, 0, 0⟩ : ObeliskPage))[j]? = _
  rw [List.getElem?_replicate, if_pos h]

theorem fresh_pool_find_zero (config : ObeliskBufferPoolConfig) (h : 1 ≤ config.pool_size) :
    find_page (buffer_pool_create config) 0 = some 0 := by
  obtain ⟨m, hm⟩ : ∃ m, pool_size (buffer_pool_create config) = m + 1 :=
    ⟨config.pool_size - 1, by
      show (List.replicate config.pool_size _).length = _
      rw [List.length_replicate]; omega⟩
  unfold find_page
  rw [hm, find_page_loop, fresh_pool_lookup config 0 (by omega)]
  rfl

theorem fresh_pool_find_none (config : ObeliskBufferPoolConfig) (page_id : Nat)
    (h : page_id ≠ 0) : find_page (buffer_pool_create config) page_id = none := by
  apply find_page_loop_absent
  intro j pg hj
  rw [fresh_pool_frame config j pg hj]
  exact fun e => h e.symm

/-- C32 (as stated, refuted): on a fresh pool of two frames
`buffer_pool_get_page(pool, 0)` is a hit on frame 0 (`hits` 1, `misses` 0), and
`buffer_pool_pin_page(pool, 0)` before any `get_page` returns 0 and pins
frame 0. -/
theorem fresh_pool_hits_page_zero :
    (buffer_pool_get_page pool_two 0 0).map (fun r => (r.frame, r.pool.hits, r.pool.misses)) =
      some (some 0, 1, 0) ∧
    (buffer_pool_pin_page pool_two 0).1 = 0 ∧
    (buffer_pool_pin_page pool_two 0).2.pages.map (fun pg => (pg.page_id, pg.pin_count)) =
      [(0, 1), (0, 0)] :=
  ⟨by decide, by decide, by decide⟩

/-- C32 (amended): every frame of a pool just returned by `buffer_pool_create`
holds `page_id` 0, so the pool counts as holding page 0 and no other page.
With `pool_size` at least 1 and the clock hand inside the pool: for every
`page_id` other than 0 the first `buffer_pool_get_page` is a miss (`misses`
becomes 1, `hits` stays 0) that gives the page the frame under the clock hand,
and `buffer_pool_pin_page` before any `get_page` returns `-1` and changes
nothing; for `page_id` 0 the first `buffer_pool_get_page` is a hit on frame 0
(`hits` becomes 1, `misses` stays 0, `last_accessed` 1) and
`buffer_pool_pin_page` returns 0 and sets the `pin_count` of frame 0 to 1. -/
theorem fresh_pool_residency (config : ObeliskBufferPoolConfig) (clock_hand page_id : Nat)
    (h : 1 ≤ config.pool_size) (hch : clock_hand < config.pool_size) :
    (page_id ≠ 0 →
      buffer_pool_get_page (buffer_pool_create config) clock_hand page_id =
        some ⟨some clock_hand,
          set_page { buffer_pool_create config with misses := 1 } clock_hand
            ⟨page_id, ObeliskPageState.OBELISK_PAGE_CLEAN, 0, 0⟩,
          clock_hand⟩ ∧
      buffer_pool_pin_page (buffer_pool_create config) page_id =
        (-1, buffer_pool_create config)) ∧
    buffer_pool_get_page (buffer_pool_create config) clock_hand 0 =
      some ⟨some 0,
        set_page { buffer_pool_create config with hits := 1 } 0
          ⟨0, ObeliskPageState.OBELISK_PAGE_CLEAN, 0, 1⟩,
        clock_hand⟩ ∧
    buffer_pool_pin_page (buffer_pool_create config) 0 =
      (0, set_page (buffer_pool_create config) 0
        ⟨0, ObeliskPageState.OBELISK_PAGE_CLEAN, 1, 0⟩) := by
  refine ⟨fun hid => ⟨?_, ?_⟩, ?_, ?_⟩
  · rw [get_page_miss_free (buffer_pool_create config) clock_hand page_id _
      (fresh_pool_find_none config page_id hid) (fresh_pool_lookup config clock_hand hch)
      rfl rfl]
    rfl
  · unfold buffer_pool_pin_page
    rw [fresh_pool_find_none config page_id hid]
  · rw [get_page_hit (buffer_pool_create config) clock_hand 0 0 _
      (fresh_pool_find_zero config h) (fresh_pool_lookup config 0 (by omega))]
    rfl
  · unfold buffer_pool_pin_page
    rw [fresh_pool_find_zero config h]
    dsimp only
    rw [fresh_pool_lookup config 0 (by omega)]
    rfl

/-- Witness for C32: a fresh pool of two frames, clock hand 0, page 7. -/
theorem fresh_pool_residency_witness :
    (1 ≤ 2 ∧ 0 < 2 ∧ 7 ≠ 0) ∧
    buffer_pool_get_page pool_two 0 7 =
      some ⟨some 0,
        set_page { pool_two with misses := 1 } 0
          ⟨7, ObeliskPageState.OBELISK_PAGE_CLEAN, 0, 0⟩,
        0⟩ ∧
    buffer_pool_pin_page pool_two 7 = (-1, pool_two) :=
  ⟨by decide,
    (fresh_pool_residency ⟨2, 4096, false, 0⟩ 0 7 (by decide) (by decide)).1 (by decide)⟩

theorem page_ids_get (pool : ObeliskBufferPool) (i : Nat) (pg : ObeliskPage)
    (h : pool.pages[i]? = some pg) : (page_ids pool)[i]? = some pg.page_id := by
  unfold page_ids
  rw [List.getElem?_map, h]
  rfl

theorem page_ids_set (pool : ObeliskBufferPool) (i : Nat) (pg : ObeliskPage) :
    page_ids (set_page pool i pg) = (page_ids pool).set i pg.page_id := by
  show (pool.pages.set i pg).map _ = (pool.pages.map _).set i _
  rw [List.map_set]

theorem set_lookup_self (l : List Nat) (i x : Nat) (h : l[i]? = some x) : l.set i x = l := by
  apply List.ext_getElem?
  intro j
  rw [List.getElem?_set]
  by_cases c : i = j
  · subst c
    rw [if_pos rfl, if_pos (List.getElem?_eq_some.mp h).1, h]
  · rw [if_neg c]

theorem page_ids_set_same (pool : ObeliskBufferPool) (i : Nat) (pg pg0 : ObeliskPage)
    (h : pool.pages[i]? = some pg0) (e : pg.page_id = pg0.page_id) :
    page_ids (set_page pool i pg) = page_ids pool := by
  rw [page_ids_set, e]
  exact set_lookup_self _ i _ (page_ids_get pool i pg0 h)

theorem pin_page_ids (pool : ObeliskBufferPool) (page_id : Nat) :
    page_ids (buffer_pool_pin_page pool page_id).2 = page_ids pool := by
  unfold buffer_pool_pin_page
  cases find_page pool page_id with
  | none => rfl
  | some i =>
    dsimp only
    cases hp : pool.pages[i]? with
    | none => rfl
    | some pg => exact page_ids_set_same pool i _ pg hp rfl

theorem unpin_page_ids (pool : ObeliskBufferPool) (page_id : Nat) (is_dirty : Bool) :
    page_ids (buffer_pool_unpin_page pool page_id is_dirty).2 = page_ids pool := by
  unfold buffer_pool_unpin_page
  cases find_page pool page_id with
  | none => rfl
  | some i =>
    dsimp only
    cases hp : pool.pages[i]? with
    | none => rfl
    | some pg =>
      dsimp only
      split
      · rfl
      · apply page_ids_set_same pool i _ pg hp
        cases is_dirty <;> rfl

theorem flush_page_ids (pool : ObeliskBufferPool) (page_id : Nat) :
    page_ids (buffer_pool_flush_page pool page_id).2 = page_ids pool := by
  unfold buffer_pool_flush_page
  cases find_page pool page_id with
  | none => rfl
  | some i =>
    dsimp only
    cases hp : pool.pages[i]? with
    | none => rfl
    | some pg =>
      dsimp only
      split
      · exact page_ids_set_same pool i _ pg hp rfl
      · rfl

theorem flush_all_ids (pool : ObeliskBufferPool) :
    page_ids (buffer_pool_flush_all pool).2 = page_ids pool := by
  unfold page_ids
  rw [flush_all_pages, List.map_map]
  rfl

/-- The frames' page ids after `buffer_pool_get_page`: unchanged, or one frame
takes `page_id`, which no frame held. -/
theorem get_page_ids (pool : ObeliskBufferPool) (clock_hand page_id : Nat) (r : GetPage)
    (hg : buffer_pool_get_page pool clock_hand page_id = some r) :
    page_ids r.pool = page_ids pool ∨
    (¬ page_id ∈ page_ids pool ∧ ∃ i, page_ids r.pool = (page_ids pool).set i page_id) := by
  cases hf : find_page pool page_id with
  | some i =>
    obtain ⟨pg, hp, _⟩ := find_page_loop_some pool page_id _ 0 i hf
    rw [get_page_hit pool clock_hand page_id i pg hf hp] at hg
    have := Option.some.inj hg
    subst this
    left
    exact page_ids_set_same { pool with hits := incr64 pool.hits } i _ pg hp rfl
  | none =>
    have habs : ¬ page_id ∈ page_ids pool := by
      intro hm
      obtain ⟨pg, hpg, e⟩ := List.mem_map.mp hm
      obtain ⟨j, hj, ej⟩ := List.getElem_of_mem hpg
      have hj' : pool.pages[j]? = some pg := by rw [List.getElem?_eq_getElem hj, ej]
      exact find_page_none pool page_id hf j pg hj' e
    unfold buffer_pool_get_page at hg
    rw [hf] at hg
    dsimp only at hg
    cases hv : find_victim_page { pool with misses := incr64 pool.misses } clock_hand with
    | mk res ch =>
      rw [hv] at hg
      cases res with
      | out_of_bounds => cases hg
      | null =>
        dsimp only at hg
        have := Option.some.inj hg
        subst this
        exact Or.inl rfl
      | frame i =>
        dsimp only at hg
        cases hp : pool.pages[i]? with
        | none =>
          have hp' : ({ pool with misses := incr64 pool.misses } : ObeliskBufferPool).pages[i]? =
              none := hp
          rw [hp'] at hg
          cases hg
        | some pg =>
          have hp' : ({ pool with misses := incr64 pool.misses } : ObeliskBufferPool).pages[i]? =
              some pg := hp
          rw [hp'] at hg
          dsimp only at hg
          have := Option.some.inj hg
          subst this
          right
          refine ⟨habs, i, ?_⟩
          dsimp only
          rw [page_ids_set]
          split <;> rfl

theorem mem_of_lookup (l : List Nat) (i x : Nat) (h : l[i]? = some x) : x ∈ l := by
  obtain ⟨hlt, e⟩ := List.getElem?_eq_some.mp h
  exact e ▸ List.getElem_mem hlt

theorem once_set (l : List Nat) (k page_id : Nat)
    (h : ∀ (i j x : Nat), l[i]? = some x → l[j]? = some x → x ≠ 0 → i = j)
    (habs : ¬ page_id ∈ l) :
    ∀ (i j x : Nat), (l.set k page_id)[i]? = some x → (l.set k page_id)[j]? = some x →
      x ≠ 0 → i = j := by
  intro i j x hi hj hx
  rw [List.getElem?_set] at hi hj
  by_cases ci : k = i
  · by_cases cj : k = j
    · exact ci.symm.trans cj
    · rw [if_neg cj] at hj
      rw [if_pos ci] at hi
      split at hi
      · have := Option.some.inj hi
        subst this
        exact absurd (mem_of_lookup l j _ hj) habs
      · cases hi
  · rw [if_neg ci] at hi
    by_cases cj : k = j
    · rw [if_pos cj] at hj
      split at hj
      · have := Option.some.inj hj
        subst this
        exact absurd (mem_of_lookup l i _ hi) habs
      · cases hj
    · rw [if_neg cj] at hj
      exact h i j x hi hj hx

/-- What a defined call does to the frames' page ids. -/
theorem pool_apply_ids (pool : ObeliskBufferPool) (clock_hand : Nat) (op : PoolOp)
    (x : PoolResult × ObeliskBufferPool × Nat) (h : pool_apply pool clock_hand op = some x) :
    page_ids x.2.1 = page_ids pool ∨
    ∃ page_id i, ¬ page_id ∈ page_ids pool ∧
      page_ids x.2.1 = (page_ids pool).set i page_id := by
  cases op with
  | get page_id =>
    rw [pool_apply] at h
    cases hg : buffer_pool_get_page pool clock_hand page_id with
    | none => rw [hg] at h; cases h
    | some r =>
      rw [hg] at h
      have := Option.some.inj h
      subst this
      rcases get_page_ids pool clock_hand page_id r hg with e | ⟨habs, i, e⟩
      · exact Or.inl e
      · exact Or.inr ⟨page_id, i, habs, e⟩
  | pin page_id =>
    have := Option.some.inj h
    subst this
    exact Or.inl (pin_page_ids pool page_id)
  | unpin page_id is_dirty =>
    have := Option.some.inj h
    subst this
    exact Or.inl (unpin_page_ids pool page_id is_dirty)
  | flush page_id =>
    have := Option.some.inj h
    subst this
    exact Or.inl (flush_page_ids pool page_id)
  | flush_all =>
    have := Option.some.inj h
    subst this
    exact Or.inl (flush_all_ids pool)
  | reset_stats =>
    have := Option.some.inj h
    subst this
    exact Or.inl rfl

theorem pool_apply_resident (pool : ObeliskBufferPool) (clock_hand : Nat) (op : PoolOp)
    (x : PoolResult × ObeliskBufferPool × Nat) (h : pool_apply pool clock_hand op = some x)
    (hr : resident_once pool) : resident_once x.2.1 := by
  unfold resident_once at hr ⊢
  rcases pool_apply_ids pool clock_hand op x h with e | ⟨page_id, i, habs, e⟩
  · rw [e]; exact hr
  · rw [e]; exact once_set _ i page_id hr habs

theorem pool_run_resident (ops : List PoolOp) :
    ∀ (pool : ObeliskBufferPool) (clock_hand : Nat)
      (r : List PoolResult × ObeliskBufferPool × Nat),
      pool_run pool clock_hand ops = some r → resident_once pool → resident_once r.2.1 := by
  induction ops with
  | nil =>
    intro pool clock_hand r h hr
    have := Option.some.inj h
    subst this
    exact hr
  | cons op ops ih =>
    intro pool clock_hand r h hr
    rw [pool_run] at h
    cases ha : pool_apply pool clock_hand op with
    | none => rw [ha] at h; cases h
    | some x =>
      obtain ⟨res, pool1, ch1⟩ := x
      rw [ha] at h
      dsimp only at h
      cases hrun : pool_run pool1 ch1 ops with
      | none => rw [hrun] at h; cases h
      | some y =>
        obtain ⟨results, pool2, ch2⟩ := y
        rw [hrun] at h
        dsimp only at h
        have := Option.some.inj h
        subst this
        show resident_once pool2
        exact ih pool1 ch1 (results, pool2, ch2) hrun
          (pool_apply_resident pool clock_hand op (res, pool1, ch1) ha hr)

theorem fresh_pool_resident (config : ObeliskBufferPoolConfig) :
    resident_once (buffer_pool_create config) := by
  intro i j x hi _ hx
  exfalso
  apply hx
  have hi' : (List.map (fun pg : ObeliskPage => pg.page_id)
      (buffer_pool_create config).pages)[i]? = some x := hi
  rw [List.getElem?_map] at hi'
  cases hp : (buffer_pool_create config).pages[i]? with
  | none => rw [hp] at hi'; cases hi'
  | some pg =>
    rw [hp] at hi'
    have e := fresh_pool_frame config i pg hp
    subst e
    exact (Option.some.inj hi').symm

/-- From a clock hand inside the pool `buffer_pool_get_page` is defined. -/
theorem get_page_defined (pool : ObeliskBufferPool) (clock_hand page_id : Nat)
    (hch : clock_hand < pool_size pool) :
    ∃ r, buffer_pool_get_page pool clock_hand page_id = some r := by
  cases hf : find_page pool page_id with
  | some i =>
    obtain ⟨pg, hp, _⟩ := find_page_loop_some pool page_id _ 0 i hf
    exact ⟨_, get_page_hit pool clock_hand page_id i pg hf hp⟩
  | none =>
    unfold buffer_pool_get_page
    rw [hf]
    dsimp only
    cases hv : find_victim_page { pool with misses := incr64 pool.misses } clock_hand with
    | mk res ch =>
      cases res with
      | out_of_bounds =>
        exfalso
        have := find_victim_loop_in_bounds { pool with misses := incr64 pool.misses }
          clock_hand (max (pool_size pool) 1) clock_hand hch
        have hv' : find_victim_loop { pool with misses := incr64 pool.misses } clock_hand
            (max (pool_size pool) 1) clock_hand = (VictimResult.out_of_bounds, ch) := hv
        rw [hv'] at this
        exact this rfl
      | null => exact ⟨_, rfl⟩
      | frame i =>
        obtain ⟨pg, hp, _⟩ := find_victim_loop_frame _ _ _ _ i ch hv
        dsimp only
        rw [hp]
        exact ⟨_, rfl⟩

theorem pool_size_ids (pool : ObeliskBufferPool) : pool_size pool = (page_ids pool).length := by
  unfold pool_size page_ids
  rw [List.length_map]

/-- From a clock hand inside the pool every call is defined, keeps the number
of frames and leaves the clock hand inside the pool. -/
theorem pool_apply_defined (pool : ObeliskBufferPool) (clock_hand : Nat) (op : PoolOp)
    (hch : clock_hand < pool_size pool) :
    ∃ x, pool_apply pool clock_hand op = some x ∧ pool_size x.2.1 = pool_size pool ∧
      x.2.2 < pool_size pool := by
  have hsize : ∀ x, pool_apply pool clock_hand op = some x →
      pool_size x.2.1 = pool_size pool := by
    intro x hx
    rw [pool_size_ids, pool_size_ids]
    rcases pool_apply_ids pool clock_hand op x hx with e | ⟨page_id, i, _, e⟩
    · rw [e]
    · rw [e, List.length_set]
  cases op with
  | get page_id =>
    obtain ⟨r, hr⟩ := get_page_defined pool clock_hand page_id hch
    have hx : pool_apply pool clock_hand (PoolOp.get page_id) =
        some (PoolResult.frame r.frame, r.pool, r.clock_hand) := by
      rw [pool_apply, hr]; rfl
    exact ⟨_, hx, hsize _ hx, (get_page_hand pool clock_hand page_id r hch hr).2⟩
  | pin page_id => exact ⟨_, rfl, hsize _ rfl, hch⟩
  | unpin page_id is_dirty => exact ⟨_, rfl, hsize _ rfl, hch⟩
  | flush page_id => exact ⟨_, rfl, hsize _ rfl, hch⟩
  | flush_all => exact ⟨_, rfl, hsize _ rfl, hch⟩
  | reset_stats => exact ⟨_, rfl, hsize _ rfl, hch⟩

theorem pool_run_defined (ops : List PoolOp) :
    ∀ (pool : ObeliskBufferPool) (clock_hand : Nat), clock_hand < pool_size pool →
      ∃ r, pool_run pool clock_hand ops = some r := by
  induction ops with
  | nil => intro pool clock_hand _; exact ⟨_, rfl⟩
  | cons op ops ih =>
    intro pool clock_hand hch
    obtain ⟨⟨res, pool1, ch1⟩, hx, hs, hh⟩ := pool_apply_defined pool clock_hand op hch
    obtain ⟨⟨results, pool2, ch2⟩, hr⟩ := ih pool1 ch1 (by rw [hs]; exact hh)
    refine ⟨(res :: results, pool2, ch2), ?_⟩
    rw [pool_run, hx]
    dsimp only
    rw [hr]

/-- C31: in every pool state reached from `buffer_pool_create` by
`buffer_pool_get_page`, `buffer_pool_pin_page`, `buffer_pool_unpin_page`,
`buffer_pool_flush_page`, `buffer_pool_flush_all` and `buffer_pool_reset_stats`
calls, two frames that hold the same non-zero `page_id` are the same frame; and
when the clock hand starts inside the pool every such sequence of calls is
defined. -/
theorem page_resident_once (config : ObeliskBufferPoolConfig) (clock_hand : Nat)
    (ops : List PoolOp) :
    (clock_hand < config.pool_size →
      ∃ r, pool_run (buffer_pool_create config) clock_hand ops = some r) ∧
    (∀ r, pool_run (buffer_pool_create config) clock_hand ops = some r →
      ∀ (i j : Nat) (a b : ObeliskPage), r.2.1.pages[i]? = some a → r.2.1.pages[j]? = some b →
        a.page_id = b.page_id → a.page_id ≠ 0 → i = j) := by
  refine ⟨fun hch => ?_, fun r hr i j a b hi hj hab ha => ?_⟩
  · apply pool_run_defined
    show clock_hand < (List.replicate config.pool_size _).length
    rw [List.length_replicate]
    exact hch
  · have hres := pool_run_resident ops (buffer_pool_create config) clock_hand r hr
      (fresh_pool_resident config)
    apply hres i j a.page_id (page_ids_get _ i a hi) _ ha
    rw [hab]
    exact page_ids_get _ j b hj

/-- Witness for C31: a pool of three frames, clock hand 0, the calls
`get_page(1)`, `pin_page(1)`, `get_page(2)`, `unpin_page(1, true)`,
`flush_page(1)`, `get_page(0)`: the frames hold pages 1, 2 and 0. -/
theorem page_resident_once_witness :
    (pool_run (buffer_pool_create ⟨3, 4096, false, 0⟩) 0
      [PoolOp.get 1, PoolOp.pin 1, PoolOp.get 2, PoolOp.unpin 1 true, PoolOp.flush 1,
        PoolOp.get 0]).map (fun r => page_ids r.2.1) = some [1, 2, 0] ∧
    page_ids (buffer_pool_create ⟨3, 4096, false, 0⟩) = [0, 0, 0] ∧
    ∀ r, pool_run (buffer_pool_create ⟨3, 4096, false, 0⟩) 0
      [PoolOp.get 1, PoolOp.pin 1, PoolOp.get 2, PoolOp.unpin 1 true, PoolOp.flush 1,
        PoolOp.get 0] = some r →
      ∀ (i j : Nat) (a b : ObeliskPage), r.2.1.pages[i]? = some a → r.2.1.pages[j]? = some b →
        a.page_id = b.page_id → a.page_id ≠ 0 → i = j :=
  ⟨by decide, by decide,
    (page_resident_once ⟨3, 4096, false, 0⟩ 0
      [PoolOp.get 1, PoolOp.pin 1, PoolOp.get 2, PoolOp.unpin 1 true, PoolOp.flush 1,
        PoolOp.get 0]).2⟩

end Obelisk
